import Mathlib

/-!
# go-json-compare: a shallow embedding of the comparison engine

The Go sources `jsoncomp/comparator.go` and `difflogger.go` are embedded as
Lean definitions, and properties of the comparison engine are proved about
them.

Modelling decisions, fixed once for the whole development:

* A Go `string` is a list of characters (`Str`); every library routine on
  strings that the sources call (`strings.Replace`, `strings.Contains`,
  `strconv.Itoa`, `strconv.Atoi`, `fmt.Sprint`, the one regular expression) is
  written out over such lists. Go works on the UTF-8 bytes; on valid UTF-8,
  which is what the JSON decoder yields, searching, replacing and comparing
  give the same results on bytes and on characters.
* An `interface{}` holding decoded JSON is a `Value`. Go's `int` is taken to be
  64 bits wide; a `float64` is its IEEE-754 bit pattern. The two library
  routines on floats that cannot reasonably be written out here (shortest
  decimal rendering, decimal parsing) are taken as a parameter `GoLib`.
* A Go `map[string]interface{}` is an association list. Go leaves the iteration
  order of a map unspecified; the embedding iterates in list order.
* A run-time panic is an outcome of its own, `Res.panic`, that keeps the Log,
  the current path and the counters reached when the panic was raised.
* The Log is a list of entries. An entry keeps the path and the rest of the
  message apart; the Go string is `Entry.text`, their concatenation.
* `compareArrByKey` removes matched elements with
  `append(parsedAct[:i], parsedAct[i+1:]...)`, which overwrites the backing
  array of the actual document in place. The comparison functions therefore
  return the actual value as it stands after the call. After a shift, two
  positions of one backing array can hold the same element; inside one call of
  `compareArrByKey` this is tracked, so the value returned is exact for a
  document as the decoder built it, in which no two positions share anything.
  A document returned by an earlier call is taken as a plain tree again.
* The progress bar and `fmt.Print` only write to the terminal and are left out.
-/

set_option autoImplicit false

namespace JsonComp

/-! ## Strings -/

/-- A Go string, as its sequence of characters. -/
abbrev Str := List Char

/-- The test `strings.HasPrefix(s, pre)`. -/
def startsWith : Str → Str → Bool
  | _, [] => true
  | [], _ :: _ => false
  | c :: s, d :: pre => decide (c = d) && startsWith s pre

/-- The test `strings.Contains(s, sub)`. -/
def stringsContains : Str → Str → Bool
  | [], sub => startsWith [] sub
  | c :: s, sub => startsWith (c :: s) sub || stringsContains s sub

/-- Replacement of an empty `old`: `new` goes in front of the string and after
each character, `n` times at most. -/
def replaceEmpty (new : Str) : Nat → Str → Str
  | 0, s => s
  | _ + 1, [] => new
  | n + 1, c :: s => new ++ c :: replaceEmpty new n s

/-- Replacement of a non-empty `old`, left to right without overlap: `skip`
characters are still to be dropped from the match in progress, `n` replacements
are still allowed. -/
def replaceAux (old new : Str) : Nat → Nat → Str → Str
  | _, _, [] => []
  | skip + 1, n, _ :: s => replaceAux old new skip n s
  | 0, 0, c :: s => c :: replaceAux old new 0 0 s
  | 0, n + 1, c :: s =>
    if startsWith (c :: s) old then new ++ replaceAux old new (old.length - 1) n s
    else c :: replaceAux old new 0 (n + 1) s

/-- The call `strings.Replace(s, old, new, n)`; a negative `n` lifts the limit. -/
def stringsReplace (s old new : Str) (n : Int) : Str :=
  if old = new ∨ n = 0 then s
  else
    let budget := if n < 0 then s.length + 1 else n.toNat
    if old = [] then replaceEmpty new budget s else replaceAux old new 0 budget s

/-- Length of the longest match of `[^()]*\]` at the head of `s`, if there is one. -/
def closeLen : Str → Option Nat
  | [] => none
  | c :: s =>
    if c = '(' ∨ c = ')' then none
    else
      match closeLen s with
      | some k => some (k + 1)
      | none => if c = ']' then some 1 else none

/-- Deletion of every match of the regular expression `\[[^()]*\]`, leftmost
first and greedy; `skip` characters of the current match are still to be dropped. -/
def reStripAux : Nat → Str → Str
  | _, [] => []
  | skip + 1, _ :: s => reStripAux skip s
  | 0, c :: s =>
    if c = '[' then
      match closeLen s with
      | some k => reStripAux k s
      | none => c :: reStripAux 0 s
    else c :: reStripAux 0 s

/-- The call `regexp.MustCompile("\[[^()]*\]").ReplaceAllString(s, "")`. -/
def reStrip (s : Str) : Str := reStripAux 0 s

/-- The character of a decimal digit. -/
def digitChar (d : Nat) : Char :=
  match d with
  | 0 => '0' | 1 => '1' | 2 => '2' | 3 => '3' | 4 => '4'
  | 5 => '5' | 6 => '6' | 7 => '7' | 8 => '8' | _ => '9'

/-- The value of a decimal digit character. -/
def digitVal (c : Char) : Option Nat :=
  if c = '0' then some 0 else if c = '1' then some 1 else if c = '2' then some 2
  else if c = '3' then some 3 else if c = '4' then some 4 else if c = '5' then some 5
  else if c = '6' then some 6 else if c = '7' then some 7 else if c = '8' then some 8
  else if c = '9' then some 9 else none

/-- Decimal digits of `n` in front of `acc`; `fuel` bounds the number of digits. -/
def fmtNatAux : Nat → Nat → Str → Str
  | 0, _, acc => acc
  | fuel + 1, n, acc =>
    if n / 10 = 0 then digitChar (n % 10) :: acc
    else fmtNatAux fuel (n / 10) (digitChar (n % 10) :: acc)

/-- Decimal rendering of a natural number (`%d`, `strconv.Itoa` on a non-negative int). -/
def fmtNat (n : Nat) : Str := fmtNatAux (n + 1) n []

/-- Decimal rendering of an integer (`%d`, `%v`, `strconv.Itoa`). -/
def fmtInt : Int → Str
  | .ofNat n => fmtNat n
  | .negSucc n => '-' :: fmtNat (n + 1)

/-- Value of a run of decimal digits, continuing from `acc`. -/
def parseDigitsAux (acc : Nat) : Str → Option Nat
  | [] => some acc
  | c :: s =>
    match digitVal c with
    | some d => parseDigitsAux (acc * 10 + d) s
    | none => none

/-- The call `strconv.Atoi(s)` for a 64-bit `int`: `none` stands for a
non-nil error (bad syntax or out of range). -/
def atoi (s : Str) : Option Int :=
  match s with
  | [] => none
  | c :: r =>
    let neg : Bool := decide (c = '-')
    let body : Str := if c = '-' ∨ c = '+' then r else c :: r
    if body = [] then none
    else
      match parseDigitsAux 0 body with
      | none => none
      | some n =>
        if neg then (if n ≤ 2 ^ 63 then some (-(n : Int)) else none)
        else (if n < 2 ^ 63 then some (n : Int) else none)

/-- Lexicographic order of strings, Go's `<` on `string`. -/
def strLt : Str → Str → Bool
  | [], [] => false
  | [], _ :: _ => true
  | _ :: _, [] => false
  | c :: s, d :: t => decide (c < d) || (decide (c = d) && strLt s t)

/-- The call `strings.Join(parts, sep)`. -/
def stringsJoin (sep : Str) : List Str → Str
  | [] => []
  | [s] => s
  | s :: t :: r => s ++ sep ++ stringsJoin sep (t :: r)

/-! ## Values -/

/-- A Go `float64`, by its IEEE-754 bit pattern (taken modulo `2 ^ 64`). -/
structure Float64 where
  bits : Nat
  deriving DecidableEq, Repr

/-- Not-a-number: exponent all ones and a non-zero mantissa. -/
def Float64.isNaN (f : Float64) : Bool :=
  decide ((f.bits % 2 ^ 64 / 2 ^ 52) % 2 ^ 11 = 2 ^ 11 - 1) && decide (f.bits % 2 ^ 52 ≠ 0)

/-- Go's `==` on `float64`: a NaN equals nothing, the two zeros are equal. -/
def Float64.eq (a b : Float64) : Bool :=
  !a.isNaN && !b.isNaN &&
    (decide (a.bits % 2 ^ 64 = b.bits % 2 ^ 64) ||
      (decide (a.bits % 2 ^ 63 = 0) && decide (b.bits % 2 ^ 63 = 0)))

/-- The two float routines of the Go library that are taken as given:
`fmt.Sprint` on a `float64`, and `strconv.ParseFloat(s, 64)` (`none` for a
non-nil error). -/
structure GoLib where
  fmtFloat : Float64 → Str
  parseFloat : Str → Option Float64

/-- What an `interface{}` of a decoded JSON document can hold: `nil`, `bool`,
`int`, `float64`, `string`, `map[string]interface{}`, `[]interface{}`. -/
inductive Value where
  | null
  | bool (b : Bool)
  | int (i : Int)
  | float (f : Float64)
  | str (s : Str)
  | obj (fields : List (Str × Value))
  | arr (elems : List Value)
  deriving Repr

/-- The comma-ok assertion `v.([]interface{})`. -/
def Value.isArr : Value → Bool
  | .arr _ => true
  | _ => false

/-- The comma-ok assertion `v.(map[string]interface{})`. -/
def Value.isObj : Value → Bool
  | .obj _ => true
  | _ => false

/-- The dynamic type, as `%T` prints it. -/
def Value.typeName : Value → Str
  | .null => "<nil>".toList
  | .bool _ => "bool".toList
  | .int _ => "int".toList
  | .float _ => "float64".toList
  | .str _ => "string".toList
  | .obj _ => "map[string]interface \x7b\x7d".toList
  | .arr _ => "[]interface \x7b\x7d".toList

/-- Go's `==` on two `interface{}` values. Values of different dynamic types
are unequal; two maps or two slices cannot be compared and the run-time
panics (`none`). -/
def ifaceEq : Value → Value → Option Bool
  | .null, .null => some true
  | .bool a, .bool b => some (decide (a = b))
  | .int a, .int b => some (decide (a = b))
  | .float a, .float b => some (a.eq b)
  | .str a, .str b => some (decide (a = b))
  | .obj _, .obj _ => none
  | .arr _, .arr _ => none
  | _, _ => some false

/-- Map lookup `m[k]` with the comma-ok result. -/
def lookup (k : Str) : List (Str × Value) → Option Value
  | [] => none
  | (k', v) :: r => if k' = k then some v else lookup k r

/-- Map lookup `m[k]`: the zero value `nil` when the key is absent. -/
def lookupD (k : Str) (m : List (Str × Value)) : Value :=
  match lookup k m with
  | some v => v
  | none => .null

/-- The map with the value under `k` replaced (the key is present). -/
def setField (k : Str) (w : Value) : List (Str × Value) → List (Str × Value)
  | [] => []
  | (k', v) :: r => if k' = k then (k', w) :: r else (k', v) :: setField k w r

/-- Insertion of a rendered map entry by ascending key. -/
def insertByKey (e : Str × Str) : List (Str × Str) → List (Str × Str)
  | [] => [e]
  | f :: r => if strLt f.1 e.1 then f :: insertByKey e r else e :: f :: r

/-- Rendered map entries sorted by key, as `fmt` prints a map. -/
def sortByKey : List (Str × Str) → List (Str × Str)
  | [] => []
  | e :: r => insertByKey e (sortByKey r)

mutual
/-- The rendering `fmt.Sprint(v)`, which is also what `%v` prints. -/
def sprint (lib : GoLib) : Value → Str
  | .null => "<nil>".toList
  | .bool true => "true".toList
  | .bool false => "false".toList
  | .int i => fmtInt i
  | .float f => lib.fmtFloat f
  | .str s => s
  | .obj fs =>
    "map[".toList ++
      stringsJoin " ".toList ((sortByKey (sprintFields lib fs)).map (fun e => e.1 ++ ':' :: e.2))
      ++ "]".toList
  | .arr es => "[".toList ++ stringsJoin " ".toList (sprintElems lib es) ++ "]".toList
/-- The entries of a map, each value rendered. -/
def sprintFields (lib : GoLib) : List (Str × Value) → List (Str × Str)
  | [] => []
  | (k, v) :: r => (k, sprint lib v) :: sprintFields lib r
/-- The elements of a slice, each rendered. -/
def sprintElems (lib : GoLib) : List Value → List Str
  | [] => []
  | v :: r => sprint lib v :: sprintElems lib r
end

/-! ## difflogger.go -/

/-- The six kinds of difference record, and the summary entry. -/
inductive Kind where
  | missProp | incorrType | lackItems | exceedItems | unequalVal | missItem | summary
  deriving DecidableEq, Repr

/-- One element of `Log`: the Go string is `path ++ body`. A difference
record starts with the current path; the summary entry has no path. -/
structure Entry where
  kind : Kind
  path : Str
  body : Str
  deriving DecidableEq, Repr

/-- The Go string stored in `Log`. -/
def Entry.text (e : Entry) : Str := e.path ++ e.body

/-- The struct `DiffLogger`. The counters are Go `int`s; they count appended
records, so they stay far below `2 ^ 63` and are kept as natural numbers. -/
structure DiffLogger where
  Log : List Entry
  currPath : Str
  missingProp : Nat
  incorrType : Nat
  lackOfItems : Nat
  exceedItems : Nat
  uneqVal : Nat
  missItems : Nat
  deriving Repr

/-- The struct `Comparator`, which embeds `DiffLogger`. -/
structure Comparator extends DiffLogger where
  lName : Str
  rName : Str
  lData : Value
  rData : Value
  keys : List Str
  ignoreKeys : List Str
  IgnoreTypes : Bool
  ProgressBar : Bool
  deriving Repr

/-- The method `Summary`: the Log joined by newlines. -/
def Summary (c : Comparator) : Str :=
  stringsJoin "\n".toList (c.Log.map Entry.text)

/-- The text built by `setupSummary` from the Log length and the six counters. -/
def summaryText (n a b d e f g : Nat) : Str :=
  "-------------------\nTOTAL: ".toList ++ fmtNat n ++ " differences\n- Missing Properties: ".toList
    ++ fmtNat a ++ "\n- Incorrect Type: ".toList ++ fmtNat b ++ "\n- Lack of Items: ".toList
    ++ fmtNat d ++ "\n- Exceeding Items: ".toList ++ fmtNat e ++ "\n- Unequal Vales: ".toList
    ++ fmtNat f ++ "\n- Missing Items: ".toList ++ fmtNat g ++ "\n".toList

/-- The method `setupSummary`. -/
def setupSummary (c : Comparator) : Comparator :=
  { c with
    Log := c.Log ++ [⟨.summary, [],
      summaryText c.Log.length c.missingProp c.incorrType c.lackOfItems c.exceedItems
        c.uneqVal c.missItems⟩] }

/-- The method `toJSONType`. -/
def toJSONType : Value → Str
  | .int _ => "<int>".toList
  | .float _ => "<float>".toList
  | .str _ => "<str>".toList
  | .bool _ => "<bool>".toList
  | .obj _ => "<object>".toList
  | .arr _ => "<array>".toList
  | .null => "<null>".toList

/-- The method `newIncorrType`. -/
def newIncorrType (lib : GoLib) (c : Comparator) (exp act : Value) : Comparator :=
  { c with
    incorrType := c.incorrType + 1
    Log := c.Log ++ [⟨.incorrType, c.currPath,
      "\nincorrect type: expected ".toList ++ sprint lib exp ++ " ".toList ++ toJSONType exp
        ++ ", got ".toList ++ sprint lib act ++ " ".toList ++ toJSONType act
        ++ " instead\n".toList⟩] }

/-- The method `newMissProp`. -/
def newMissProp (c : Comparator) : Comparator :=
  { c with
    missingProp := c.missingProp + 1
    Log := c.Log ++ [⟨.missProp, c.currPath, "\nproperty is missing".toList⟩] }

/-- The method `newUnequalVal`: when the two dynamic types differ the record
is written by `newIncorrType`, after `uneqVal` has been counted up. -/
def newUnequalVal (lib : GoLib) (c : Comparator) (exp act : Value) : Comparator :=
  let c1 : Comparator := { c with uneqVal := c.uneqVal + 1 }
  if exp.typeName ≠ act.typeName then newIncorrType lib c1 exp act
  else
    { c1 with
      Log := c1.Log ++ [⟨.unequalVal, c1.currPath,
        "\nunequal values: expected ".toList ++ sprint lib exp ++ ", got ".toList
          ++ sprint lib act ++ " instead".toList⟩] }

/-- The method `newLackItems`. -/
def newLackItems (c : Comparator) (expLen actLen : Nat) : Comparator :=
  { c with
    lackOfItems := c.lackOfItems + 1
    Log := c.Log ++ [⟨.lackItems, c.currPath,
      "\nlack of items in array: expected ".toList ++ fmtNat expLen
        ++ " items, got only ".toList ++ fmtNat actLen⟩] }

/-- The method `newExceedItems`. -/
def newExceedItems (c : Comparator) (expLen actLen : Nat) : Comparator :=
  { c with
    exceedItems := c.exceedItems + 1
    Log := c.Log ++ [⟨.exceedItems, c.currPath,
      "\ntoo much items in array: expected ".toList ++ fmtNat expLen
        ++ " items, got ".toList ++ fmtNat actLen⟩] }

/-- The method `newMissItem`. The target map is iterated in list order. -/
def newMissItem (lib : GoLib) (c : Comparator) (tKeyVals : List (Str × Value)) : Comparator :=
  { c with
    missItems := c.missItems + 1
    Log := c.Log ++ [⟨.missItem, c.currPath,
      "\nmissing array item: expected <object> with ".toList
        ++ stringsJoin ", ".toList (tKeyVals.map (fun kv => kv.1 ++ ": ".toList ++ sprint lib kv.2))⟩] }

/-- The method `setCurrPath`. -/
def setCurrPath (c : Comparator) (prevP key : Str) : Comparator :=
  if prevP ≠ [] then { c with currPath := prevP ++ "//".toList ++ key }
  else { c with currPath := "//".toList ++ key }

/-! ## comparator.go -/

/-- Outcome of a method that may panic: normal return with a result, or a
run-time panic. Both carry the Comparator as it then stands. -/
inductive Res (α : Type) where
  | done (c : Comparator) (a : α)
  | panic (c : Comparator)

/-- The Comparator at the end of the call, however it ended. -/
def Res.comp {α : Type} : Res α → Comparator
  | .done c _ => c
  | .panic c => c

/-- Whether the call returned normally. -/
def Res.isDone {α : Type} : Res α → Bool
  | .done _ _ => true
  | .panic _ => false

/-- Sequencing: a panic ends the run, a normal return goes on with `f`. -/
def Res.bind {α β : Type} (r : Res α) (f : Comparator → α → Res β) : Res β :=
  match r with
  | .panic c => .panic c
  | .done c a => f c a

/-- The method `clearTemp`. -/
def clearTemp (c : Comparator) : Comparator :=
  { c with Log := [], currPath := [] }

/-- The method `setKeyRoot`. -/
def setKeyRoot (c : Comparator) (old new : Str) : Comparator :=
  { c with keys := c.keys.map (fun key => stringsReplace key old new (-1)) }

/-- The method `ignoreCurrKey`. Both root replacements name `rName`, as in the source. -/
def ignoreCurrKey (c : Comparator) : Bool :=
  let p := reStrip c.currPath
  let p := stringsReplace p c.rName "DATA".toList 1
  let p := stringsReplace p c.rName "DATA".toList 1
  let p := stringsReplace p "////".toList "//".toList (-1)
  c.ignoreKeys.any (fun keyToIgnore => decide (p = keyToIgnore))

/-- The first four comparisons of `compareValues` after the type checks:
same dynamic type and equal. -/
def sameTypedEqual : Value → Value → Bool
  | .int a, .int b => decide (a = b)
  | .float a, .float b => a.eq b
  | .str a, .str b => decide (a = b)
  | .bool a, .bool b => decide (a = b)
  | _, _ => false

/-- The type switch of `compareValues`: the rendering of `act` read back at
the type of `exp`. -/
def coercedEqual (lib : GoLib) : Value → Value → Bool
  | .str s, act => decide (s = sprint lib act)
  | .int i, act =>
    match atoi (sprint lib act) with
    | some j => decide (i = j)
    | none => false
  | .float f, act =>
    match lib.parseFloat (sprint lib act) with
    | some g => f.eq g
    | none => false
  | .bool b, act =>
    (b && decide (sprint lib act = "true".toList)) ||
      (!b && decide (sprint lib act = "false".toList))
  | .null, act =>
    decide (sprint lib act = "null".toList) || decide (sprint lib act = "nil".toList)
  | _, _ => false

/-- The method `compareValues`. -/
def compareValues (lib : GoLib) (c : Comparator) (exp act : Value) : Res Unit :=
  match ifaceEq exp act with
  | none => .panic c
  | some true => .done c ()
  | some false =>
    if !c.IgnoreTypes then .done (newUnequalVal lib c exp act) ()
    else if sameTypedEqual exp act then .done c ()
    else if coercedEqual lib exp act then .done c ()
    else .done (newUnequalVal lib c exp act) ()

/-- The method `matchingKeys`. -/
def matchingKeys (c : Comparator) : List Str :=
  if c.keys.length = 0 then []
  else
    c.keys.filterMap (fun k =>
      let cleanK := stringsReplace k (c.currPath ++ "//".toList) [] 1
      if !stringsContains cleanK "//".toList then some cleanK else none)

/-- The method `compareArrLen`; its parameter `p` is not used by the source. -/
def compareArrLen (c : Comparator) (_p : Str) (expLen actLen : Nat) : Comparator :=
  if expLen > actLen then newLackItems c expLen actLen
  else if expLen < actLen then newExceedItems c expLen actLen
  else c

/-- The keys of a Go map built by assigning `keys` in order: each once. -/
def dedupKeys : List Str → List Str
  | [] => []
  | k :: ks => k :: (dedupKeys ks).filter (fun k' => decide (k' ≠ k))

/-- The method `TargetKeyValMap`, on the fields of the asserted map. -/
def TargetKeyValMap (parsedSrc : List (Str × Value)) (keys : List Str) : List (Str × Value) :=
  (dedupKeys keys).map (fun k => (k, lookupD k parsedSrc))

/-- The inner loop of `relevantKeyValIdx`: every target field is compared, and
one uncomparable pair makes the run-time panic (`none`). -/
def isTarget (parsedV : List (Str × Value)) : List (Str × Value) → Option Bool
  | [] => some true
  | (tKey, tVal) :: r =>
    match ifaceEq (lookupD tKey parsedV) tVal, isTarget parsedV r with
    | some b, some rest => some (b && rest)
    | _, _ => none

/-- Result of `relevantKeyValIdx`: a panic, `(0, false)`, or `(idx, true)`. -/
inductive Found where
  | panics
  | missing
  | found (idx : Nat)
  deriving DecidableEq, Repr

/-- The outer loop of `relevantKeyValIdx` from index `i` on. -/
def relevantAux (targetKeyVal : List (Str × Value)) : Nat → List Value → Found
  | _, [] => .missing
  | i, v :: r =>
    match v with
    | .obj parsedV =>
      match isTarget parsedV targetKeyVal with
      | none => .panics
      | some true => .found i
      | some false => relevantAux targetKeyVal (i + 1) r
    | _ => .panics

/-- The method `relevantKeyValIdx`. -/
def relevantKeyValIdx (src : List Value) (targetKeyVal : List (Str × Value)) : Found :=
  relevantAux targetKeyVal 0 src

/-- The effect of `parsedAct = append(parsedAct[:idx], parsedAct[idx+1:]...)` on
the backing array, where `m` is the length of `parsedAct` before the call:
positions `idx .. m-2` take the contents of `idx+1 .. m-1`, all else stays. -/
def removeShift {α : Type} (back : List α) (idx m : Nat) : List α :=
  back.take idx ++ (back.drop (idx + 1)).take (m - 1 - idx) ++ back.drop (m - 1)

/-- A write through one element of the backing array: every position that
holds the same element (number `id` of the original array) sees it. -/
def writeCell (id : Nat) (w : Value) (back : List (Nat × Value)) : List (Nat × Value) :=
  back.map (fun e => if e.1 = id then (e.1, w) else e)

mutual
/-- The method `compareObj`. The result is the actual value after the call. -/
def compareObj (lib : GoLib) (p : Str) (c : Comparator) (exp act : Value) : Res Value :=
  match exp, act with
  | .obj parsedExp, .obj parsedAct =>
    (objLoop lib p c parsedExp parsedAct).bind fun c' afs => .done c' (.obj afs)
  | _, _ => .panic c
termination_by structural exp
/-- The loop of `compareObj` over the remaining expected fields. -/
def objLoop (lib : GoLib) (p : Str) (c : Comparator)
    (parsedExp parsedAct : List (Str × Value)) : Res (List (Str × Value)) :=
  match parsedExp with
  | [] => .done c parsedAct
  | (k, v) :: rest =>
    let c1 := setCurrPath c p k
    match lookup k parsedAct with
    | none => objLoop lib p (newMissProp c1) rest parsedAct
    | some a =>
      match v with
      | .obj _ =>
        (compareObj lib c1.currPath c1 v a).bind fun c2 a' =>
          objLoop lib p c2 rest (setField k a' parsedAct)
      | .arr _ =>
        (compareArr lib c1.currPath c1 v a).bind fun c2 a' =>
          objLoop lib p c2 rest (setField k a' parsedAct)
      | _ =>
        match ifaceEq v a with
        | none => .panic c1
        | some true => objLoop lib p c1 rest parsedAct
        | some false =>
          if ignoreCurrKey c1 then objLoop lib p c1 rest parsedAct
          else
            (compareValues lib c1 v a).bind fun c2 _ => objLoop lib p c2 rest parsedAct
termination_by structural parsedExp
/-- The method `compareArr`, with the bodies of `compareArrByKey` and
`compareArrByOrder` up to their loops: both assert the two slices and call
`compareArrLen` first. -/
def compareArr (lib : GoLib) (p : Str) (c : Comparator) (exp act : Value) : Res Value :=
  match exp, act with
  | .arr parsedExp, .arr parsedAct =>
    let c1 := setCurrPath c p "<array>".toList
    let keys := matchingKeys c1
    let c2 := compareArrLen c1 c1.currPath parsedExp.length parsedAct.length
    if keys.length > 0 then
      (keyLoop lib c1.currPath keys c2 0 parsedExp parsedAct.enum parsedAct.length).bind
        fun c' back => .done c' (.arr (back.map Prod.snd))
    else
      (orderLoop lib c1.currPath parsedAct.length c2 0 parsedExp parsedAct).bind
        fun c' back => .done c' (.arr back)
  | _, _ => .panic (setCurrPath c p "<array>".toList)
termination_by structural exp
/-- The loop of `compareArrByOrder` from index `i` on; `back` is the actual array. -/
def orderLoop (lib : GoLib) (p : Str) (actLen : Nat) (c : Comparator) (i : Nat)
    (parsedExp back : List Value) : Res (List Value) :=
  match parsedExp with
  | [] => .done c back
  | v :: rest =>
    let c1 := setCurrPath c p (fmtNat i)
    if i ≥ actLen then .done c1 back
    else
      match back[i]? with
      | none => .panic c1
      | some a =>
        match v with
        | .obj _ =>
          (compareObj lib c1.currPath c1 v a).bind fun c2 a' =>
            orderLoop lib p actLen c2 (i + 1) rest (back.set i a')
        | .arr _ =>
          (compareArr lib c1.currPath c1 v a).bind fun c2 a' =>
            orderLoop lib p actLen c2 (i + 1) rest (back.set i a')
        | _ =>
          match ifaceEq v a with
          | none => .panic c1
          | some true => orderLoop lib p actLen c1 (i + 1) rest back
          | some false =>
            (compareValues lib c1 v a).bind fun c2 _ =>
              orderLoop lib p actLen c2 (i + 1) rest back
termination_by structural parsedExp
/-- The loop of `compareArrByKey` from index `i` on. `back` is the backing
array of the actual slice, each position tagged with the number of the
original element it holds; `m` is the current length of `parsedAct`. -/
def keyLoop (lib : GoLib) (p : Str) (keys : List Str) (c : Comparator) (i : Nat)
    (parsedExp : List Value) (back : List (Nat × Value)) (m : Nat) : Res (List (Nat × Value)) :=
  match parsedExp with
  | [] => .done c back
  | v :: rest =>
    let c1 := setCurrPath c p (fmtNat i)
    match v with
    | .obj parsedV =>
      let targetKeyVals := TargetKeyValMap parsedV keys
      match relevantKeyValIdx ((back.take m).map Prod.snd) targetKeyVals with
      | .panics => .panic c1
      | .missing => keyLoop lib p keys (newMissItem lib c1 targetKeyVals) (i + 1) rest back m
      | .found idx =>
        match (back.take m)[idx]? with
        | none => .panic c1
        | some cell =>
          (compareObj lib c1.currPath c1 v cell.2).bind fun c2 a' =>
            keyLoop lib p keys c2 (i + 1) rest (removeShift (writeCell cell.1 a' back) idx m) (m - 1)
    | .arr _ =>
      match (back.take m)[i]? with
      | none => .panic c1
      | some cell =>
        (compareArr lib c1.currPath c1 v cell.2).bind fun c2 a' =>
          keyLoop lib p keys c2 (i + 1) rest (removeShift (writeCell cell.1 a' back) i m) (m - 1)
    | _ =>
      match (back.take m)[i]? with
      | none => .panic c1
      | some cell =>
        match ifaceEq v cell.2 with
        | none => .panic c1
        | some true => keyLoop lib p keys c1 (i + 1) rest back m
        | some false =>
          (compareValues lib c1 v cell.2).bind fun c2 _ =>
            keyLoop lib p keys c2 (i + 1) rest back m
termination_by structural parsedExp
end

/-- The method `compareArrByOrder`. -/
def compareArrByOrder (lib : GoLib) (p : Str) (c : Comparator) (exp act : Value) : Res Value :=
  match exp, act with
  | .arr parsedExp, .arr parsedAct =>
    let c2 := compareArrLen c p parsedExp.length parsedAct.length
    (orderLoop lib p parsedAct.length c2 0 parsedExp parsedAct).bind
      fun c' back => .done c' (.arr back)
  | _, _ => .panic c

/-- The method `compareArrByKey`. -/
def compareArrByKey (lib : GoLib) (p : Str) (c : Comparator) (exp act : Value)
    (keys : List Str) : Res Value :=
  match exp, act with
  | .arr parsedExp, .arr parsedAct =>
    let c2 := compareArrLen c p parsedExp.length parsedAct.length
    (keyLoop lib p keys c2 0 parsedExp parsedAct.enum parsedAct.length).bind
      fun c' back => .done c' (.arr (back.map Prod.snd))
  | _, _ => .panic c

/-- The method `compare`. The actual document is stored back as the call left
it; after a panic the documents are not looked at again and stay as they were. -/
def compare (lib : GoLib) (c : Comparator) (withLeft : Bool) : Res Unit :=
  let leftIsArr := c.lData.isArr
  let rightIsArr := c.rData.isArr
  let root := if withLeft then c.rName else c.lName
  let lData := if withLeft then c.rData else c.lData
  let rData := if withLeft then c.lData else c.rData
  let store := fun (c' : Comparator) (a : Value) =>
    if withLeft then { c' with lData := a } else { c' with rData := a }
  if leftIsArr && rightIsArr then
    (compareArr lib root c lData rData).bind fun c' a => .done (store c' a) ()
  else if !leftIsArr && !rightIsArr then
    (compareObj lib root c lData rData).bind fun c' a => .done (store c' a) ()
  else .done (newIncorrType lib c lData rData) ()

/-- The method `CompWithRight`. -/
def CompWithRight (lib : GoLib) (c : Comparator) : Res Unit :=
  let c1 := clearTemp c
  let c2 := setKeyRoot c1 "DATA".toList c1.rName
  (compare lib c2 false).bind fun c3 _ =>
    .done (setupSummary (setKeyRoot c3 c3.rName "DATA".toList)) ()

/-- The method `CompWithLeft`. -/
def CompWithLeft (lib : GoLib) (c : Comparator) : Res Unit :=
  let c1 := clearTemp c
  let c2 := setKeyRoot c1 "DATA".toList c1.lName
  (compare lib c2 true).bind fun c3 _ =>
    .done (setupSummary (setKeyRoot c3 c3.lName "DATA".toList)) ()

/-- The method `CompareFull`. -/
def CompareFull (lib : GoLib) (c : Comparator) : Res Unit :=
  let c1 := clearTemp c
  let c2 := setKeyRoot c1 "DATA".toList c1.lName
  (compare lib c2 false).bind fun c3 _ =>
    (compare lib (setKeyRoot c3 c3.rName c3.rName) true).bind fun c5 _ =>
      .done (setupSummary (setKeyRoot c5 c5.lName "DATA".toList)) ()

/-- The value `&Comparator{...}` built by `NewComparatorWithKeys` from the two
loaded files (`NewComparator` is the case of no keys and no ignored keys). -/
def NewComparatorWithKeys (lName rName : Str) (lData rData : Value)
    (keys ignoreKeys : List Str) (ignoreT : Bool) : Comparator :=
  { Log := [], currPath := [], missingProp := 0, incorrType := 0, lackOfItems := 0,
    exceedItems := 0, uneqVal := 0, missItems := 0,
    lName := lName, rName := rName, lData := lData, rData := rData,
    keys := keys, ignoreKeys := ignoreKeys, IgnoreTypes := ignoreT, ProgressBar := true }

/-! ## Vocabulary of the statements -/

/-- The path `q` lies strictly below `p`: it continues `p` with a separator. -/
def Below (p q : Str) : Prop := (p ++ "//".toList) <+: q

/-- The Log of `c'` is the Log of `c` followed by entries whose paths satisfy `P`. -/
def Grows (P : Str → Prop) (c c' : Comparator) : Prop :=
  ∃ added, c'.Log = c.Log ++ added ∧ ∀ e ∈ added, P e.path

/-- The test that path `q` is `p` itself or lies below it. -/
def atOrBelow (p q : Str) : Bool := decide (q = p) || startsWith q (p ++ "//".toList)

/-- The record written by `newMissProp` for field `k` of the object at `p`. -/
def missRec (p k : Str) : Entry :=
  ⟨.missProp, p ++ "//".toList ++ k, "\nproperty is missing".toList⟩

/-- The record written by `compareArrLen` at path `q` for lengths `m` and `n`. -/
def lenRecs (q : Str) (m n : Nat) : List Entry :=
  if m > n then
    [⟨.lackItems, q, "\nlack of items in array: expected ".toList ++ fmtNat m
      ++ " items, got only ".toList ++ fmtNat n⟩]
  else if m < n then
    [⟨.exceedItems, q, "\ntoo much items in array: expected ".toList ++ fmtNat m
      ++ " items, got ".toList ++ fmtNat n⟩]
  else []

/-- What a run reads of the Comparator besides the ignore list: the current
path, the keys, the coercion flag, and the two names and documents. -/
def Comparator.cfg (c : Comparator) : Str × List Str × Bool × Str × Str × Value × Value :=
  (c.currPath, c.keys, c.IgnoreTypes, c.lName, c.rName, c.lData, c.rData)

/-- The records of a Log: all entries but the summary. -/
def records (c : Comparator) : List Entry :=
  c.Log.filter (fun e => decide (e.kind ≠ .summary))

/-- Two outcomes that end the same way and in the same state (Log, current
path, counters); the values returned may differ. -/
def SameRun {α β : Type} (r : Res α) (r' : Res β) : Prop :=
  r.isDone = r'.isDone ∧ r.comp = r'.comp

/-- The test that no element of the pool equals the target on every key field:
each element is an object, and the comparison of its key fields with the
target values comes out unequal. -/
def noneMatches (pool : List Value) (target : List (Str × Value)) : Bool :=
  pool.all (fun a =>
    match a with
    | .obj afs => decide (isTarget afs target = some false)
    | _ => false)

/-- The record written by `newMissItem` at path `q` for the target values. -/
def missItemRec (lib : GoLib) (q : Str) (target : List (Str × Value)) : Entry :=
  ⟨.missItem, q, "\nmissing array item: expected <object> with ".toList
    ++ stringsJoin ", ".toList (target.map (fun kv => kv.1 ++ ": ".toList ++ sprint lib kv.2))⟩

/-- The loop of `compareArrByKey` from index `i` on, with the actual side as
the loop reads it: the slice `parsedAct` alone, here `pool`, from which a
matched element is removed. -/
def poolLoop (lib : GoLib) (p : Str) (keys : List Str) (c : Comparator) (i : Nat)
    (parsedExp pool : List Value) : Res (List Value) :=
  match parsedExp with
  | [] => .done c pool
  | v :: rest =>
    let c1 := setCurrPath c p (fmtNat i)
    match v with
    | .obj parsedV =>
      let targetKeyVals := TargetKeyValMap parsedV keys
      match relevantKeyValIdx pool targetKeyVals with
      | .panics => .panic c1
      | .missing => poolLoop lib p keys (newMissItem lib c1 targetKeyVals) (i + 1) rest pool
      | .found idx =>
        match pool[idx]? with
        | none => .panic c1
        | some a =>
          (compareObj lib c1.currPath c1 v a).bind fun c2 _ =>
            poolLoop lib p keys c2 (i + 1) rest (pool.eraseIdx idx)
    | .arr _ =>
      match pool[i]? with
      | none => .panic c1
      | some a =>
        (compareArr lib c1.currPath c1 v a).bind fun c2 _ =>
          poolLoop lib p keys c2 (i + 1) rest (pool.eraseIdx i)
    | _ =>
      match pool[i]? with
      | none => .panic c1
      | some a =>
        match ifaceEq v a with
        | none => .panic c1
        | some true => poolLoop lib p keys c1 (i + 1) rest pool
        | some false =>
          (compareValues lib c1 v a).bind fun c2 _ => poolLoop lib p keys c2 (i + 1) rest pool

/-- Two objects are equal on every key field, by Go's `==` on the values
they hold there. -/
def agreeOn (keys : List Str) (a b : Value) : Bool :=
  match a, b with
  | .obj afs, .obj bfs =>
    keys.all (fun k => decide (ifaceEq (lookupD k afs) (lookupD k bfs) = some true))
  | _, _ => false

/-- The elements of an array are pairwise distinct on the key fields. -/
def DistinctOn (keys : List Str) (as : List Value) : Prop :=
  as.Pairwise (fun a b => agreeOn keys a b = false)

/-- A Comparator set up for the plain comparison: no key declarations, no
ignore paths, coercion off. -/
def Plain (c : Comparator) : Prop :=
  c.keys = [] ∧ c.ignoreKeys = [] ∧ c.IgnoreTypes = false

mutual
/-- The test that the plain comparison of `exp` against `act`, in this one
direction, finds nothing to record: every field of an expected object is in the
actual object with a value that passes the test, two arrays have the same
length and pass it element by element, and a scalar equals the actual value by
Go's `==`. Keys that only the actual object has are not looked at. -/
def covers : Value → Value → Bool
  | .obj E, a =>
    match a with
    | .obj A => fieldsCover E A
    | _ => false
  | .arr es, a =>
    match a with
    | .arr as => elemsCover es as
    | _ => false
  | v, a => decide (ifaceEq v a = some true)
/-- The test `covers` on each field of an expected object. -/
def fieldsCover : List (Str × Value) → List (Str × Value) → Bool
  | [], _ => true
  | (k, v) :: rest, A =>
    (match lookup k A with
      | none => false
      | some a => covers v a) && fieldsCover rest A
/-- The test `covers` on two arrays of the same length, element by element. -/
def elemsCover : List Value → List Value → Bool
  | [], as => as.isEmpty
  | v :: rest, as =>
    match as with
    | [] => false
    | a :: s => covers v a && elemsCover rest s
end

mutual
/-- Modelled from the spec: two trees are deep-equal when two objects have the
same keys with deep-equal values, two arrays have the same length and pairwise
deep-equal elements, and two scalars are equal. -/
def deepEqual : Value → Value → Bool
  | .obj E, a =>
    match a with
    | .obj A => fieldsEqual E A && A.all (fun kv => (lookup kv.1 E).isSome)
    | _ => false
  | .arr es, a =>
    match a with
    | .arr as => elemsEqual es as
    | _ => false
  | v, a => decide (ifaceEq v a = some true)
/-- Modelled from the spec: every key of the first object is a key of the
second, with deep-equal values. -/
def fieldsEqual : List (Str × Value) → List (Str × Value) → Bool
  | [], _ => true
  | (k, v) :: rest, A =>
    (match lookup k A with
      | none => false
      | some a => deepEqual v a) && fieldsEqual rest A
/-- Modelled from the spec: same length and pairwise deep-equal elements. -/
def elemsEqual : List Value → List Value → Bool
  | [], as => as.isEmpty
  | v :: rest, as =>
    match as with
    | [] => false
    | a :: s => deepEqual v a && elemsEqual rest s
end

mutual
/-- The test that a tree is a decoded JSON document: the keys of every object
in it are pairwise different, as the keys of a Go map are. -/
def distinctKeys : Value → Bool
  | .obj fs => decide (fs.map Prod.fst).Nodup && fieldsDistinct fs
  | .arr es => elemsDistinct es
  | _ => true
/-- The test `distinctKeys` on the value of each field. -/
def fieldsDistinct : List (Str × Value) → Bool
  | [] => true
  | (_, v) :: rest => distinctKeys v && fieldsDistinct rest
/-- The test `distinctKeys` on each element. -/
def elemsDistinct : List Value → Bool
  | [] => true
  | v :: rest => distinctKeys v && elemsDistinct rest
end

/-- The outcome `r` of a call made in state `c` follows the test `b`: when the
test passes, the call completes with result `a` and has changed nothing but
the current path; when it fails, the call panics or leaves more records than
there were. -/
def Follows {α : Type} (b : Bool) (c : Comparator) (r : Res α) (a : α) : Prop :=
  (b = true → ∃ q, r = .done { c with currPath := q } a) ∧
  (b = false → r.isDone = false ∨ (records c).length < (records r.comp).length)

/-! ## The run with a mark on each entry of the Log -/

/-- The marks `ms` continued with `b` for every entry that the Log of `c` has
beyond them. -/
def pad (ms : List Bool) (c : Comparator) (b : Bool) : List Bool :=
  ms ++ List.replicate (c.Log.length - ms.length) b

/-- Sequencing of two calls that carry marks: a panic ends the run with the
marks it has. -/
def bindT {α β : Type} (r : Res α × List Bool)
    (f : Comparator → List Bool → α → Res β × List Bool) : Res β × List Bool :=
  match r.1 with
  | .panic c => (.panic c, r.2)
  | .done c a => f c r.2 a

mutual
/-- The method `compareObj` with a mark for every entry of the Log. The marks
are no part of the program: `ms` holds one mark for each entry written so far,
and an entry gets the mark `true` when it is written by the call of
`compareValues` in the loop of `compareObj`, the scalar comparison of an object
field, and `false` otherwise. -/
def compareObjT (lib : GoLib) (p : Str) (c : Comparator) (ms : List Bool) (exp act : Value) :
    Res Value × List Bool :=
  match exp, act with
  | .obj parsedExp, .obj parsedAct =>
    bindT (objLoopT lib p c ms parsedExp parsedAct) fun c' ms' afs => (.done c' (.obj afs), ms')
  | _, _ => (.panic c, ms)
termination_by structural exp
/-- The loop of `compareObj` with marks; the one place that marks `true`. -/
def objLoopT (lib : GoLib) (p : Str) (c : Comparator) (ms : List Bool)
    (parsedExp parsedAct : List (Str × Value)) : Res (List (Str × Value)) × List Bool :=
  match parsedExp with
  | [] => (.done c parsedAct, ms)
  | (k, v) :: rest =>
    let c1 := setCurrPath c p k
    match lookup k parsedAct with
    | none => objLoopT lib p (newMissProp c1) (pad ms (newMissProp c1) false) rest parsedAct
    | some a =>
      match v with
      | .obj _ =>
        bindT (compareObjT lib c1.currPath c1 ms v a) fun c2 ms2 a' =>
          objLoopT lib p c2 ms2 rest (setField k a' parsedAct)
      | .arr _ =>
        bindT (compareArrT lib c1.currPath c1 ms v a) fun c2 ms2 a' =>
          objLoopT lib p c2 ms2 rest (setField k a' parsedAct)
      | _ =>
        match ifaceEq v a with
        | none => (.panic c1, ms)
        | some true => objLoopT lib p c1 ms rest parsedAct
        | some false =>
          if ignoreCurrKey c1 then objLoopT lib p c1 ms rest parsedAct
          else
            bindT (compareValues lib c1 v a, pad ms (compareValues lib c1 v a).comp true)
              fun c2 ms2 _ => objLoopT lib p c2 ms2 rest parsedAct
termination_by structural parsedExp
/-- The method `compareArr` with marks. -/
def compareArrT (lib : GoLib) (p : Str) (c : Comparator) (ms : List Bool) (exp act : Value) :
    Res Value × List Bool :=
  match exp, act with
  | .arr parsedExp, .arr parsedAct =>
    let c1 := setCurrPath c p "<array>".toList
    let keys := matchingKeys c1
    let c2 := compareArrLen c1 c1.currPath parsedExp.length parsedAct.length
    if keys.length > 0 then
      bindT (keyLoopT lib c1.currPath keys c2 (pad ms c2 false) 0 parsedExp parsedAct.enum
          parsedAct.length)
        fun c' ms' back => (.done c' (.arr (back.map Prod.snd)), ms')
    else
      bindT (orderLoopT lib c1.currPath parsedAct.length c2 (pad ms c2 false) 0 parsedExp
          parsedAct)
        fun c' ms' back => (.done c' (.arr back), ms')
  | _, _ => (.panic (setCurrPath c p "<array>".toList), ms)
termination_by structural exp
/-- The loop of `compareArrByOrder` with marks. -/
def orderLoopT (lib : GoLib) (p : Str) (actLen : Nat) (c : Comparator) (ms : List Bool)
    (i : Nat) (parsedExp back : List Value) : Res (List Value) × List Bool :=
  match parsedExp with
  | [] => (.done c back, ms)
  | v :: rest =>
    let c1 := setCurrPath c p (fmtNat i)
    if i ≥ actLen then (.done c1 back, ms)
    else
      match back[i]? with
      | none => (.panic c1, ms)
      | some a =>
        match v with
        | .obj _ =>
          bindT (compareObjT lib c1.currPath c1 ms v a) fun c2 ms2 a' =>
            orderLoopT lib p actLen c2 ms2 (i + 1) rest (back.set i a')
        | .arr _ =>
          bindT (compareArrT lib c1.currPath c1 ms v a) fun c2 ms2 a' =>
            orderLoopT lib p actLen c2 ms2 (i + 1) rest (back.set i a')
        | _ =>
          match ifaceEq v a with
          | none => (.panic c1, ms)
          | some true => orderLoopT lib p actLen c1 ms (i + 1) rest back
          | some false =>
            bindT (compareValues lib c1 v a, pad ms (compareValues lib c1 v a).comp false)
              fun c2 ms2 _ => orderLoopT lib p actLen c2 ms2 (i + 1) rest back
termination_by structural parsedExp
/-- The loop of `compareArrByKey` with marks. -/
def keyLoopT (lib : GoLib) (p : Str) (keys : List Str) (c : Comparator) (ms : List Bool)
    (i : Nat) (parsedExp : List Value) (back : List (Nat × Value)) (m : Nat) :
    Res (List (Nat × Value)) × List Bool :=
  match parsedExp with
  | [] => (.done c back, ms)
  | v :: rest =>
    let c1 := setCurrPath c p (fmtNat i)
    match v with
    | .obj parsedV =>
      let targetKeyVals := TargetKeyValMap parsedV keys
      match relevantKeyValIdx ((back.take m).map Prod.snd) targetKeyVals with
      | .panics => (.panic c1, ms)
      | .missing =>
        keyLoopT lib p keys (newMissItem lib c1 targetKeyVals)
          (pad ms (newMissItem lib c1 targetKeyVals) false) (i + 1) rest back m
      | .found idx =>
        match (back.take m)[idx]? with
        | none => (.panic c1, ms)
        | some cell =>
          bindT (compareObjT lib c1.currPath c1 ms v cell.2) fun c2 ms2 a' =>
            keyLoopT lib p keys c2 ms2 (i + 1) rest (removeShift (writeCell cell.1 a' back) idx m)
              (m - 1)
    | .arr _ =>
      match (back.take m)[i]? with
      | none => (.panic c1, ms)
      | some cell =>
        bindT (compareArrT lib c1.currPath c1 ms v cell.2) fun c2 ms2 a' =>
          keyLoopT lib p keys c2 ms2 (i + 1) rest (removeShift (writeCell cell.1 a' back) i m)
            (m - 1)
    | _ =>
      match (back.take m)[i]? with
      | none => (.panic c1, ms)
      | some cell =>
        match ifaceEq v cell.2 with
        | none => (.panic c1, ms)
        | some true => keyLoopT lib p keys c1 ms (i + 1) rest back m
        | some false =>
          bindT (compareValues lib c1 v cell.2, pad ms (compareValues lib c1 v cell.2).comp false)
            fun c2 ms2 _ => keyLoopT lib p keys c2 ms2 (i + 1) rest back m
termination_by structural parsedExp
end

/-- The method `compare` with marks. -/
def compareT (lib : GoLib) (c : Comparator) (ms : List Bool) (withLeft : Bool) :
    Res Unit × List Bool :=
  let leftIsArr := c.lData.isArr
  let rightIsArr := c.rData.isArr
  let root := if withLeft then c.rName else c.lName
  let lData := if withLeft then c.rData else c.lData
  let rData := if withLeft then c.lData else c.rData
  let store := fun (c' : Comparator) (a : Value) =>
    if withLeft then { c' with lData := a } else { c' with rData := a }
  if leftIsArr && rightIsArr then
    bindT (compareArrT lib root c ms lData rData) fun c' ms' a => (.done (store c' a) (), ms')
  else if !leftIsArr && !rightIsArr then
    bindT (compareObjT lib root c ms lData rData) fun c' ms' a => (.done (store c' a) (), ms')
  else (.done (newIncorrType lib c lData rData) (), pad ms (newIncorrType lib c lData rData) false)

/-- The method `CompWithRight` with marks. -/
def CompWithRightT (lib : GoLib) (c : Comparator) : Res Unit × List Bool :=
  let c1 := clearTemp c
  let c2 := setKeyRoot c1 "DATA".toList c1.rName
  bindT (compareT lib c2 [] false) fun c3 ms _ =>
    (.done (setupSummary (setKeyRoot c3 c3.rName "DATA".toList)) (),
      pad ms (setupSummary (setKeyRoot c3 c3.rName "DATA".toList)) false)

/-- The method `CompWithLeft` with marks. -/
def CompWithLeftT (lib : GoLib) (c : Comparator) : Res Unit × List Bool :=
  let c1 := clearTemp c
  let c2 := setKeyRoot c1 "DATA".toList c1.lName
  bindT (compareT lib c2 [] true) fun c3 ms _ =>
    (.done (setupSummary (setKeyRoot c3 c3.lName "DATA".toList)) (),
      pad ms (setupSummary (setKeyRoot c3 c3.lName "DATA".toList)) false)

/-- The method `CompareFull` with marks. -/
def CompareFullT (lib : GoLib) (c : Comparator) : Res Unit × List Bool :=
  let c1 := clearTemp c
  let c2 := setKeyRoot c1 "DATA".toList c1.lName
  bindT (compareT lib c2 [] false) fun c3 ms _ =>
    bindT (compareT lib (setKeyRoot c3 c3.rName c3.rName) ms true) fun c5 ms' _ =>
      (.done (setupSummary (setKeyRoot c5 c5.lName "DATA".toList)) (),
        pad ms' (setupSummary (setKeyRoot c5 c5.lName "DATA".toList)) false)

/-- The test of `ignoreCurrKey` at the path `q`, with the ignore list and the
names of `c`. -/
def ignoredAt (c : Comparator) (q : Str) : Bool :=
  ignoreCurrKey { c with currPath := q }

/-- What an ignore list leaves of a marked Log: every entry but those that are
marked and stand at a path which passes the test of `ignoreCurrKey`. -/
def kept (c : Comparator) (t : List (Entry × Bool)) : List Entry :=
  (t.filter (fun eb => !(eb.2 && ignoredAt c eb.1.path))).map Prod.fst

/-- Two states of one run, the first with the ignore list of `b` and the
second, with its marks, with none: same position and configuration, and the
first Log is what the ignore list leaves of the second. -/
structure Thin (b c₁ c₂ : Comparator) (ms : List Bool) : Prop where
  cfg : c₁.cfg = c₂.cfg
  ign : c₂.ignoreKeys = []
  base : c₁.ignoreKeys = b.ignoreKeys
  name : c₁.rName = b.rName
  len : ms.length = c₂.Log.length
  log : c₁.Log = kept b (c₂.Log.zip ms)
  scalar : ∀ eb ∈ c₂.Log.zip ms, eb.2 = true →
    eb.1.kind = .unequalVal ∨ eb.1.kind = .incorrType

/-- Two outcomes that end the same way, in related states and with the same result. -/
def ThinRes {α : Type} (b : Comparator) (r₁ : Res α) (r₂ : Res α × List Bool) : Prop :=
  match r₁, r₂.1 with
  | .done c₁ a₁, .done c₂ a₂ => Thin b c₁ c₂ r₂.2 ∧ a₁ = a₂
  | .panic c₁, .panic c₂ => Thin b c₁ c₂ r₂.2
  | _, _ => False

/-- What an ignore list changes in a finished run: `r` is the run with the
ignore list of `b`, and `t` the run without, with its marks. Both end the same
way; every entry of the second Log has its mark; the records of `r` are the
records of `t` less the marked ones whose path passes the test of the ignore
list, in the same order; and a marked entry is an unequal-value or an
incorrect-type record. -/
def ThinRun (b : Comparator) (r : Res Unit) (t : Res Unit × List Bool) : Prop :=
  r.isDone = t.1.isDone ∧ t.2.length = t.1.comp.Log.length ∧
  records r.comp
    = (kept b (t.1.comp.Log.zip t.2)).filter (fun e => decide (e.kind ≠ .summary)) ∧
  ∀ eb ∈ t.1.comp.Log.zip t.2, eb.2 = true →
    eb.1.kind = .unequalVal ∨ eb.1.kind = .incorrType

/-! ## Example documents -/

/-- The two float routines for the examples. No example renders or parses a
float64: where a document holds numbers, only kinds and paths of the records
are stated. -/
def exampleLib : GoLib := ⟨fun _ => "?".toList, fun _ => none⟩

/-- The JSON number `1`, as the decoder yields it: the float64 `1.0`. -/
def one : Value := .float ⟨0x3FF0000000000000⟩

/-- The JSON number `2`. -/
def two : Value := .float ⟨0x4000000000000000⟩

/-- The JSON number `4`. -/
def four : Value := .float ⟨0x4010000000000000⟩

/-- The JSON number `5`. -/
def five : Value := .float ⟨0x4014000000000000⟩

/-- The document `[{"id":"a"},{"id":"b"}]`. -/
def idDoc : Value :=
  .arr [.obj [("id".toList, .str "a".toList)], .obj [("id".toList, .str "b".toList)]]

/-- The document `{"cats": xs}`. -/
def catsDoc (xs : List Value) : Value := .obj [("cats".toList, .arr xs)]

/-- The object `{"id":4,"name":"Nyan"}`. -/
def nyan : Value := .obj [("id".toList, four), ("name".toList, .str "Nyan".toList)]

/-- The object `{"id":2,"name":"Marx"}`. -/
def marx : Value := .obj [("id".toList, two), ("name".toList, .str "Marx".toList)]

/-- A Comparator with an empty Log and no configuration, for examples that
call one method directly. -/
def blank : Comparator :=
  NewComparatorWithKeys "l.json".toList "r.json".toList .null .null [] [] false

/-- The number 3. -/
def three : Value := .float ⟨0x4008000000000000⟩

/-- The object `{"id": i, "name": n}` with a string for the name. -/
def item (i : Value) (n : String) : Value :=
  .obj [("id".toList, i), ("name".toList, .str n.toList)]

/-- The object `{"id": i, "name": n}` with string values. -/
def named (i n : String) : Value :=
  .obj [("id".toList, .str i.toList), ("name".toList, .str n.toList)]

/-- The document `[{"id":"a","name":"A"},{"id":"b","name":"B"},{"id":"b","name":"B"}]`. -/
def abbDoc : Value := .arr [named "a" "A", named "b" "B", named "b" "B"]

/-- The document `[{"id":"x","name":"X"},{"id":"a","name":"A"},{"id":"b","name":"B"}]`. -/
def xabDoc : Value := .arr [named "x" "X", named "a" "A", named "b" "B"]

/-- A Comparator for `{"k":"x","xs":["a"]}` in `l.json` and `{"k":5,"xs":["b"]}`
in `r.json`, with the ignore list `["DATA//k", "DATA//xs//<array>//0"]`. -/
def ignoreBoth : Comparator :=
  NewComparatorWithKeys "l.json".toList "r.json".toList
    (.obj [("k".toList, .str "x".toList), ("xs".toList, .arr [.str "a".toList])])
    (.obj [("k".toList, five), ("xs".toList, .arr [.str "b".toList])])
    [] ["DATA//k".toList, "DATA//xs//<array>//0".toList] false

/-! ## Paths and the growth of the Log -/

theorem Grows.of_eq {P : Str → Prop} {c c' : Comparator} (h : c'.Log = c.Log) : Grows P c c' :=
  ⟨[], by simp [h], by simp⟩

theorem Grows.andThen {P : Str → Prop} {c c' c'' : Comparator}
    (h₁ : Grows P c c') (h₂ : Grows P c' c'') : Grows P c c'' := by
  obtain ⟨a₁, e₁, p₁⟩ := h₁
  obtain ⟨a₂, e₂, p₂⟩ := h₂
  refine ⟨a₁ ++ a₂, by simp [e₂, e₁], ?_⟩
  intro e he
  rcases List.mem_append.1 he with h | h
  · exact p₁ e h
  · exact p₂ e h

theorem Grows.mono {P Q : Str → Prop} {c c' : Comparator} (hPQ : ∀ q, P q → Q q)
    (h : Grows P c c') : Grows Q c c' := by
  obtain ⟨a, e, p⟩ := h
  exact ⟨a, e, fun x hx => hPQ _ (p x hx)⟩

theorem Grows.seq {α β : Type} {P : Str → Prop} {c : Comparator} {r : Res α}
    {f : Comparator → α → Res β} (h₁ : Grows P c r.comp)
    (h₂ : ∀ c' a, Grows P c' (f c' a).comp) : Grows P c (r.bind f).comp := by
  cases r with
  | panic c' => exact h₁
  | done c' a => exact h₁.andThen (h₂ c' a)

theorem setCurrPath_currPath (c : Comparator) (p k : Str) :
    (setCurrPath c p k).currPath = p ++ "//".toList ++ k := by
  unfold setCurrPath
  split
  · rfl
  · next h => simp at h; subst h; rfl

theorem setCurrPath_Log (c : Comparator) (p k : Str) : (setCurrPath c p k).Log = c.Log := by
  unfold setCurrPath
  split <;> rfl

theorem newUnequalVal_grows (lib : GoLib) (c : Comparator) (exp act : Value) :
    Grows (fun q => q = c.currPath) c (newUnequalVal lib c exp act) := by
  unfold newUnequalVal newIncorrType
  split
  · exact ⟨_, rfl, by simp⟩
  · exact ⟨_, rfl, by simp⟩

theorem compareValues_grows (lib : GoLib) (c : Comparator) (exp act : Value) :
    Grows (fun q => q = c.currPath) c (compareValues lib c exp act).comp := by
  unfold compareValues
  split
  · exact Grows.of_eq rfl
  · exact Grows.of_eq rfl
  · split
    · exact newUnequalVal_grows lib c exp act
    · split
      · exact Grows.of_eq rfl
      · split
        · exact Grows.of_eq rfl
        · exact newUnequalVal_grows lib c exp act

theorem newMissProp_grows (c : Comparator) :
    Grows (fun q => q = c.currPath) c (newMissProp c) := ⟨_, rfl, by simp⟩

theorem newMissItem_grows (lib : GoLib) (c : Comparator) (t : List (Str × Value)) :
    Grows (fun q => q = c.currPath) c (newMissItem lib c t) := ⟨_, rfl, by simp⟩

theorem compareArrLen_grows (c : Comparator) (p : Str) (m n : Nat) :
    Grows (fun q => q = c.currPath) c (compareArrLen c p m n) := by
  unfold compareArrLen
  split
  · exact ⟨_, rfl, by simp⟩
  · split
    · exact ⟨_, rfl, by simp⟩
    · exact Grows.of_eq rfl

theorem Below.under {p q r : Str} (h₁ : Below p q) (h₂ : Below q r) : Below p r := by
  unfold Below at *
  exact h₁.trans ((List.prefix_append _ _).trans h₂)

theorem below_ext (p k : Str) : Below p (p ++ "//".toList ++ k) := by
  unfold Below
  exact List.prefix_append _ _

/-- A step at the current path `p//k`: what it adds lies below `p`. -/
theorem grows_at_step {c c1 c' : Comparator} {p k : Str}
    (h1 : c1.Log = c.Log) (hp : c1.currPath = p ++ "//".toList ++ k)
    (h : Grows (fun q => q = c1.currPath) c1 c') : Grows (Below p) c c' := by
  obtain ⟨a, e, pa⟩ := h
  refine ⟨a, by rw [e, h1], ?_⟩
  intro x hx
  rw [pa x hx, hp]
  exact below_ext p k

theorem grows_below_step {c c1 c' : Comparator} {p k : Str}
    (h1 : c1.Log = c.Log) (hp : c1.currPath = p ++ "//".toList ++ k)
    (h : Grows (Below c1.currPath) c1 c') : Grows (Below p) c c' := by
  obtain ⟨a, e, pa⟩ := h
  refine ⟨a, by rw [e, h1], ?_⟩
  intro x hx
  have := pa x hx
  rw [hp] at this
  exact Below.under (below_ext p k) this

mutual
theorem compareObj_grows (lib : GoLib) (p : Str) (c : Comparator) (exp act : Value) :
    Grows (Below p) c (compareObj lib p c exp act).comp := by
  unfold compareObj
  split
  · next parsedExp parsedAct =>
    exact Grows.seq (objLoop_grows lib p c parsedExp parsedAct) (fun c' a => Grows.of_eq rfl)
  · exact Grows.of_eq rfl
termination_by sizeOf exp
decreasing_by all_goals (simp_wf; subst_vars; simp; try omega)
theorem objLoop_grows (lib : GoLib) (p : Str) (c : Comparator)
    (parsedExp parsedAct : List (Str × Value)) :
    Grows (Below p) c (objLoop lib p c parsedExp parsedAct).comp := by
  unfold objLoop
  split
  · exact Grows.of_eq rfl
  · next k v rest =>
    have hL := setCurrPath_Log c p k
    have hP := setCurrPath_currPath c p k
    simp only []
    split
    · exact (grows_at_step hL hP (newMissProp_grows _)).andThen (objLoop_grows lib p _ rest parsedAct)
    · next a _ =>
      split
      · exact Grows.seq (grows_below_step hL hP (compareObj_grows lib _ _ _ a))
          (fun c2 a' => objLoop_grows lib p c2 rest _)
      · exact Grows.seq (grows_below_step hL hP (compareArr_grows lib _ _ _ a))
          (fun c2 a' => objLoop_grows lib p c2 rest _)
      · split
        · exact Grows.of_eq hL
        · exact (Grows.of_eq hL).andThen (objLoop_grows lib p _ rest parsedAct)
        · split
          · exact (Grows.of_eq hL).andThen (objLoop_grows lib p _ rest parsedAct)
          · exact Grows.seq (grows_at_step hL hP (compareValues_grows lib _ _ a))
              (fun c2 _ => objLoop_grows lib p c2 rest _)
termination_by sizeOf parsedExp
decreasing_by all_goals (simp_wf; subst_vars; simp; try omega)
theorem compareArr_grows (lib : GoLib) (p : Str) (c : Comparator) (exp act : Value) :
    Grows (Below p) c (compareArr lib p c exp act).comp := by
  unfold compareArr
  have hL := setCurrPath_Log c p "<array>".toList
  have hP := setCurrPath_currPath c p "<array>".toList
  split
  · next parsedExp parsedAct =>
    have hlen := grows_at_step hL hP
      (compareArrLen_grows (setCurrPath c p "<array>".toList)
        (setCurrPath c p "<array>".toList).currPath parsedExp.length parsedAct.length)
    simp only []
    split
    · refine Grows.seq (hlen.andThen ?_) (fun c' a => Grows.of_eq rfl)
      exact (keyLoop_grows lib _ _ _ 0 parsedExp _ _).mono
        (fun q hq => Below.under (hP ▸ below_ext p _) hq)
    · refine Grows.seq (hlen.andThen ?_) (fun c' a => Grows.of_eq rfl)
      exact (orderLoop_grows lib _ _ _ 0 parsedExp _).mono
        (fun q hq => Below.under (hP ▸ below_ext p _) hq)
  · exact Grows.of_eq hL
termination_by sizeOf exp
decreasing_by all_goals (simp_wf; subst_vars; simp; try omega)
theorem orderLoop_grows (lib : GoLib) (p : Str) (actLen : Nat) (c : Comparator) (i : Nat)
    (parsedExp back : List Value) :
    Grows (Below p) c (orderLoop lib p actLen c i parsedExp back).comp := by
  unfold orderLoop
  split
  · exact Grows.of_eq rfl
  · next v rest =>
    have hL := setCurrPath_Log c p (fmtNat i)
    have hP := setCurrPath_currPath c p (fmtNat i)
    simp only []
    split
    · exact Grows.of_eq hL
    · split
      · exact Grows.of_eq hL
      · next a _ =>
        split
        · exact Grows.seq (grows_below_step hL hP (compareObj_grows lib _ _ _ a))
            (fun c2 a' => orderLoop_grows lib p actLen c2 (i + 1) rest _)
        · exact Grows.seq (grows_below_step hL hP (compareArr_grows lib _ _ _ a))
            (fun c2 a' => orderLoop_grows lib p actLen c2 (i + 1) rest _)
        · split
          · exact Grows.of_eq hL
          · exact (Grows.of_eq hL).andThen (orderLoop_grows lib p actLen _ (i + 1) rest back)
          · exact Grows.seq (grows_at_step hL hP (compareValues_grows lib _ _ a))
              (fun c2 _ => orderLoop_grows lib p actLen c2 (i + 1) rest _)
termination_by sizeOf parsedExp
decreasing_by all_goals (simp_wf; subst_vars; simp; try omega)
theorem keyLoop_grows (lib : GoLib) (p : Str) (keys : List Str) (c : Comparator) (i : Nat)
    (parsedExp : List Value) (back : List (Nat × Value)) (m : Nat) :
    Grows (Below p) c (keyLoop lib p keys c i parsedExp back m).comp := by
  unfold keyLoop
  split
  · exact Grows.of_eq rfl
  · next v rest =>
    have hL := setCurrPath_Log c p (fmtNat i)
    have hP := setCurrPath_currPath c p (fmtNat i)
    simp only []
    split
    · next parsedV =>
      split
      · exact Grows.of_eq hL
      · exact (grows_at_step hL hP (newMissItem_grows lib _ _)).andThen
          (keyLoop_grows lib p keys _ (i + 1) rest back m)
      · next idx _ =>
        split
        · exact Grows.of_eq hL
        · next cell _ =>
          exact Grows.seq (grows_below_step hL hP (compareObj_grows lib _ _ _ cell.2))
            (fun c2 a' => keyLoop_grows lib p keys c2 (i + 1) rest _ _)
    · split
      · exact Grows.of_eq hL
      · next cell _ =>
        exact Grows.seq (grows_below_step hL hP (compareArr_grows lib _ _ _ cell.2))
          (fun c2 a' => keyLoop_grows lib p keys c2 (i + 1) rest _ _)
    · split
      · exact Grows.of_eq hL
      · next cell _ =>
        split
        · exact Grows.of_eq hL
        · exact (Grows.of_eq hL).andThen (keyLoop_grows lib p keys _ (i + 1) rest back m)
        · exact Grows.seq (grows_at_step hL hP (compareValues_grows lib _ _ cell.2))
            (fun c2 _ => keyLoop_grows lib p keys c2 (i + 1) rest _ _)
termination_by sizeOf parsedExp
decreasing_by all_goals (simp_wf; subst_vars; simp; try omega)
end

/-- The method `compareArr` as the source writes it: the current path is set,
and the keys found there decide between `compareArrByKey` and
`compareArrByOrder`. -/
theorem compareArr_dispatch (lib : GoLib) (p : Str) (c : Comparator) (exp act : Value) :
    compareArr lib p c exp act =
      if (matchingKeys (setCurrPath c p "<array>".toList)).length > 0 then
        compareArrByKey lib (setCurrPath c p "<array>".toList).currPath
          (setCurrPath c p "<array>".toList) exp act
          (matchingKeys (setCurrPath c p "<array>".toList))
      else
        compareArrByOrder lib (setCurrPath c p "<array>".toList).currPath
          (setCurrPath c p "<array>".toList) exp act := by
  unfold compareArr compareArrByKey compareArrByOrder
  split
  · rfl
  · split <;> simp_all

/-! ## The loop of `compareObj`, field by field -/

theorem startsWith_iff (s pre : Str) : startsWith s pre = true ↔ pre <+: s := by
  induction pre generalizing s with
  | nil => cases s <;> simp [startsWith]
  | cons d pre ih =>
    cases s with
    | nil => simp [startsWith]
    | cons c s =>
      simp only [startsWith, Bool.and_eq_true, decide_eq_true_eq, ih, List.cons_prefix_cons]
      constructor
      · rintro ⟨h, h'⟩; exact ⟨h.symm, h'⟩
      · rintro ⟨h, h'⟩; exact ⟨h.symm, h'⟩

theorem atOrBelow_iff (p q : Str) : atOrBelow p q = true ↔ (q = p ∨ Below p q) := by
  simp [atOrBelow, Below, startsWith_iff]

theorem Res.bind_assoc {α β γ : Type} (r : Res α) (f : Comparator → α → Res β)
    (g : Comparator → β → Res γ) :
    (r.bind f).bind g = r.bind (fun c a => (f c a).bind g) := by
  cases r <;> rfl

theorem lookup_setField (j k : Str) (w : Value) (A : List (Str × Value)) :
    lookup j (setField k w A) = none ↔ lookup j A = none := by
  induction A with
  | nil => simp [setField]
  | cons kv A ih =>
    obtain ⟨k', v⟩ := kv
    simp only [setField]
    split
    · next h => simp only [lookup]; split <;> simp
    · next h =>
      simp only [lookup]
      split
      · exact Iff.rfl
      · exact ih

/-- One round of the loop of `compareObj`: the field `k` is dealt with by a
step `r`, whose records are at or below `p//k`, and the loop goes on. -/
theorem objLoop_step (lib : GoLib) (p : Str) (c : Comparator) (k : Str) (v : Value)
    (rest A : List (Str × Value)) :
    ∃ r : Res (List (Str × Value)),
      objLoop lib p c ((k, v) :: rest) A = r.bind (fun c2 A2 => objLoop lib p c2 rest A2) ∧
      Grows (fun q => q = p ++ "//".toList ++ k ∨ Below (p ++ "//".toList ++ k) q) c r.comp ∧
      (∀ c2 A2, r = .done c2 A2 → ∀ j, lookup j A2 = none ↔ lookup j A = none) ∧
      (lookup k A = none → r = .done (newMissProp (setCurrPath c p k)) A) := by
  have hL := setCurrPath_Log c p k
  have hP := setCurrPath_currPath c p k
  have here : ∀ {c' : Comparator}, Grows (fun q => q = (setCurrPath c p k).currPath)
      (setCurrPath c p k) c' →
      Grows (fun q => q = p ++ "//".toList ++ k ∨ Below (p ++ "//".toList ++ k) q) c c' := by
    intro c' h
    exact (Grows.of_eq hL).andThen (h.mono (fun q hq => Or.inl (hq.trans hP)))
  have below : ∀ {c' : Comparator}, Grows (Below (setCurrPath c p k).currPath)
      (setCurrPath c p k) c' →
      Grows (fun q => q = p ++ "//".toList ++ k ∨ Below (p ++ "//".toList ++ k) q) c c' := by
    intro c' h
    exact (Grows.of_eq hL).andThen (h.mono (fun q hq => Or.inr (hP ▸ hq)))
  rw [objLoop]
  cases hlk : lookup k A with
  | none =>
    exact ⟨.done (newMissProp (setCurrPath c p k)) A, rfl, here (newMissProp_grows _),
      (fun c2 A2 h j => by cases h; rfl), (fun _ => rfl)⟩
  | some a =>
    simp only []
    split
    · next fs =>
      refine ⟨(compareObj lib (setCurrPath c p k).currPath (setCurrPath c p k) (.obj fs) a).bind
        (fun c2 a' => .done c2 (setField k a' A)), ?_, ?_, ?_, (fun h => by cases h)⟩
      · rw [Res.bind_assoc]; rfl
      · exact Grows.seq (below (compareObj_grows lib _ _ _ a)) (fun _ _ => Grows.of_eq rfl)
      · intro c2 A2 h j
        cases hr : compareObj lib (setCurrPath c p k).currPath (setCurrPath c p k) _ a with
        | panic c' => rw [hr] at h; cases h
        | done c' a' => rw [hr] at h; cases h; exact lookup_setField j k a' A
    · next es =>
      refine ⟨(compareArr lib (setCurrPath c p k).currPath (setCurrPath c p k) (.arr es) a).bind
        (fun c2 a' => .done c2 (setField k a' A)), ?_, ?_, ?_, (fun h => by cases h)⟩
      · rw [Res.bind_assoc]; rfl
      · exact Grows.seq (below (compareArr_grows lib _ _ _ a)) (fun _ _ => Grows.of_eq rfl)
      · intro c2 A2 h j
        cases hr : compareArr lib (setCurrPath c p k).currPath (setCurrPath c p k) _ a with
        | panic c' => rw [hr] at h; cases h
        | done c' a' => rw [hr] at h; cases h; exact lookup_setField j k a' A
    · split
      · exact ⟨.panic (setCurrPath c p k), rfl, here (Grows.of_eq rfl),
          (fun c2 A2 h => by cases h), (fun h => by cases h)⟩
      · exact ⟨.done (setCurrPath c p k) A, rfl, here (Grows.of_eq rfl),
          (fun c2 A2 h j => by cases h; rfl), (fun h => by cases h)⟩
      · split
        · exact ⟨.done (setCurrPath c p k) A, rfl, here (Grows.of_eq rfl),
            (fun c2 A2 h j => by cases h; rfl), (fun h => by cases h)⟩
        · refine ⟨(compareValues lib (setCurrPath c p k) v a).bind (fun c2 _ => .done c2 A),
            ?_, ?_, ?_, (fun h => by cases h)⟩
          · rw [Res.bind_assoc]; rfl
          · exact Grows.seq (here (compareValues_grows lib _ _ a)) (fun _ _ => Grows.of_eq rfl)
          · intro c2 A2 h j
            cases hr : compareValues lib (setCurrPath c p k) v a with
            | panic c' => rw [hr] at h; cases h
            | done c' a' => rw [hr] at h; cases h; rfl

theorem objLoop_paths (lib : GoLib) (p : Str) (E : List (Str × Value)) :
    ∀ (c : Comparator) (A : List (Str × Value)),
      Grows (fun q => ∃ k ∈ E.map Prod.fst,
        q = p ++ "//".toList ++ k ∨ Below (p ++ "//".toList ++ k) q) c
        (objLoop lib p c E A).comp := by
  induction E with
  | nil => intro c A; rw [objLoop]; exact Grows.of_eq rfl
  | cons kv rest ih =>
    obtain ⟨k, v⟩ := kv
    intro c A
    obtain ⟨r, hr, hg, -, -⟩ := objLoop_step lib p c k v rest A
    rw [hr]
    refine Grows.seq (hg.mono ?_) (fun c2 A2 => (ih c2 A2).mono ?_)
    · intro q hq
      exact ⟨k, by rw [List.map_cons]; exact List.mem_cons_self _ _, hq⟩
    · rintro q ⟨k', hk', hq⟩
      exact ⟨k', by simp only [List.map_cons, List.mem_cons]; exact Or.inr hk', hq⟩

/-- Fields whose names do not nest as paths have records that do not nest. -/
theorem not_atOrBelow_of_unrelated (p k k' q : Str)
    (h₁ : startsWith (k' ++ "//".toList) (k ++ "//".toList) = false)
    (h₂ : startsWith (k ++ "//".toList) (k' ++ "//".toList) = false)
    (hq : q = p ++ "//".toList ++ k' ∨ Below (p ++ "//".toList ++ k') q) :
    atOrBelow (p ++ "//".toList ++ k) q = false := by
  have n₁ : ¬ (k ++ "//".toList) <+: (k' ++ "//".toList) := by
    intro h; rw [← startsWith_iff, h₁] at h; cases h
  have n₂ : ¬ (k' ++ "//".toList) <+: (k ++ "//".toList) := by
    intro h; rw [← startsWith_iff, h₂] at h; cases h
  by_contra hc
  have hc' : atOrBelow (p ++ "//".toList ++ k) q = true := by simpa using hc
  rw [atOrBelow_iff] at hc'
  unfold Below at hc' hq
  have both : (p ++ "//".toList ++ k ++ "//".toList) <+: (q ++ "//".toList) ∧
      (p ++ "//".toList ++ k' ++ "//".toList) <+: (q ++ "//".toList) := by
    constructor
    · rcases hc' with h | h
      · rw [h]
      · exact h.trans (List.prefix_append _ _)
    · rcases hq with h | h
      · rw [h]
      · exact h.trans (List.prefix_append _ _)
  rcases List.prefix_or_prefix_of_prefix both.1 both.2 with h | h
  · rw [List.append_assoc (p ++ "//".toList), List.append_assoc (p ++ "//".toList),
      List.prefix_append_right_inj] at h
    exact n₁ h
  · rw [List.append_assoc (p ++ "//".toList), List.append_assoc (p ++ "//".toList),
      List.prefix_append_right_inj] at h
    exact n₂ h

theorem atOrBelow_self (p : Str) : atOrBelow p p = true := by
  simp [atOrBelow]

theorem filter_eq_nil_of_forall {α : Type} (f : α → Bool) (l : List α)
    (h : ∀ x ∈ l, f x = false) : l.filter f = [] := by
  rw [List.filter_eq_nil_iff]
  intro x hx
  simp [h x hx]

theorem objLoop_missing (lib : GoLib) (p k : Str) (E : List (Str × Value)) :
    ∀ (c : Comparator) (A : List (Str × Value)),
      (E.map Prod.fst).Nodup → k ∈ E.map Prod.fst → lookup k A = none →
      (objLoop lib p c E A).isDone = true →
      (∀ k' ∈ E.map Prod.fst, k' ≠ k →
        startsWith (k' ++ "//".toList) (k ++ "//".toList) = false ∧
        startsWith (k ++ "//".toList) (k' ++ "//".toList) = false) →
      ∃ added, (objLoop lib p c E A).comp.Log = c.Log ++ added ∧
        added.filter (fun e => atOrBelow (p ++ "//".toList ++ k) e.path) = [missRec p k] := by
  induction E with
  | nil => intro c A _ hk; simp at hk
  | cons kv rest ih =>
    obtain ⟨k', v⟩ := kv
    intro c A hnd hk hA hdone hyg
    simp only [List.map_cons, List.nodup_cons] at hnd
    obtain ⟨r, hr, hg, hkeep, hmiss⟩ := objLoop_step lib p c k' v rest A
    by_cases hkk : k' = k
    · subst hkk
      rw [hr, hmiss hA]
      obtain ⟨added, hlog, hpaths⟩ := objLoop_paths lib p rest (newMissProp (setCurrPath c p k')) A
      refine ⟨missRec p k' :: added, ?_, ?_⟩
      · simp only [Res.bind]
        rw [hlog]
        simp [newMissProp, setCurrPath_Log, setCurrPath_currPath, missRec]
      · rw [List.filter_cons]
        simp only [missRec, atOrBelow_self, if_true]
        rw [filter_eq_nil_of_forall]
        intro e he
        obtain ⟨k'', hk'', hq⟩ := hpaths e he
        have hne : k'' ≠ k' := fun h => hnd.1 (h ▸ hk'')
        have := hyg k'' (by simp only [List.map_cons, List.mem_cons]; exact Or.inr hk'') hne
        exact not_atOrBelow_of_unrelated p k' k'' e.path this.1 this.2 hq
    · have hk' : k ∈ rest.map Prod.fst := by
        simp only [List.map_cons, List.mem_cons] at hk
        rcases hk with h | h
        · exact absurd h.symm hkk
        · exact h
      rw [hr] at hdone ⊢
      cases r with
      | panic c' => simp [Res.bind, Res.isDone] at hdone
      | done c2 A2 =>
        simp only [Res.bind] at hdone ⊢
        obtain ⟨added₁, hlog₁, hpaths₁⟩ := hg
        obtain ⟨added₂, hlog₂, hf₂⟩ := ih c2 A2 hnd.2 hk' ((hkeep c2 A2 rfl k).2 hA) hdone
          (fun k'' hk'' hne => hyg k'' (by simp only [List.map_cons, List.mem_cons]; exact Or.inr hk'') hne)
        refine ⟨added₁ ++ added₂, ?_, ?_⟩
        · rw [hlog₂]
          simp only [Res.comp] at hlog₁
          rw [hlog₁, List.append_assoc]
        · rw [List.filter_append, hf₂, filter_eq_nil_of_forall]
          · rfl
          · intro e he
            have := hyg k' (by rw [List.map_cons]; exact List.mem_cons_self _ _) hkk
            exact not_atOrBelow_of_unrelated p k k' e.path this.1 this.2 (hpaths₁ e he)

/-! ## The loop of `compareArrByOrder` -/

/-- The loop of `compareArrByOrder` never looks at an expected element whose
index is not below the actual length. -/
theorem orderLoop_take (lib : GoLib) (p : Str) (n : Nat) (es : List Value) :
    ∀ (es' : List Value) (c : Comparator) (i : Nat) (back : List Value),
      es'.length = es.length → es'.take (n - i) = es.take (n - i) →
      orderLoop lib p n c i es' back = orderLoop lib p n c i es back := by
  induction es with
  | nil =>
    intro es' c i back hl _
    have : es' = [] := List.length_eq_zero.1 (by simpa using hl)
    rw [this]
  | cons v rest ih =>
    intro es' c i back hl ht
    cases es' with
    | nil => simp at hl
    | cons v' rest' =>
      by_cases hi : i ≥ n
      · rw [orderLoop, orderLoop]
        simp only [hi, if_true]
      · have hpos : n - i = (n - (i + 1)) + 1 := by omega
        rw [hpos, List.take_succ_cons, List.take_succ_cons] at ht
        have hv : v' = v := (List.cons.inj ht).1
        have hrest : rest'.take (n - (i + 1)) = rest.take (n - (i + 1)) := (List.cons.inj ht).2
        have hl' : rest'.length = rest.length := by simpa using hl
        have ih' : ∀ c back, orderLoop lib p n c (i + 1) rest' back
            = orderLoop lib p n c (i + 1) rest back :=
          fun c back => ih rest' c (i + 1) back hl' hrest
        subst hv
        rw [orderLoop, orderLoop]
        simp only [ih']

theorem compareArrLen_Log (c : Comparator) (p : Str) (m n : Nat) :
    (compareArrLen c p m n).Log = c.Log ++ lenRecs c.currPath m n := by
  unfold compareArrLen lenRecs
  split
  · rfl
  · split
    · rfl
    · simp

theorem below_ne {p q : Str} (h : Below p q) : q ≠ p := by
  intro hq
  subst hq
  have := h.length_le
  simp at this

/-! ## Decimal rendering and `strconv.Atoi` -/

theorem digitVal_digitChar (d : Nat) (h : d < 10) : digitVal (digitChar d) = some d := by
  interval_cases d <;> rfl

theorem digitChar_not_sign (d : Nat) : digitChar d ≠ '-' ∧ digitChar d ≠ '+' := by
  unfold digitChar
  split <;> decide

theorem parseDigitsAux_snoc (s : Str) (a d : Nat) (h : d < 10) :
    parseDigitsAux a (s ++ [digitChar d]) = (parseDigitsAux a s).map (fun x => x * 10 + d) := by
  induction s generalizing a with
  | nil => simp [parseDigitsAux, digitVal_digitChar d h]
  | cons c s ih =>
    simp only [List.cons_append, parseDigitsAux]
    cases digitVal c with
    | none => rfl
    | some x => exact ih _

theorem fmtNatAux_append (fuel n : Nat) (acc : Str) :
    fmtNatAux fuel n acc = fmtNatAux fuel n [] ++ acc := by
  induction fuel generalizing n acc with
  | zero => simp [fmtNatAux]
  | succ f ih =>
    simp only [fmtNatAux]
    split
    · simp
    · rw [ih (n / 10) (digitChar (n % 10) :: acc), ih (n / 10) [digitChar (n % 10)]]
      simp

theorem parse_fmtNatAux (fuel n : Nat) (h : n < fuel) :
    parseDigitsAux 0 (fmtNatAux fuel n []) = some n := by
  induction fuel generalizing n with
  | zero => omega
  | succ f ih =>
    simp only [fmtNatAux]
    split
    · next h0 =>
      have hn : n < 10 := by omega
      have : n % 10 = n := Nat.mod_eq_of_lt hn
      simp [parseDigitsAux, this, digitVal_digitChar n hn]
    · next h0 =>
      rw [fmtNatAux_append, parseDigitsAux_snoc _ _ _ (Nat.mod_lt _ (by decide)),
        ih (n / 10) (by omega)]
      simp
      omega

theorem fmtNatAux_head (fuel n : Nat) (acc : Str) :
    ∃ d r, fmtNatAux (fuel + 1) n acc = digitChar d :: r := by
  induction fuel generalizing n acc with
  | zero =>
    simp only [fmtNatAux]
    split
    · exact ⟨_, _, rfl⟩
    · exact ⟨_, _, rfl⟩
  | succ f ih =>
    rw [fmtNatAux]
    split
    · exact ⟨_, _, rfl⟩
    · exact ih _ _

theorem atoi_fmtNat (n : Nat) (h : n < 2 ^ 63) : atoi (fmtNat n) = some (n : Int) := by
  have hp : parseDigitsAux 0 (fmtNat n) = some n := parse_fmtNatAux (n + 1) n (by omega)
  obtain ⟨d, r, hd⟩ := fmtNatAux_head n n []
  unfold fmtNat at hp ⊢
  rw [hd] at hp ⊢
  have hs := digitChar_not_sign d
  simp only [atoi, hs.1, hs.2, or_self, if_false, hp, decide_False]
  simp
  norm_num at h
  exact h

theorem atoi_fmtInt (n : Int) (h : -2 ^ 63 ≤ n ∧ n < 2 ^ 63) : atoi (fmtInt n) = some n := by
  cases n with
  | ofNat k =>
    have hk : k < 2 ^ 63 := by
      have := h.2
      simp only [Int.ofNat_eq_coe] at this
      exact_mod_cast this
    exact atoi_fmtNat k hk
  | negSucc k =>
    have hk : k + 1 ≤ 2 ^ 63 := by
      have := h.1
      rw [Int.negSucc_eq] at this
      omega
    have hp : parseDigitsAux 0 (fmtNat (k + 1)) = some (k + 1) :=
      parse_fmtNatAux (k + 2) (k + 1) (by omega)
    obtain ⟨d, r, hd⟩ := fmtNatAux_head (k + 1) (k + 1) []
    have hne : fmtNat (k + 1) ≠ [] := by unfold fmtNat; rw [hd]; simp
    simp only [fmtInt, atoi, decide_True, true_or, if_true, hne, if_false, hp]
    simp [Int.negSucc_eq]
    norm_num at hk
    omega

/-! ## The marks are no part of the run -/

theorem bindT_fst {α β : Type} {r : Res α × List Bool} {r' : Res α}
    {f : Comparator → List Bool → α → Res β × List Bool} {g : Comparator → α → Res β}
    (hr : r.1 = r') (h : ∀ c ms a, (f c ms a).1 = g c a) : (bindT r f).1 = r'.bind g := by
  obtain ⟨r, ms⟩ := r
  subst hr
  cases r with
  | panic c => rfl
  | done c a => exact h c ms a

mutual
theorem compareObjT_fst (lib : GoLib) (p : Str) (c : Comparator) (ms : List Bool)
    (exp act : Value) : (compareObjT lib p c ms exp act).1 = compareObj lib p c exp act := by
  cases exp with
  | obj E =>
    cases act with
    | obj A =>
      rw [compareObjT, compareObj]
      apply bindT_fst
      · exact objLoopT_fst ..
      · exact fun c' ms' afs => rfl
    | _ => rfl
  | _ => rfl
termination_by sizeOf exp
decreasing_by all_goals (simp_wf; try omega)
theorem objLoopT_fst (lib : GoLib) (p : Str) (c : Comparator) (ms : List Bool)
    (E A : List (Str × Value)) : (objLoopT lib p c ms E A).1 = objLoop lib p c E A := by
  cases E with
  | nil => rfl
  | cons kv rest =>
    obtain ⟨k, v⟩ := kv
    rw [objLoopT, objLoop]
    cases hlk : lookup k A with
    | none => exact objLoopT_fst lib p _ _ rest A
    | some a =>
      cases v with
      | obj fs =>
        try simp only []
        apply bindT_fst
        · exact compareObjT_fst ..
        · exact fun c2 ms2 a' => objLoopT_fst lib p c2 ms2 rest _
      | arr es =>
        try simp only []
        apply bindT_fst
        · exact compareArrT_fst ..
        · exact fun c2 ms2 a' => objLoopT_fst lib p c2 ms2 rest _
      | _ =>
        try simp only []
        cases hi : ifaceEq _ a with
        | none => rfl
        | some b =>
          cases b with
          | true => exact objLoopT_fst lib p _ _ rest A
          | false =>
            try simp only []
            split
            · exact objLoopT_fst lib p _ _ rest A
            · exact bindT_fst rfl (fun c2 ms2 _ => objLoopT_fst lib p c2 ms2 rest A)
termination_by sizeOf E
decreasing_by all_goals (simp_wf; try omega)
theorem compareArrT_fst (lib : GoLib) (p : Str) (c : Comparator) (ms : List Bool)
    (exp act : Value) : (compareArrT lib p c ms exp act).1 = compareArr lib p c exp act := by
  cases exp with
  | arr es =>
    cases act with
    | arr as =>
      rw [compareArrT, compareArr]
      try simp only []
      split
      · apply bindT_fst
        · exact keyLoopT_fst ..
        · exact fun c' ms' back => rfl
      · apply bindT_fst
        · exact orderLoopT_fst ..
        · exact fun c' ms' back => rfl
    | _ => rfl
  | _ => rfl
termination_by sizeOf exp
decreasing_by all_goals (simp_wf; try omega)
theorem orderLoopT_fst (lib : GoLib) (p : Str) (actLen : Nat) (c : Comparator)
    (ms : List Bool) (i : Nat) (es back : List Value) :
    (orderLoopT lib p actLen c ms i es back).1 = orderLoop lib p actLen c i es back := by
  cases es with
  | nil => rfl
  | cons v rest =>
    rw [orderLoopT, orderLoop]
    try simp only []
    split
    · rfl
    · cases hb : back[i]? with
      | none => rfl
      | some a =>
        cases v with
        | obj fs =>
          try simp only []
          apply bindT_fst
          · exact compareObjT_fst ..
          · exact fun c2 ms2 a' => orderLoopT_fst lib p actLen c2 ms2 (i + 1) rest _
        | arr es' =>
          try simp only []
          apply bindT_fst
          · exact compareArrT_fst ..
          · exact fun c2 ms2 a' => orderLoopT_fst lib p actLen c2 ms2 (i + 1) rest _
        | _ =>
          try simp only []
          cases hi : ifaceEq _ a with
          | none => rfl
          | some b =>
            cases b with
            | true => exact orderLoopT_fst lib p actLen _ _ (i + 1) rest back
            | false =>
              exact bindT_fst rfl (fun c2 ms2 _ => orderLoopT_fst lib p actLen c2 ms2 (i + 1) rest back)
termination_by sizeOf es
decreasing_by all_goals (simp_wf; try omega)
theorem keyLoopT_fst (lib : GoLib) (p : Str) (keys : List Str) (c : Comparator)
    (ms : List Bool) (i : Nat) (es : List Value) (back : List (Nat × Value)) (m : Nat) :
    (keyLoopT lib p keys c ms i es back m).1 = keyLoop lib p keys c i es back m := by
  cases es with
  | nil => rfl
  | cons v rest =>
    unfold keyLoopT keyLoop
    cases v with
    | obj fs =>
      try simp only []
      cases hr : relevantKeyValIdx ((back.take m).map Prod.snd) (TargetKeyValMap fs keys) with
      | panics => rfl
      | missing => exact keyLoopT_fst lib p keys _ _ (i + 1) rest back m
      | found idx =>
        try simp only []
        cases hc : (back.take m)[idx]? with
        | none => rfl
        | some cell =>
          try simp only []
          apply bindT_fst
          · exact compareObjT_fst ..
          · exact fun c2 ms2 a' => keyLoopT_fst lib p keys c2 ms2 (i + 1) rest _ _
    | arr es' =>
      try simp only []
      cases hc : (back.take m)[i]? with
      | none => rfl
      | some cell =>
        try simp only []
        apply bindT_fst
        · exact compareArrT_fst ..
        · exact fun c2 ms2 a' => keyLoopT_fst lib p keys c2 ms2 (i + 1) rest _ _
    | _ =>
      try simp only []
      cases hc : (back.take m)[i]? with
      | none => rfl
      | some cell =>
        try simp only []
        cases hi : ifaceEq _ cell.2 with
        | none => rfl
        | some b =>
          cases b with
          | true => exact keyLoopT_fst lib p keys _ _ (i + 1) rest back m
          | false =>
            exact bindT_fst rfl (fun c2 ms2 _ => keyLoopT_fst lib p keys c2 ms2 (i + 1) rest back m)
termination_by sizeOf es
decreasing_by all_goals (simp_wf; try omega)
end

theorem compareT_fst (lib : GoLib) (c : Comparator) (ms : List Bool) (withLeft : Bool) :
    (compareT lib c ms withLeft).1 = compare lib c withLeft := by
  unfold compareT compare
  try simp only []
  split
  · apply bindT_fst
    · exact compareArrT_fst ..
    · exact fun c' ms' a => rfl
  · split
    · apply bindT_fst
      · exact compareObjT_fst ..
      · exact fun c' ms' a => rfl
    · rfl

theorem CompWithRightT_fst (lib : GoLib) (c : Comparator) :
    (CompWithRightT lib c).1 = CompWithRight lib c := by
  unfold CompWithRightT CompWithRight
  apply bindT_fst
  · exact compareT_fst ..
  · exact fun c' ms' a => rfl

theorem CompWithLeftT_fst (lib : GoLib) (c : Comparator) :
    (CompWithLeftT lib c).1 = CompWithLeft lib c := by
  unfold CompWithLeftT CompWithLeft
  apply bindT_fst
  · exact compareT_fst ..
  · exact fun c' ms' a => rfl

theorem CompareFullT_fst (lib : GoLib) (c : Comparator) :
    (CompareFullT lib c).1 = CompareFull lib c := by
  unfold CompareFullT CompareFull
  apply bindT_fst
  · exact compareT_fst ..
  · intro c3 ms a
    apply bindT_fst
    · exact compareT_fst ..
    · exact fun c5 ms' a' => rfl

/-! ## A run with an ignore list against the marked run without -/

theorem pad_same {ms : List Bool} {c d : Comparator} (hl : ms.length = c.Log.length)
    (h : d.Log = c.Log) (m : Bool) : pad ms d m = ms := by
  unfold pad
  rw [h, hl, Nat.sub_self]
  exact List.append_nil _

theorem pad_one {ms : List Bool} {c d : Comparator} {e : Entry}
    (hl : ms.length = c.Log.length) (h : d.Log = c.Log ++ [e]) (m : Bool) :
    pad ms d m = ms ++ [m] := by
  unfold pad
  rw [h, hl, List.length_append, List.length_singleton, Nat.add_sub_cancel_left]
  rfl

theorem kept_snoc (b : Comparator) (t : List (Entry × Bool)) (e : Entry) (m : Bool) :
    kept b (t ++ [(e, m)]) = kept b t ++ (if (m && ignoredAt b e.path) = false then [e] else []) := by
  unfold kept
  rw [List.filter_append, List.map_append]
  congr 1
  cases h : (m && ignoredAt b e.path) <;> simp [List.filter, h]

theorem Thin.currPath {b c₁ c₂ : Comparator} {ms : List Bool} (h : Thin b c₁ c₂ ms) :
    c₁.currPath = c₂.currPath :=
  congrArg (fun t => t.1) h.cfg

theorem Thin.keys {b c₁ c₂ : Comparator} {ms : List Bool} (h : Thin b c₁ c₂ ms) :
    c₁.keys = c₂.keys :=
  congrArg (fun t => t.2.1) h.cfg

theorem Thin.types {b c₁ c₂ : Comparator} {ms : List Bool} (h : Thin b c₁ c₂ ms) :
    c₁.IgnoreTypes = c₂.IgnoreTypes :=
  congrArg (fun t => t.2.2.1) h.cfg

theorem Thin.lName {b c₁ c₂ : Comparator} {ms : List Bool} (h : Thin b c₁ c₂ ms) :
    c₁.lName = c₂.lName :=
  congrArg (fun t => t.2.2.2.1) h.cfg

theorem Thin.rName {b c₁ c₂ : Comparator} {ms : List Bool} (h : Thin b c₁ c₂ ms) :
    c₁.rName = c₂.rName :=
  congrArg (fun t => t.2.2.2.2.1) h.cfg

theorem Thin.lData {b c₁ c₂ : Comparator} {ms : List Bool} (h : Thin b c₁ c₂ ms) :
    c₁.lData = c₂.lData :=
  congrArg (fun t => t.2.2.2.2.2.1) h.cfg

theorem Thin.rData {b c₁ c₂ : Comparator} {ms : List Bool} (h : Thin b c₁ c₂ ms) :
    c₁.rData = c₂.rData :=
  congrArg (fun t => t.2.2.2.2.2.2) h.cfg

/-- The test of `ignoreCurrKey` in the run with the ignore list is the test
at the current path with the list and names the run started with. -/
theorem Thin.test {b c₁ c₂ : Comparator} {ms : List Bool} (h : Thin b c₁ c₂ ms) :
    ignoreCurrKey c₁ = ignoredAt b c₂.currPath := by
  unfold ignoredAt ignoreCurrKey
  simp only [h.base, h.name, h.currPath]

/-- A step that writes nothing on either side. -/
theorem Thin.idle {b c₁ c₂ d₁ d₂ : Comparator} {ms : List Bool} (h : Thin b c₁ c₂ ms)
    (hc : d₁.cfg = d₂.cfg) (hi : d₂.ignoreKeys = []) (hb : d₁.ignoreKeys = b.ignoreKeys)
    (hn : d₁.rName = b.rName) (h₁ : d₁.Log = c₁.Log) (h₂ : d₂.Log = c₂.Log) :
    Thin b d₁ d₂ ms :=
  ⟨hc, hi, hb, hn, by rw [h₂]; exact h.len, by rw [h₁, h₂]; exact h.log,
    by rw [h₂]; exact h.scalar⟩

/-- The same entry written on both sides, with a mark that lets it pass. -/
theorem Thin.push {b c₁ c₂ d₁ d₂ : Comparator} {ms : List Bool} (h : Thin b c₁ c₂ ms)
    (e : Entry) (m : Bool)
    (hc : d₁.cfg = d₂.cfg) (hi : d₂.ignoreKeys = []) (hb : d₁.ignoreKeys = b.ignoreKeys)
    (hn : d₁.rName = b.rName) (h₁ : d₁.Log = c₁.Log ++ [e]) (h₂ : d₂.Log = c₂.Log ++ [e])
    (hk : (m && ignoredAt b e.path) = false)
    (hs : m = true → e.kind = .unequalVal ∨ e.kind = .incorrType) :
    Thin b d₁ d₂ (pad ms d₂ m) := by
  have hz : d₂.Log.zip (pad ms d₂ m) = c₂.Log.zip ms ++ [(e, m)] := by
    rw [pad_one h.len h₂, h₂, List.zip_append h.len.symm]
    rfl
  refine ⟨hc, hi, hb, hn, ?_, ?_, ?_⟩
  · rw [pad_one h.len h₂, h₂, List.length_append, List.length_append, h.len]
    rfl
  · rw [hz, h₁, kept_snoc, if_pos hk, h.log]
  · intro eb heb hm
    rw [hz] at heb
    rcases List.mem_append.1 heb with h' | h'
    · exact h.scalar eb h' hm
    · rw [List.mem_singleton] at h'
      subst h'
      exact hs hm

theorem ignoreCurrKey_nil (c : Comparator) (h : c.ignoreKeys = []) : ignoreCurrKey c = false := by
  unfold ignoreCurrKey
  rw [h]
  rfl

/-- An entry written on the second side only: it is marked, and its path
passes the test of the ignore list. -/
theorem Thin.drop {b c₁ c₂ d₂ : Comparator} {ms : List Bool} (h : Thin b c₁ c₂ ms)
    (e : Entry) (hc : c₁.cfg = d₂.cfg) (hi : d₂.ignoreKeys = [])
    (h₂ : d₂.Log = c₂.Log ++ [e]) (hk : ignoredAt b e.path = true)
    (hs : e.kind = .unequalVal ∨ e.kind = .incorrType) :
    Thin b c₁ d₂ (pad ms d₂ true) := by
  have hz : d₂.Log.zip (pad ms d₂ true) = c₂.Log.zip ms ++ [(e, true)] := by
    rw [pad_one h.len h₂, h₂, List.zip_append h.len.symm]
    rfl
  refine ⟨hc, hi, h.base, h.name, ?_, ?_, ?_⟩
  · rw [pad_one h.len h₂, h₂, List.length_append, List.length_append, h.len]
    rfl
  · rw [hz, kept_snoc, if_neg (by rw [hk]; exact Bool.noConfusion), List.append_nil]
    exact h.log
  · intro eb heb hm
    rw [hz] at heb
    rcases List.mem_append.1 heb with h' | h'
    · exact h.scalar eb h' hm
    · rw [List.mem_singleton] at h'
      subst h'
      exact hs

theorem Thin.atPath {b c₁ c₂ : Comparator} {ms : List Bool} (h : Thin b c₁ c₂ ms) (p k : Str) :
    Thin b (setCurrPath c₁ p k) (setCurrPath c₂ p k) ms := by
  have hc := h.cfg
  simp only [Comparator.cfg, Prod.mk.injEq] at hc
  unfold setCurrPath
  split
  · exact h.idle (by simp only [Comparator.cfg, Prod.mk.injEq]; exact ⟨trivial, hc.2⟩)
      h.ign h.base h.name rfl rfl
  · exact h.idle (by simp only [Comparator.cfg, Prod.mk.injEq]; exact ⟨trivial, hc.2⟩)
      h.ign h.base h.name rfl rfl

theorem Thin.missProp {b c₁ c₂ : Comparator} {ms : List Bool} (h : Thin b c₁ c₂ ms) :
    Thin b (newMissProp c₁) (newMissProp c₂) (pad ms (newMissProp c₂) false) :=
  h.push ⟨.missProp, c₁.currPath, "\nproperty is missing".toList⟩ false h.cfg h.ign h.base
    h.name rfl (by rw [h.currPath]; rfl) rfl (fun hm => Bool.noConfusion hm)

theorem Thin.missItem {b c₁ c₂ : Comparator} {ms : List Bool} (h : Thin b c₁ c₂ ms)
    (lib : GoLib) (t : List (Str × Value)) :
    Thin b (newMissItem lib c₁ t) (newMissItem lib c₂ t) (pad ms (newMissItem lib c₂ t) false) :=
  h.push _ false h.cfg h.ign h.base h.name rfl (by rw [h.currPath]; rfl) rfl
    (fun hm => Bool.noConfusion hm)

theorem Thin.incorr {b c₁ c₂ : Comparator} {ms : List Bool} (h : Thin b c₁ c₂ ms)
    (lib : GoLib) (exp act : Value) :
    Thin b (newIncorrType lib c₁ exp act) (newIncorrType lib c₂ exp act)
      (pad ms (newIncorrType lib c₂ exp act) false) :=
  h.push _ false h.cfg h.ign h.base h.name rfl (by rw [h.currPath]; rfl) rfl
    (fun hm => Bool.noConfusion hm)

theorem Thin.arrLen {b c₁ c₂ : Comparator} {ms : List Bool} (h : Thin b c₁ c₂ ms)
    (p₁ p₂ : Str) (m n : Nat) :
    Thin b (compareArrLen c₁ p₁ m n) (compareArrLen c₂ p₂ m n)
      (pad ms (compareArrLen c₂ p₂ m n) false) := by
  unfold compareArrLen
  split
  · exact h.push _ false h.cfg h.ign h.base h.name rfl (by rw [h.currPath]; rfl) rfl
      (fun hm => Bool.noConfusion hm)
  · split
    · exact h.push _ false h.cfg h.ign h.base h.name rfl (by rw [h.currPath]; rfl) rfl
        (fun hm => Bool.noConfusion hm)
    · rw [pad_same h.len rfl]
      exact h

theorem Thin.sameKeys {b c₁ c₂ : Comparator} {ms : List Bool} (h : Thin b c₁ c₂ ms) :
    matchingKeys c₁ = matchingKeys c₂ := by
  unfold matchingKeys
  rw [h.keys, h.currPath]

/-- The record of `newUnequalVal` written on both sides, with a mark that lets
it pass. -/
theorem Thin.unequal {b c₁ c₂ : Comparator} {ms : List Bool} (h : Thin b c₁ c₂ ms)
    (lib : GoLib) (exp act : Value) (m : Bool)
    (hk : (m && ignoredAt b c₂.currPath) = false) :
    Thin b (newUnequalVal lib c₁ exp act) (newUnequalVal lib c₂ exp act)
      (pad ms (newUnequalVal lib c₂ exp act) m) := by
  unfold newUnequalVal newIncorrType
  split
  · exact h.push ⟨.incorrType, c₂.currPath, _⟩ m h.cfg h.ign h.base h.name
      (by rw [h.currPath]) rfl hk (fun _ => Or.inr rfl)
  · exact h.push ⟨.unequalVal, c₂.currPath, _⟩ m h.cfg h.ign h.base h.name
      (by rw [h.currPath]) rfl hk (fun _ => Or.inl rfl)

/-- The record of `newUnequalVal` written on the second side only, at a path
that passes the test of the ignore list. -/
theorem Thin.skipUnequal {b c₁ c₂ : Comparator} {ms : List Bool} (h : Thin b c₁ c₂ ms)
    (lib : GoLib) (exp act : Value) (hk : ignoredAt b c₂.currPath = true) :
    Thin b c₁ (newUnequalVal lib c₂ exp act) (pad ms (newUnequalVal lib c₂ exp act) true) := by
  unfold newUnequalVal newIncorrType
  split
  · exact h.drop ⟨.incorrType, c₂.currPath, _⟩ h.cfg h.ign rfl hk (Or.inr rfl)
  · exact h.drop ⟨.unequalVal, c₂.currPath, _⟩ h.cfg h.ign rfl hk (Or.inl rfl)

/-- The method `compareValues` called on both sides, with a mark that lets its
record pass. -/
theorem Thin.values {b c₁ c₂ : Comparator} {ms : List Bool} (h : Thin b c₁ c₂ ms)
    (lib : GoLib) (exp act : Value) (m : Bool)
    (hk : (m && ignoredAt b c₂.currPath) = false) :
    ThinRes b (compareValues lib c₁ exp act)
      (compareValues lib c₂ exp act, pad ms (compareValues lib c₂ exp act).comp m) := by
  unfold compareValues
  rw [h.types]
  cases hi : ifaceEq exp act with
  | none => exact (pad_same h.len rfl m).symm ▸ h
  | some t =>
    cases t with
    | true => exact ⟨(pad_same h.len rfl m).symm ▸ h, rfl⟩
    | false =>
      simp only []
      split
      · exact ⟨h.unequal lib exp act m hk, rfl⟩
      · split
        · exact ⟨(pad_same h.len rfl m).symm ▸ h, rfl⟩
        · split
          · exact ⟨(pad_same h.len rfl m).symm ▸ h, rfl⟩
          · exact ⟨h.unequal lib exp act m hk, rfl⟩

/-- The scalar comparison that an ignore path suppresses: on the side without
ignore list it returns normally, and what it writes is marked. -/
theorem Thin.skipValues {b c₁ c₂ : Comparator} {ms : List Bool} (h : Thin b c₁ c₂ ms)
    (lib : GoLib) (exp act : Value) (hne : ifaceEq exp act = some false)
    (hk : ignoredAt b c₂.currPath = true) :
    ∃ d, compareValues lib c₂ exp act = .done d () ∧ Thin b c₁ d (pad ms d true) := by
  simp only [compareValues, hne]
  split
  · exact ⟨_, rfl, h.skipUnequal lib exp act hk⟩
  · split
    · exact ⟨_, rfl, (pad_same h.len rfl true).symm ▸ h⟩
    · split
      · exact ⟨_, rfl, (pad_same h.len rfl true).symm ▸ h⟩
      · exact ⟨_, rfl, h.skipUnequal lib exp act hk⟩

theorem ThinRes.both {α β : Type} {b : Comparator} {r₁ : Res α} {r₂ : Res α × List Bool}
    {f₁ : Comparator → α → Res β} {f₂ : Comparator → List Bool → α → Res β × List Bool}
    (h : ThinRes b r₁ r₂)
    (hf : ∀ c₁ c₂ ms a, Thin b c₁ c₂ ms → ThinRes b (f₁ c₁ a) (f₂ c₂ ms a)) :
    ThinRes b (r₁.bind f₁) (bindT r₂ f₂) := by
  obtain ⟨r₂, ms⟩ := r₂
  cases r₁ with
  | panic c₁ =>
    cases r₂ with
    | panic c₂ => exact h
    | done c₂ a₂ => exact h.elim
  | done c₁ a₁ =>
    cases r₂ with
    | panic c₂ => exact h.elim
    | done c₂ a₂ =>
      obtain ⟨hs, ha⟩ := h
      subst ha
      exact hf c₁ c₂ ms a₁ hs

mutual
theorem compareObj_thin (lib : GoLib) (b : Comparator) (p : Str) (c₁ c₂ : Comparator)
    (ms : List Bool) (exp act : Value) (h : Thin b c₁ c₂ ms) :
    ThinRes b (compareObj lib p c₁ exp act) (compareObjT lib p c₂ ms exp act) := by
  cases exp with
  | obj E =>
    cases act with
    | obj A =>
      rw [compareObj, compareObjT]
      exact ThinRes.both (objLoop_thin lib b p c₁ c₂ ms E A h) (fun d₁ d₂ ms' a hs => ⟨hs, rfl⟩)
    | _ => exact h
  | _ => exact h
termination_by sizeOf exp
decreasing_by all_goals (simp_wf; try omega)
theorem objLoop_thin (lib : GoLib) (b : Comparator) (p : Str) (c₁ c₂ : Comparator)
    (ms : List Bool) (E A : List (Str × Value)) (h : Thin b c₁ c₂ ms) :
    ThinRes b (objLoop lib p c₁ E A) (objLoopT lib p c₂ ms E A) := by
  cases E with
  | nil => rw [objLoop, objLoopT]; exact ⟨h, rfl⟩
  | cons kv rest =>
    obtain ⟨k, v⟩ := kv
    have h1 := h.atPath p k
    rw [objLoop, objLoopT]
    cases hlk : lookup k A with
    | none => exact objLoop_thin lib b p _ _ _ rest A h1.missProp
    | some a =>
      cases v with
      | obj fs =>
        try simp only []
        rw [h1.currPath]
        exact ThinRes.both (compareObj_thin lib b _ _ _ _ (.obj fs) a h1)
          (fun d₁ d₂ ms' a' hs => objLoop_thin lib b p d₁ d₂ ms' rest _ hs)
      | arr es =>
        try simp only []
        rw [h1.currPath]
        exact ThinRes.both (compareArr_thin lib b _ _ _ _ (.arr es) a h1)
          (fun d₁ d₂ ms' a' hs => objLoop_thin lib b p d₁ d₂ ms' rest _ hs)
      | _ =>
        try simp only []
        rw [ignoreCurrKey_nil (setCurrPath c₂ p k) h1.ign, h1.test]
        simp only [Bool.false_eq_true, if_false]
        cases hi : ifaceEq _ a with
        | none => exact h1
        | some t =>
          cases t with
          | true => exact objLoop_thin lib b p _ _ _ rest A h1
          | false =>
            simp only []
            cases hk : ignoredAt b (setCurrPath c₂ p k).currPath with
            | true =>
              obtain ⟨d, hd, hs⟩ := h1.skipValues lib _ a hi hk
              simp only [if_true, hd, bindT, Res.comp]
              exact objLoop_thin lib b p _ _ _ rest A hs
            | false =>
              simp only [Bool.false_eq_true, if_false]
              exact ThinRes.both (h1.values lib _ a true (by rw [hk]; rfl))
                (fun d₁ d₂ ms' _ hs => objLoop_thin lib b p d₁ d₂ ms' rest A hs)
termination_by sizeOf E
decreasing_by all_goals (simp_wf; try omega)
theorem compareArr_thin (lib : GoLib) (b : Comparator) (p : Str) (c₁ c₂ : Comparator)
    (ms : List Bool) (exp act : Value) (h : Thin b c₁ c₂ ms) :
    ThinRes b (compareArr lib p c₁ exp act) (compareArrT lib p c₂ ms exp act) := by
  have h1 := h.atPath p "<array>".toList
  cases exp with
  | arr es =>
    cases act with
    | arr as =>
      rw [compareArr, compareArrT]
      try simp only []
      rw [h1.sameKeys, h1.currPath]
      have h2 := h1.arrLen (setCurrPath c₂ p "<array>".toList).currPath
        (setCurrPath c₂ p "<array>".toList).currPath es.length as.length
      split
      · exact ThinRes.both (keyLoop_thin lib b _ _ _ _ _ 0 es _ _ h2)
          (fun d₁ d₂ ms' a hs => ⟨hs, rfl⟩)
      · exact ThinRes.both (orderLoop_thin lib b _ _ _ _ _ 0 es _ h2)
          (fun d₁ d₂ ms' a hs => ⟨hs, rfl⟩)
    | _ => exact h1
  | _ => exact h1
termination_by sizeOf exp
decreasing_by all_goals (simp_wf; try omega)
theorem orderLoop_thin (lib : GoLib) (b : Comparator) (p : Str) (actLen : Nat)
    (c₁ c₂ : Comparator) (ms : List Bool) (i : Nat) (es back : List Value)
    (h : Thin b c₁ c₂ ms) :
    ThinRes b (orderLoop lib p actLen c₁ i es back) (orderLoopT lib p actLen c₂ ms i es back) := by
  cases es with
  | nil => rw [orderLoop, orderLoopT]; exact ⟨h, rfl⟩
  | cons v rest =>
    have h1 := h.atPath p (fmtNat i)
    rw [orderLoop, orderLoopT]
    try simp only []
    split
    · exact ⟨h1, rfl⟩
    · cases hb : back[i]? with
      | none => exact h1
      | some a =>
        cases v with
        | obj fs =>
          try simp only []
          rw [h1.currPath]
          exact ThinRes.both (compareObj_thin lib b _ _ _ _ (.obj fs) a h1)
            (fun d₁ d₂ ms' a' hs => orderLoop_thin lib b p actLen d₁ d₂ ms' (i + 1) rest _ hs)
        | arr es' =>
          try simp only []
          rw [h1.currPath]
          exact ThinRes.both (compareArr_thin lib b _ _ _ _ (.arr es') a h1)
            (fun d₁ d₂ ms' a' hs => orderLoop_thin lib b p actLen d₁ d₂ ms' (i + 1) rest _ hs)
        | _ =>
          try simp only []
          cases hi : ifaceEq _ a with
          | none => exact h1
          | some t =>
            cases t with
            | true => exact orderLoop_thin lib b p actLen _ _ _ (i + 1) rest back h1
            | false =>
              exact ThinRes.both (h1.values lib _ a false rfl)
                (fun d₁ d₂ ms' _ hs => orderLoop_thin lib b p actLen d₁ d₂ ms' (i + 1) rest back hs)
termination_by sizeOf es
decreasing_by all_goals (simp_wf; try omega)
theorem keyLoop_thin (lib : GoLib) (b : Comparator) (p : Str) (keys : List Str)
    (c₁ c₂ : Comparator) (ms : List Bool) (i : Nat) (es : List Value)
    (back : List (Nat × Value)) (m : Nat) (h : Thin b c₁ c₂ ms) :
    ThinRes b (keyLoop lib p keys c₁ i es back m) (keyLoopT lib p keys c₂ ms i es back m) := by
  cases es with
  | nil => rw [keyLoop, keyLoopT]; exact ⟨h, rfl⟩
  | cons v rest =>
    have h1 := h.atPath p (fmtNat i)
    unfold keyLoop keyLoopT
    cases v with
    | obj fs =>
      try simp only []
      cases hr : relevantKeyValIdx ((back.take m).map Prod.snd) (TargetKeyValMap fs keys) with
      | panics => exact h1
      | missing => exact keyLoop_thin lib b p keys _ _ _ (i + 1) rest back m (h1.missItem lib _)
      | found idx =>
        try simp only []
        cases hc : (back.take m)[idx]? with
        | none => exact h1
        | some cell =>
          try simp only []
          rw [h1.currPath]
          exact ThinRes.both (compareObj_thin lib b _ _ _ _ (.obj fs) cell.2 h1)
            (fun d₁ d₂ ms' a' hs => keyLoop_thin lib b p keys d₁ d₂ ms' (i + 1) rest _ _ hs)
    | arr es' =>
      try simp only []
      cases hc : (back.take m)[i]? with
      | none => exact h1
      | some cell =>
        try simp only []
        rw [h1.currPath]
        exact ThinRes.both (compareArr_thin lib b _ _ _ _ (.arr es') cell.2 h1)
          (fun d₁ d₂ ms' a' hs => keyLoop_thin lib b p keys d₁ d₂ ms' (i + 1) rest _ _ hs)
    | _ =>
      try simp only []
      cases hc : (back.take m)[i]? with
      | none => exact h1
      | some cell =>
        try simp only []
        cases hi : ifaceEq _ cell.2 with
        | none => exact h1
        | some t =>
          cases t with
          | true => exact keyLoop_thin lib b p keys _ _ _ (i + 1) rest back m h1
          | false =>
            exact ThinRes.both (h1.values lib _ cell.2 false rfl)
              (fun d₁ d₂ ms' _ hs => keyLoop_thin lib b p keys d₁ d₂ ms' (i + 1) rest back m hs)
termination_by sizeOf es
decreasing_by all_goals (simp_wf; try omega)
end

theorem Thin.store {b c₁ c₂ : Comparator} {ms : List Bool} (h : Thin b c₁ c₂ ms)
    (withLeft : Bool) (a : Value) :
    Thin b (if withLeft then { c₁ with lData := a } else { c₁ with rData := a })
      (if withLeft then { c₂ with lData := a } else { c₂ with rData := a }) ms := by
  have hc := h.cfg
  simp only [Comparator.cfg, Prod.mk.injEq] at hc
  cases withLeft
  · exact h.idle (by simp [Comparator.cfg, hc]) h.ign h.base h.name rfl rfl
  · exact h.idle (by simp [Comparator.cfg, hc]) h.ign h.base h.name rfl rfl

theorem Thin.keyRoot {b c₁ c₂ : Comparator} {ms : List Bool} (h : Thin b c₁ c₂ ms)
    (old new : Str) : Thin b (setKeyRoot c₁ old new) (setKeyRoot c₂ old new) ms := by
  have hc := h.cfg
  simp only [Comparator.cfg, Prod.mk.injEq] at hc
  exact h.idle (by simp [Comparator.cfg, setKeyRoot, hc]) h.ign h.base h.name rfl rfl

theorem compare_thin (lib : GoLib) (b c₁ c₂ : Comparator) (ms : List Bool) (withLeft : Bool)
    (h : Thin b c₁ c₂ ms) :
    ThinRes b (compare lib c₁ withLeft) (compareT lib c₂ ms withLeft) := by
  unfold compare compareT
  simp only [h.lData, h.rData, h.lName, h.rName]
  split
  · exact ThinRes.both (compareArr_thin lib b _ _ _ _ _ _ h)
      (fun d₁ d₂ ms' a hs => ⟨hs.store withLeft a, rfl⟩)
  · split
    · exact ThinRes.both (compareObj_thin lib b _ _ _ _ _ _ h)
        (fun d₁ d₂ ms' a hs => ⟨hs.store withLeft a, rfl⟩)
    · exact ⟨h.incorr lib _ _, rfl⟩

theorem Thin.panicked {b c₁ c₂ : Comparator} {ms : List Bool}
    (h : Thin b c₁ c₂ ms) : ThinRun b (Res.panic c₁) (Res.panic c₂, ms) := by
  refine ⟨rfl, h.len, ?_, h.scalar⟩
  show List.filter _ c₁.Log = _
  rw [h.log]
  rfl

theorem setupSummary_Log (c : Comparator) :
    (setupSummary c).Log = c.Log ++ [⟨.summary, [], summaryText c.Log.length c.missingProp
      c.incorrType c.lackOfItems c.exceedItems c.uneqVal c.missItems⟩] := rfl

theorem filter_summary (q body : Str) :
    List.filter (fun e => decide (e.kind ≠ Kind.summary)) [(⟨.summary, q, body⟩ : Entry)] = [] := by
  simp

theorem Thin.summary {b c₁ c₂ : Comparator} {ms : List Bool} (h : Thin b c₁ c₂ ms) :
    ThinRun b (Res.done (setupSummary c₁) ())
      (Res.done (setupSummary c₂) (), pad ms (setupSummary c₂) false) := by
  have hp : pad ms (setupSummary c₂) false = ms ++ [false] :=
    pad_one h.len (setupSummary_Log c₂) false
  have hz : (setupSummary c₂).Log.zip (ms ++ [false])
      = c₂.Log.zip ms ++ [(⟨.summary, [], summaryText c₂.Log.length c₂.missingProp
          c₂.incorrType c₂.lackOfItems c₂.exceedItems c₂.uneqVal c₂.missItems⟩, false)] := by
    rw [setupSummary_Log, List.zip_append h.len.symm]
    rfl
  unfold ThinRun
  simp only [Res.comp, Res.isDone, hp, hz, records]
  refine ⟨trivial, ?_, ?_, ?_⟩
  · rw [setupSummary_Log, List.length_append, List.length_append, h.len]
    rfl
  · rw [setupSummary_Log, kept_snoc, List.filter_append, List.filter_append, h.log,
      filter_summary, if_pos (Bool.false_and _), filter_summary]
  · intro eb heb hm
    rcases List.mem_append.1 heb with h' | h'
    · exact h.scalar eb h' hm
    · rw [List.mem_singleton] at h'
      subst h'
      exact Bool.noConfusion hm

theorem ThinRun.lift {α : Type} {b : Comparator} {r₁ : Res α} {r₂ : Res α × List Bool}
    {f₁ : Comparator → α → Res Unit} {f₂ : Comparator → List Bool → α → Res Unit × List Bool}
    (h : ThinRes b r₁ r₂)
    (hf : ∀ c₁ c₂ ms a, Thin b c₁ c₂ ms → ThinRun b (f₁ c₁ a) (f₂ c₂ ms a)) :
    ThinRun b (r₁.bind f₁) (bindT r₂ f₂) := by
  obtain ⟨r₂, ms⟩ := r₂
  cases r₁ with
  | panic c₁ =>
    cases r₂ with
    | panic c₂ => exact Thin.panicked h
    | done c₂ a₂ => exact h.elim
  | done c₁ a₁ =>
    cases r₂ with
    | panic c₂ => exact h.elim
    | done c₂ a₂ =>
      obtain ⟨hs, ha⟩ := h
      subst ha
      exact hf c₁ c₂ ms a₁ hs

theorem thin_start (c : Comparator) :
    Thin c (clearTemp c) (clearTemp { c with ignoreKeys := [] }) [] :=
  ⟨rfl, rfl, rfl, rfl, rfl, rfl, fun eb heb => by cases heb⟩

/-! ## Keys of the actual object that the expected object does not have -/

/-- The same first call, followed by continuations that agree. -/
theorem SameRun.after {α β γ : Type} (r : Res α) {f : Comparator → α → Res β}
    {g : Comparator → α → Res γ} (h : ∀ c a, SameRun (f c a) (g c a)) :
    SameRun (r.bind f) (r.bind g) := by
  cases r with
  | panic c => exact ⟨rfl, rfl⟩
  | done c a => exact h c a

theorem lookup_setField_eq (j k : Str) (w : Value) (A : List (Str × Value)) :
    lookup j (setField k w A) = if j = k then (lookup k A).map (fun _ => w) else lookup j A := by
  induction A with
  | nil => simp [setField, lookup]
  | cons kv A ih =>
    obtain ⟨k', v⟩ := kv
    simp only [setField]
    by_cases hk : k' = k
    · subst hk
      simp only [if_true, lookup]
      by_cases hj : k' = j
      · subst hj; simp
      · have : ¬ j = k' := fun h => hj h.symm
        simp [hj, this]
    · simp only [hk, if_false, lookup]
      by_cases hj : k' = j
      · subst hj
        have : ¬ k' = k := hk
        simp [this]
      · simp only [hj, if_false]
        exact ih

/-- The loop of `compareObj` looks the actual object up under the keys of the
expected object only. -/
theorem objLoop_lookups (lib : GoLib) (p : Str) (E : List (Str × Value)) :
    ∀ (c : Comparator) (A A' : List (Str × Value)),
      (∀ k ∈ E.map Prod.fst, lookup k A' = lookup k A) →
      SameRun (objLoop lib p c E A') (objLoop lib p c E A) := by
  induction E with
  | nil => intro c A A' _; rw [objLoop, objLoop]; exact ⟨rfl, rfl⟩
  | cons kv rest ih =>
    obtain ⟨k, v⟩ := kv
    intro c A A' h
    have hk : lookup k A' = lookup k A :=
      h k (by rw [List.map_cons]; exact List.mem_cons_self _ _)
    have hrest : ∀ j ∈ rest.map Prod.fst, lookup j A' = lookup j A :=
      fun j hj => h j (by rw [List.map_cons]; exact List.mem_cons_of_mem _ hj)
    have hset : ∀ w, ∀ j ∈ rest.map Prod.fst,
        lookup j (setField k w A') = lookup j (setField k w A) := by
      intro w j hj
      rw [lookup_setField_eq, lookup_setField_eq, hk, hrest j hj]
    rw [objLoop, objLoop, hk]
    cases hlk : lookup k A with
    | none => exact ih _ A A' hrest
    | some a =>
      simp only []
      split
      · exact SameRun.after _ (fun c2 a' => ih c2 _ _ (hset a'))
      · exact SameRun.after _ (fun c2 a' => ih c2 _ _ (hset a'))
      · split
        · exact ⟨rfl, rfl⟩
        · exact ih _ A A' hrest
        · split
          · exact ih _ A A' hrest
          · exact SameRun.after _ (fun c2 _ => ih c2 A A' hrest)

/-! ## The loop of `compareArrByKey`, index by index -/

theorem digitChar_not_slash (d : Nat) : digitChar d ≠ '/' := by
  unfold digitChar
  split <;> decide

theorem fmtNatAux_digits (fuel n : Nat) (acc : Str) (hacc : ∀ ch ∈ acc, ch ≠ '/') :
    ∀ ch ∈ fmtNatAux fuel n acc, ch ≠ '/' := by
  induction fuel generalizing n acc with
  | zero => simpa [fmtNatAux] using hacc
  | succ f ih =>
    have hcons : ∀ ch ∈ digitChar (n % 10) :: acc, ch ≠ '/' := by
      intro ch hch
      rcases List.mem_cons.1 hch with h | h
      · rw [h]; exact digitChar_not_slash _
      · exact hacc ch h
    rw [fmtNatAux]
    split
    · exact hcons
    · exact ih _ _ hcons

theorem fmtNat_digits (n : Nat) : ∀ ch ∈ fmtNat n, ch ≠ '/' :=
  fmtNatAux_digits _ _ [] (by simp)

theorem fmtNat_inj {i j : Nat} (h : fmtNat i = fmtNat j) : i = j := by
  have hi := parse_fmtNatAux (i + 1) i (by omega)
  have hj := parse_fmtNatAux (j + 1) j (by omega)
  unfold fmtNat at h
  rw [h, hj] at hi
  exact (Option.some.inj hi).symm

/-- Two slash-free strings, each followed by a slash: if one result starts with
the other, the strings are equal. -/
theorem eq_of_slash_terminated (s t x y : Str) (hs : ∀ ch ∈ s, ch ≠ '/')
    (ht : ∀ ch ∈ t, ch ≠ '/') (h : (s ++ '/' :: x) <+: (t ++ '/' :: y)) : s = t := by
  induction s generalizing t with
  | nil =>
    cases t with
    | nil => rfl
    | cons d t =>
      simp only [List.nil_append, List.cons_append, List.cons_prefix_cons] at h
      exact absurd h.1.symm (ht d (List.mem_cons_self _ _))
  | cons c s ih =>
    cases t with
    | nil =>
      simp only [List.nil_append, List.cons_append, List.cons_prefix_cons] at h
      exact absurd h.1 (hs c (List.mem_cons_self _ _))
    | cons d t =>
      simp only [List.cons_append, List.cons_prefix_cons] at h
      rw [h.1, ih t (fun ch hch => hs ch (List.mem_cons_of_mem _ hch))
        (fun ch hch => ht ch (List.mem_cons_of_mem _ hch)) h.2]

/-- The paths of two different indices of one array do not nest. -/
theorem index_paths_unrelated {i j : Nat} (h : i ≠ j) :
    startsWith (fmtNat j ++ "//".toList) (fmtNat i ++ "//".toList) = false := by
  cases hs : startsWith (fmtNat j ++ "//".toList) (fmtNat i ++ "//".toList) with
  | false => rfl
  | true =>
    rw [startsWith_iff] at hs
    exact absurd (fmtNat_inj (eq_of_slash_terminated _ _ _ _ (fmtNat_digits i)
      (fmtNat_digits j) hs)) h

/-- The records of the loop of `compareArrByKey` from index `i` on are at or
below the paths of the indices from `i` on. -/
theorem keyLoop_paths (lib : GoLib) (p : Str) (keys : List Str) (es : List Value) :
    ∀ (c : Comparator) (i : Nat) (back : List (Nat × Value)) (m : Nat),
      Grows (fun q => ∃ j, i ≤ j ∧
        (q = p ++ "//".toList ++ fmtNat j ∨ Below (p ++ "//".toList ++ fmtNat j) q)) c
        (keyLoop lib p keys c i es back m).comp := by
  induction es with
  | nil => intro c i back m; rw [keyLoop]; exact Grows.of_eq rfl
  | cons v rest ih =>
    intro c i back m
    have hL := setCurrPath_Log c p (fmtNat i)
    have hP := setCurrPath_currPath c p (fmtNat i)
    have here : ∀ {c' : Comparator}, Grows (fun q => q = (setCurrPath c p (fmtNat i)).currPath)
        (setCurrPath c p (fmtNat i)) c' →
        Grows (fun q => ∃ j, i ≤ j ∧ (q = p ++ "//".toList ++ fmtNat j ∨
          Below (p ++ "//".toList ++ fmtNat j) q)) c c' := by
      intro c' h
      exact (Grows.of_eq hL).andThen
        (h.mono (fun q hq => ⟨i, Nat.le_refl i, Or.inl (hq.trans hP)⟩))
    have below : ∀ {c' : Comparator}, Grows (Below (setCurrPath c p (fmtNat i)).currPath)
        (setCurrPath c p (fmtNat i)) c' →
        Grows (fun q => ∃ j, i ≤ j ∧ (q = p ++ "//".toList ++ fmtNat j ∨
          Below (p ++ "//".toList ++ fmtNat j) q)) c c' := by
      intro c' h
      exact (Grows.of_eq hL).andThen
        (h.mono (fun q hq => ⟨i, Nat.le_refl i, Or.inr (hP ▸ hq)⟩))
    have next : ∀ (c' : Comparator) (back' : List (Nat × Value)) (m' : Nat),
        Grows (fun q => ∃ j, i ≤ j ∧ (q = p ++ "//".toList ++ fmtNat j ∨
          Below (p ++ "//".toList ++ fmtNat j) q)) c'
          (keyLoop lib p keys c' (i + 1) rest back' m').comp := by
      intro c' back' m'
      exact (ih c' (i + 1) back' m').mono (fun q ⟨j, hj, hq⟩ => ⟨j, by omega, hq⟩)
    unfold keyLoop
    cases v with
    | obj fs =>
      simp only []
      split
      · exact here (Grows.of_eq rfl)
      · exact (here (newMissItem_grows lib _ _)).andThen (next _ _ _)
      · split
        · exact here (Grows.of_eq rfl)
        · next cell _ =>
          exact Grows.seq (below (compareObj_grows lib _ _ _ cell.2)) (fun c2 a' => next c2 _ _)
    | arr es' =>
      simp only []
      split
      · exact here (Grows.of_eq rfl)
      · next cell _ =>
        exact Grows.seq (below (compareArr_grows lib _ _ _ cell.2)) (fun c2 a' => next c2 _ _)
    | _ =>
      simp only []
      split
      · exact here (Grows.of_eq rfl)
      · next cell _ =>
        split
        · exact here (Grows.of_eq rfl)
        · exact (here (Grows.of_eq rfl)).andThen (next _ _ _)
        · exact Grows.seq (here (compareValues_grows lib _ _ cell.2)) (fun c2 _ => next c2 _ _)

theorem relevantAux_missing (target : List (Str × Value)) (pool : List Value) :
    ∀ i, noneMatches pool target = true → relevantAux target i pool = .missing := by
  induction pool with
  | nil => intro i _; rfl
  | cons a pool ih =>
    intro i h
    unfold noneMatches at h
    rw [List.all_cons, Bool.and_eq_true] at h
    cases a with
    | obj afs =>
      have h1 : isTarget afs target = some false := of_decide_eq_true h.1
      rw [relevantAux, h1]
      exact ih (i + 1) h.2
    | null => exact Bool.noConfusion h.1
    | bool b => exact Bool.noConfusion h.1
    | int n => exact Bool.noConfusion h.1
    | float f => exact Bool.noConfusion h.1
    | str s => exact Bool.noConfusion h.1
    | arr es => exact Bool.noConfusion h.1

/-- One round of the loop of `compareArrByKey` (array path `p`, key fields
`keys`) at an expected object, while every element left in the pool is an
object that the field-by-field comparison finds unequal to it on the key
fields; the pool may be empty. The round does not panic: it writes the one
missing-item record at `p//i`, which names each key field with the value the
expected element has, and the loop goes on at `i + 1` with the pool untouched.
No other record of the call is at or below `p//i`. -/
theorem keyLoop_unmatched (lib : GoLib) (p : Str) (keys : List Str)
    (c : Comparator) (i : Nat) (fs : List (Str × Value)) (rest : List Value)
    (back : List (Nat × Value)) (m : Nat)
    (h : noneMatches ((back.take m).map Prod.snd) (TargetKeyValMap fs keys) = true) :
    keyLoop lib p keys c i (.obj fs :: rest) back m
      = keyLoop lib p keys
          (newMissItem lib (setCurrPath c p (fmtNat i)) (TargetKeyValMap fs keys))
          (i + 1) rest back m ∧
    ∃ later, (keyLoop lib p keys c i (.obj fs :: rest) back m).comp.Log
        = c.Log ++ [missItemRec lib (p ++ "//".toList ++ fmtNat i) (TargetKeyValMap fs keys)]
          ++ later ∧
      ∀ e ∈ later, atOrBelow (p ++ "//".toList ++ fmtNat i) e.path = false := by
  have hstep : keyLoop lib p keys c i (.obj fs :: rest) back m
      = keyLoop lib p keys
          (newMissItem lib (setCurrPath c p (fmtNat i)) (TargetKeyValMap fs keys))
          (i + 1) rest back m := by
    rw [keyLoop]
    simp only [relevantKeyValIdx, relevantAux_missing _ _ 0 h]
  refine ⟨hstep, ?_⟩
  obtain ⟨later, hlog, hpaths⟩ := keyLoop_paths lib p keys rest
    (newMissItem lib (setCurrPath c p (fmtNat i)) (TargetKeyValMap fs keys)) (i + 1) back m
  refine ⟨later, ?_, ?_⟩
  · rw [hstep, hlog]
    simp [newMissItem, missItemRec, setCurrPath_Log, setCurrPath_currPath]
  · intro e he
    obtain ⟨j, hj, hq⟩ := hpaths e he
    have hne : i ≠ j := by omega
    exact not_atOrBelow_of_unrelated p (fmtNat i) (fmtNat j) e.path
      (index_paths_unrelated hne) (index_paths_unrelated (Ne.symm hne)) hq

/-! ## The backing array and the pool of `compareArrByKey` -/

theorem length_removeShift {α : Type} (back : List α) (idx m : Nat) (h₁ : idx < m)
    (h₂ : m ≤ back.length) : (removeShift back idx m).length = back.length := by
  unfold removeShift
  simp only [List.length_append, List.length_take, List.length_drop]
  omega

theorem take_removeShift {α : Type} (back : List α) (idx m : Nat) (h₁ : idx < m)
    (h₂ : m ≤ back.length) :
    (removeShift back idx m).take (m - 1) = (back.take m).eraseIdx idx := by
  unfold removeShift
  have hlen : (back.take idx ++ (back.drop (idx + 1)).take (m - 1 - idx)).length = m - 1 := by
    simp only [List.length_append, List.length_take, List.length_drop]
    omega
  rw [List.take_append_of_le_length (by omega), List.take_of_length_le (by omega),
    List.eraseIdx_eq_take_drop_succ, List.take_take, List.drop_take]
  congr 2
  · omega
  · omega

theorem length_writeCell (id : Nat) (w : Value) (back : List (Nat × Value)) :
    (writeCell id w back).length = back.length := by
  simp [writeCell]

theorem take_writeCell (id : Nat) (w : Value) (back : List (Nat × Value)) (m : Nat) :
    (writeCell id w back).take m = writeCell id w (back.take m) := by
  simp [writeCell, List.map_take]

theorem writeCell_of_not_mem (id : Nat) (w : Value) (l : List (Nat × Value))
    (h : ∀ e ∈ l, e.1 ≠ id) : writeCell id w l = l := by
  induction l with
  | nil => rfl
  | cons e l ih =>
    simp only [writeCell, List.map_cons]
    rw [if_neg (h e (List.mem_cons_self _ _))]
    congr 1
    exact ih (fun e' he' => h e' (List.mem_cons_of_mem _ he'))

theorem eraseIdx_writeCell (w : Value) (l : List (Nat × Value)) :
    ∀ (idx : Nat) (cell : Nat × Value), (l.map Prod.fst).Nodup → l[idx]? = some cell →
      (writeCell cell.1 w l).eraseIdx idx = l.eraseIdx idx := by
  induction l with
  | nil => intro idx cell _ h; simp at h
  | cons e l ih =>
    intro idx cell hnd h
    simp only [List.map_cons, List.nodup_cons] at hnd
    cases idx with
    | zero =>
      simp only [List.getElem?_cons_zero, Option.some.injEq] at h
      subst h
      simp only [writeCell, List.map_cons, List.eraseIdx_cons_zero]
      apply writeCell_of_not_mem
      intro e' he' heq
      exact hnd.1 (heq ▸ List.mem_map_of_mem Prod.fst he')
    | succ n =>
      simp only [List.getElem?_cons_succ] at h
      have hmem : cell ∈ l := List.getElem?_mem h
      have hne : e.1 ≠ cell.1 := fun heq => hnd.1 (heq ▸ List.mem_map_of_mem Prod.fst hmem)
      simp only [writeCell, List.map_cons, List.eraseIdx_cons_succ]
      rw [if_neg hne]
      congr 1
      exact ih n cell hnd.2 h

theorem map_eraseIdx_comm {α β : Type} (f : α → β) (l : List α) :
    ∀ i, (l.eraseIdx i).map f = (l.map f).eraseIdx i := by
  induction l with
  | nil => intro i; rfl
  | cons a l ih =>
    intro i
    cases i with
    | zero => rfl
    | succ n => simp only [List.eraseIdx_cons_succ, List.map_cons, ih n]

/-- After a match at `idx` the elements still in `parsedAct` are those from
before, less the one at `idx`; a write through the matched element reaches no
other of them. -/
theorem live_after_remove (back : List (Nat × Value)) (idx m : Nat) (cell : Nat × Value)
    (w : Value) (hm : m ≤ back.length) (hnd : ((back.take m).map Prod.fst).Nodup)
    (hcell : (back.take m)[idx]? = some cell) :
    m - 1 ≤ (removeShift (writeCell cell.1 w back) idx m).length ∧
    (((removeShift (writeCell cell.1 w back) idx m).take (m - 1)).map Prod.fst).Nodup ∧
    ((removeShift (writeCell cell.1 w back) idx m).take (m - 1)).map Prod.snd
      = ((back.take m).map Prod.snd).eraseIdx idx := by
  have hidx : idx < m := by
    obtain ⟨h, -⟩ := List.getElem?_eq_some.1 hcell
    have := List.length_take_le m back
    omega
  have hm' : m ≤ (writeCell cell.1 w back).length := by rw [length_writeCell]; exact hm
  have htake : (removeShift (writeCell cell.1 w back) idx m).take (m - 1)
      = (back.take m).eraseIdx idx := by
    rw [take_removeShift _ _ _ hidx hm', take_writeCell, eraseIdx_writeCell w _ idx cell hnd hcell]
  refine ⟨?_, ?_, ?_⟩
  · rw [length_removeShift _ _ _ hidx hm', length_writeCell]; omega
  · rw [htake]
    exact hnd.sublist ((List.eraseIdx_sublist _ _).map Prod.fst)
  · rw [htake, map_eraseIdx_comm]

/-- The loop of `compareArrByKey` on the backing array and on the pool alone
end the same way and in the same state. -/
theorem keyLoop_pool (lib : GoLib) (p : Str) (keys : List Str) (es : List Value) :
    ∀ (c : Comparator) (i : Nat) (back : List (Nat × Value)) (m : Nat),
      m ≤ back.length → ((back.take m).map Prod.fst).Nodup →
      SameRun (keyLoop lib p keys c i es back m)
        (poolLoop lib p keys c i es ((back.take m).map Prod.snd)) := by
  induction es with
  | nil => intro c i back m _ _; rw [keyLoop, poolLoop]; exact ⟨rfl, rfl⟩
  | cons v rest ih =>
    intro c i back m hm hnd
    have hget : ∀ n, ((back.take m).map Prod.snd)[n]? = ((back.take m)[n]?).map Prod.snd :=
      fun n => List.getElem?_map _ _ _
    have hnext : ∀ (n : Nat) (cell : Nat × Value), (back.take m)[n]? = some cell →
        ∀ (c2 : Comparator) (w : Value),
          SameRun (keyLoop lib p keys c2 (i + 1) rest (removeShift (writeCell cell.1 w back) n m)
            (m - 1))
            (poolLoop lib p keys c2 (i + 1) rest (((back.take m).map Prod.snd).eraseIdx n)) := by
      intro n cell hcell c2 w
      obtain ⟨h₁, h₂, h₃⟩ := live_after_remove back n m cell w hm hnd hcell
      rw [← h₃]
      exact ih c2 (i + 1) _ (m - 1) h₁ h₂
    unfold keyLoop poolLoop
    cases v with
    | obj fs =>
      simp only []
      cases hrel : relevantKeyValIdx ((back.take m).map Prod.snd) (TargetKeyValMap fs keys) with
      | panics => exact ⟨rfl, rfl⟩
      | missing => exact ih _ (i + 1) back m hm hnd
      | found idx =>
        simp only []
        rw [hget idx]
        cases hcell : (back.take m)[idx]? with
        | none => exact ⟨rfl, rfl⟩
        | some cell => exact SameRun.after _ (fun c2 w => hnext idx cell hcell c2 w)
    | arr es' =>
      simp only []
      rw [hget i]
      cases hcell : (back.take m)[i]? with
      | none => exact ⟨rfl, rfl⟩
      | some cell => exact SameRun.after _ (fun c2 w => hnext i cell hcell c2 w)
    | _ =>
      simp only []
      rw [hget i]
      cases hcell : (back.take m)[i]? with
      | none => exact ⟨rfl, rfl⟩
      | some cell =>
        simp only [Option.map_some']
        cases hif : ifaceEq _ cell.2 with
        | none => exact ⟨rfl, rfl⟩
        | some b =>
          cases b with
          | true => exact ih _ (i + 1) back m hm hnd
          | false => exact SameRun.after _ (fun c2 _ => ih c2 (i + 1) back m hm hnd)

/-! ## The match of compareArrByKey under a reordering of the actual array -/

theorem SameRun.flip {α β : Type} {r : Res α} {r' : Res β} (h : SameRun r r') :
    SameRun r' r := ⟨h.1.symm, h.2.symm⟩

theorem SameRun.chain {α β γ : Type} {r₁ : Res α} {r₂ : Res β} {r₃ : Res γ}
    (h : SameRun r₁ r₂) (h' : SameRun r₂ r₃) : SameRun r₁ r₃ :=
  ⟨h.1.trans h'.1, h.2.trans h'.2⟩

/-- A closing step that only repacks the result changes neither the outcome
nor the state. -/
theorem SameRun.repack {α β : Type} (r : Res α) (f : α → β) :
    SameRun (r.bind fun c a => .done c (f a)) r := by
  cases r with
  | panic c => exact ⟨rfl, rfl⟩
  | done c a => exact ⟨rfl, rfl⟩

/-- A value that some value equals is neither a map nor a slice, so the
comparison with it never panics. -/
theorem ifaceEq_ne_none_of_eq {x t : Value} (h : ifaceEq x t = some true) (y : Value) :
    ifaceEq y t ≠ none := by
  cases t <;> cases x <;> simp [ifaceEq] at h <;> cases y <;> simp [ifaceEq]

theorem Float64.eq_of_eq_eq {a b t : Float64} (h₁ : a.eq t = true) (h₂ : b.eq t = true) :
    a.eq b = true := by
  unfold Float64.eq at *
  simp only [Bool.and_eq_true, Bool.or_eq_true, Bool.not_eq_true', decide_eq_true_eq] at *
  obtain ⟨⟨ha, _⟩, h₁⟩ := h₁
  obtain ⟨⟨hb, _⟩, h₂⟩ := h₂
  refine ⟨⟨ha, hb⟩, ?_⟩
  have e63 : ∀ x y : Nat, x % 2 ^ 64 = y % 2 ^ 64 → x % 2 ^ 63 = y % 2 ^ 63 := by
    intro x y h; omega
  rcases h₁ with h₁ | h₁ <;> rcases h₂ with h₂ | h₂
  · left; omega
  · right; have := e63 _ _ h₁; omega
  · right; have := e63 _ _ h₂; omega
  · right; omega

/-- Two values equal to a third are equal to each other. -/
theorem ifaceEq_of_eq_eq {x y t : Value} (h₁ : ifaceEq x t = some true)
    (h₂ : ifaceEq y t = some true) : ifaceEq x y = some true := by
  cases t <;> cases x <;> simp [ifaceEq] at h₁ <;> cases y <;> simp [ifaceEq] at h₂ ⊢
  · subst h₁; subst h₂; rfl
  · subst h₁; subst h₂; rfl
  · exact Float64.eq_of_eq_eq h₁ h₂
  · subst h₁; subst h₂; rfl

theorem isTarget_true {afs : List (Str × Value)} :
    ∀ {T : List (Str × Value)}, isTarget afs T = some true →
      ∀ kv ∈ T, ifaceEq (lookupD kv.1 afs) kv.2 = some true := by
  intro T
  induction T with
  | nil => intro _ kv hkv; cases hkv
  | cons e T ih =>
    obtain ⟨k, v⟩ := e
    intro h kv hkv
    rw [isTarget] at h
    cases h₁ : ifaceEq (lookupD k afs) v with
    | none => rw [h₁] at h; cases h
    | some b =>
      cases h₂ : isTarget afs T with
      | none => rw [h₁, h₂] at h; cases h
      | some rest =>
        rw [h₁, h₂] at h
        simp only [Option.some.injEq, Bool.and_eq_true] at h
        rcases List.mem_cons.1 hkv with e | hm
        · subst e; rw [h₁, h.1]
        · exact ih (by rw [h₂, h.2]) kv hm

theorem isTarget_none {afs : List (Str × Value)} :
    ∀ {T : List (Str × Value)}, isTarget afs T = none →
      ∃ kv ∈ T, ifaceEq (lookupD kv.1 afs) kv.2 = none := by
  intro T
  induction T with
  | nil => intro h; cases h
  | cons e T ih =>
    obtain ⟨k, v⟩ := e
    intro h
    rw [isTarget] at h
    cases h₁ : ifaceEq (lookupD k afs) v with
    | none => exact ⟨(k, v), List.mem_cons_self _ _, h₁⟩
    | some b =>
      cases h₂ : isTarget afs T with
      | none =>
        obtain ⟨kv, hm, hkv⟩ := ih h₂
        exact ⟨kv, List.mem_cons_of_mem _ hm, hkv⟩
      | some rest => rw [h₁, h₂] at h; cases h

/-- Where one object equals the target on every key field, the comparison of
any object with the target runs through. -/
theorem isTarget_ne_none_of_match {afs bfs T : List (Str × Value)}
    (h : isTarget bfs T = some true) : isTarget afs T ≠ none := by
  intro hn
  obtain ⟨kv, hm, hkv⟩ := isTarget_none hn
  exact ifaceEq_ne_none_of_eq (isTarget_true h kv hm) _ hkv

theorem mem_dedupKeys {k : Str} : ∀ {ks : List Str}, k ∈ ks → k ∈ dedupKeys ks := by
  intro ks
  induction ks with
  | nil => intro h; cases h
  | cons k' ks ih =>
    intro h
    rw [dedupKeys]
    by_cases e : k = k'
    · subst e; exact List.mem_cons_self _ _
    · rcases List.mem_cons.1 h with h | h
      · exact absurd h e
      · exact List.mem_cons_of_mem _ (List.mem_filter.2 ⟨ih h, by simpa using e⟩)

/-- Two objects that equal the same target on every key field agree on the
key fields. -/
theorem agreeOn_of_match {afs bfs fs : List (Str × Value)} {keys : List Str}
    (ha : isTarget afs (TargetKeyValMap fs keys) = some true)
    (hb : isTarget bfs (TargetKeyValMap fs keys) = some true) :
    agreeOn keys (.obj afs) (.obj bfs) = true := by
  unfold agreeOn
  simp only [List.all_eq_true, decide_eq_true_eq]
  intro k hk
  have hm : (k, lookupD k fs) ∈ TargetKeyValMap fs keys :=
    List.mem_map.2 ⟨k, mem_dedupKeys hk, rfl⟩
  exact ifaceEq_of_eq_eq (isTarget_true ha _ hm) (isTarget_true hb _ hm)

theorem relevantAux_found (T : List (Str × Value)) (pool : List Value) :
    ∀ i j, relevantAux T i pool = .found j →
      ∃ n afs, j = i + n ∧ pool[n]? = some (.obj afs) ∧ isTarget afs T = some true := by
  induction pool with
  | nil => intro i j h; cases h
  | cons a pool ih =>
    intro i j h
    cases a with
    | obj afs =>
      rw [relevantAux] at h
      cases ht : isTarget afs T with
      | none => rw [ht] at h; cases h
      | some b =>
        cases b with
        | true =>
          rw [ht] at h
          simp only [Found.found.injEq] at h
          exact ⟨0, afs, by omega, List.getElem?_cons_zero, ht⟩
        | false =>
          rw [ht] at h
          obtain ⟨n, bfs, e, hg, hb⟩ := ih (i + 1) j h
          exact ⟨n + 1, bfs, by omega, by rw [List.getElem?_cons_succ]; exact hg, hb⟩
    | _ => cases h

theorem relevantAux_none (T : List (Str × Value)) (pool : List Value) :
    ∀ i, relevantAux T i pool = .missing → noneMatches pool T = true := by
  induction pool with
  | nil => intro i _; rfl
  | cons a pool ih =>
    intro i h
    cases a with
    | obj afs =>
      rw [relevantAux] at h
      cases ht : isTarget afs T with
      | none => rw [ht] at h; cases h
      | some b =>
        cases b with
        | true => rw [ht] at h; cases h
        | false =>
          rw [ht] at h
          unfold noneMatches
          rw [List.all_cons, Bool.and_eq_true]
          exact ⟨decide_eq_true ht, ih (i + 1) h⟩
    | _ => cases h

theorem relevantAux_panics (T : List (Str × Value)) (pool : List Value) :
    ∀ i, relevantAux T i pool = .panics →
      ∃ a ∈ pool, ∀ afs, a = .obj afs → isTarget afs T = none := by
  induction pool with
  | nil => intro i h; cases h
  | cons a pool ih =>
    intro i h
    cases a with
    | obj afs =>
      rw [relevantAux] at h
      cases ht : isTarget afs T with
      | none =>
        refine ⟨_, List.mem_cons_self _ _, ?_⟩
        intro bfs e
        cases e
        exact ht
      | some b =>
        cases b with
        | true => rw [ht] at h; cases h
        | false =>
          rw [ht] at h
          obtain ⟨a, hm, ha⟩ := ih (i + 1) h
          exact ⟨a, List.mem_cons_of_mem _ hm, ha⟩
    | _ => exact ⟨_, List.mem_cons_self _ _, fun afs e => by cases e⟩

theorem noneMatches_mem {pool : List Value} {T : List (Str × Value)}
    (h : noneMatches pool T = true) {a : Value} (ha : a ∈ pool) :
    ∃ afs, a = .obj afs ∧ isTarget afs T = some false := by
  unfold noneMatches at h
  have := List.all_eq_true.1 h a ha
  cases a with
  | obj afs => exact ⟨afs, rfl, of_decide_eq_true this⟩
  | _ => exact Bool.noConfusion this

theorem noneMatches_perm {pool pool' : List Value} (T : List (Str × Value))
    (hp : pool'.Perm pool) (h : noneMatches pool T = true) : noneMatches pool' T = true := by
  unfold noneMatches at *
  rw [List.all_eq_true] at *
  intro a ha
  exact h a (hp.mem_iff.1 ha)

theorem perm_cons_eraseIdx {α : Type} : ∀ (l : List α) (n : Nat) (a : α),
    l[n]? = some a → l.Perm (a :: l.eraseIdx n) := by
  intro l
  induction l with
  | nil => intro n a h; cases h
  | cons b l ih =>
    intro n a h
    cases n with
    | zero =>
      simp only [List.getElem?_cons_zero, Option.some.injEq] at h
      subst h
      exact List.Perm.refl _
    | succ n =>
      simp only [List.getElem?_cons_succ] at h
      rw [List.eraseIdx_cons_succ]
      exact ((ih n a h).cons b).trans (List.Perm.swap a b _)

/-- With the actual elements pairwise distinct on the key fields, the element
that equals a target on every key field is the same one wherever it sits, and
what is left after its removal is the same up to order. -/
theorem match_unique {keys : List Str} {fs : List (Str × Value)} {pool pool' : List Value}
    (hd : DistinctOn keys pool) (hp : pool'.Perm pool) {j j' : Nat}
    {afs bfs : List (Str × Value)}
    (hj : pool[j]? = some (.obj afs)) (ha : isTarget afs (TargetKeyValMap fs keys) = some true)
    (hj' : pool'[j']? = some (.obj bfs))
    (hb : isTarget bfs (TargetKeyValMap fs keys) = some true) :
    bfs = afs ∧ (pool'.eraseIdx j').Perm (pool.eraseIdx j) := by
  have hmem : Value.obj bfs ∈ pool := hp.mem_iff.1 (List.getElem?_mem hj')
  obtain ⟨n, hn, hget⟩ := List.getElem_of_mem hmem
  have hn' : pool[n]? = some (.obj bfs) := by rw [List.getElem?_eq_getElem hn, hget]
  obtain ⟨hjl, hjg⟩ := List.getElem?_eq_some.1 hj
  have hpw := List.pairwise_iff_getElem.1 hd
  have hnj : n = j := by
    rcases Nat.lt_trichotomy n j with h | h | h
    · have := hpw n j hn hjl h
      rw [hget, hjg, agreeOn_of_match hb ha] at this
      exact Bool.noConfusion this
    · exact h
    · have := hpw j n hjl hn h
      rw [hget, hjg, agreeOn_of_match ha hb] at this
      exact Bool.noConfusion this
  subst hnj
  have e : Value.obj bfs = Value.obj afs := by
    rw [hn'] at hj; exact Option.some.inj hj
  have e' : bfs = afs := by cases e; rfl
  refine ⟨e', ?_⟩
  subst e'
  have h₁ := perm_cons_eraseIdx pool n _ hj
  have h₂ := perm_cons_eraseIdx pool' j' _ hj'
  exact List.Perm.cons_inv ((h₂.symm.trans hp).trans h₁)

/-- The loop of `compareArrByKey` over expected objects ends the same way and
in the same state on every reordering of the actual elements, when these are
objects pairwise distinct on the key fields. -/
theorem poolLoop_perm (lib : GoLib) (p : Str) (keys : List Str) (es : List Value)
    (hes : ∀ v ∈ es, v.isObj = true) :
    ∀ (c : Comparator) (i : Nat) (pool pool' : List Value),
      (∀ a ∈ pool, a.isObj = true) → DistinctOn keys pool → pool'.Perm pool →
      SameRun (poolLoop lib p keys c i es pool') (poolLoop lib p keys c i es pool) := by
  induction es with
  | nil => intro c i pool pool' _ _ _; rw [poolLoop, poolLoop]; exact ⟨rfl, rfl⟩
  | cons v rest ih =>
    intro c i pool pool' hobj hd hp
    have ih := ih (fun v hv => hes v (List.mem_cons_of_mem _ hv))
    have hv := hes v (List.mem_cons_self _ _)
    cases v with
    | obj fs =>
      have hobjOf : ∀ a ∈ pool, ∃ afs, a = Value.obj afs := by
        intro a ha
        have := hobj a ha
        cases a with
        | obj afs => exact ⟨afs, rfl⟩
        | _ => exact Bool.noConfusion this
      unfold poolLoop
      simp only []
      cases hr : relevantKeyValIdx pool (TargetKeyValMap fs keys) with
      | panics =>
        obtain ⟨a, ham, ha⟩ := relevantAux_panics _ _ 0 hr
        obtain ⟨afs, e⟩ := hobjOf a ham
        have han := ha afs e
        cases hr' : relevantKeyValIdx pool' (TargetKeyValMap fs keys) with
        | panics => exact ⟨rfl, rfl⟩
        | missing =>
          obtain ⟨afs', e', hf⟩ := noneMatches_mem (relevantAux_none _ _ 0 hr') (hp.mem_iff.2 ham)
          rw [e] at e'; cases e'
          rw [han] at hf; cases hf
        | found j' =>
          obtain ⟨n, bfs, _, _, hb⟩ := relevantAux_found _ _ 0 j' hr'
          exact absurd han (isTarget_ne_none_of_match hb)
      | missing =>
        have hnm := relevantAux_none _ _ 0 hr
        have hr' : relevantKeyValIdx pool' (TargetKeyValMap fs keys) = .missing :=
          relevantAux_missing _ _ 0 (noneMatches_perm _ hp hnm)
        rw [hr']
        exact ih _ (i + 1) pool pool' hobj hd hp
      | found j =>
        obtain ⟨n, afs, e, hj, ha⟩ := relevantAux_found _ _ 0 j hr
        have e : j = n := by omega
        subst e
        cases hr' : relevantKeyValIdx pool' (TargetKeyValMap fs keys) with
        | panics =>
          obtain ⟨a, ham, hx⟩ := relevantAux_panics _ _ 0 hr'
          obtain ⟨bfs, e⟩ := hobjOf a (hp.mem_iff.1 ham)
          exact absurd (hx bfs e) (isTarget_ne_none_of_match ha)
        | missing =>
          obtain ⟨afs', e', hf⟩ := noneMatches_mem (relevantAux_none _ _ 0 hr')
            (hp.mem_iff.2 (List.getElem?_mem hj))
          cases e'
          rw [ha] at hf; cases hf
        | found j' =>
          obtain ⟨n', bfs, e, hj', hb⟩ := relevantAux_found _ _ 0 j' hr'
          have e : j' = n' := by omega
          subst e
          obtain ⟨e, hperm⟩ := match_unique hd hp hj ha hj' hb
          subst e
          simp only [hj, hj']
          refine SameRun.after _ (fun c2 _ => ?_)
          exact ih c2 (i + 1) _ _
            (fun a ham => hobj a (List.mem_of_mem_eraseIdx ham))
            (List.Pairwise.sublist (List.eraseIdx_sublist _ _) hd) hperm
    | _ => exact Bool.noConfusion hv

/-- The method `compareArrByKey` ends as its loop does on the actual elements
alone. -/
theorem compareArrByKey_pool (lib : GoLib) (p : Str) (c : Comparator) (es as : List Value)
    (keys : List Str) :
    SameRun (compareArrByKey lib p c (.arr es) (.arr as) keys)
      (poolLoop lib p keys (compareArrLen c p es.length as.length) 0 es as) := by
  rw [compareArrByKey]
  refine (SameRun.repack _ _).chain ?_
  have h := keyLoop_pool lib p keys es (compareArrLen c p es.length as.length) 0 as.enum
    as.length (by rw [List.enum_length])
    (by
      rw [List.take_of_length_le (by rw [List.enum_length]), List.enum_map_fst]
      exact List.nodup_range _)
  rw [List.take_of_length_le (by rw [List.enum_length]), List.enum_map_snd] at h
  exact h

/-! ## Deep equality and the two directions of the plain comparison -/

theorem fieldsCover_iff (A : List (Str × Value)) : ∀ E : List (Str × Value),
    fieldsCover E A = true ↔ ∀ kv ∈ E, ∃ a, lookup kv.1 A = some a ∧ covers kv.2 a = true := by
  intro E
  induction E with
  | nil => simp [fieldsCover]
  | cons e E ih =>
    obtain ⟨k, v⟩ := e
    rw [fieldsCover, Bool.and_eq_true, ih]
    constructor
    · rintro ⟨h₁, h₂⟩ kv hkv
      rcases List.mem_cons.1 hkv with e | hm
      · subst e
        cases hl : lookup k A with
        | none => rw [hl] at h₁; exact Bool.noConfusion h₁
        | some a => rw [hl] at h₁; exact ⟨a, rfl, h₁⟩
      · exact h₂ kv hm
    · intro h
      refine ⟨?_, fun kv hm => h kv (List.mem_cons_of_mem _ hm)⟩
      obtain ⟨a, hl, hc⟩ := h (k, v) (List.mem_cons_self _ _)
      simp only [] at hl
      rw [hl]; exact hc

theorem fieldsEqual_iff (A : List (Str × Value)) : ∀ E : List (Str × Value),
    fieldsEqual E A = true ↔
      ∀ kv ∈ E, ∃ a, lookup kv.1 A = some a ∧ deepEqual kv.2 a = true := by
  intro E
  induction E with
  | nil => simp [fieldsEqual]
  | cons e E ih =>
    obtain ⟨k, v⟩ := e
    rw [fieldsEqual, Bool.and_eq_true, ih]
    constructor
    · rintro ⟨h₁, h₂⟩ kv hkv
      rcases List.mem_cons.1 hkv with e | hm
      · subst e
        cases hl : lookup k A with
        | none => rw [hl] at h₁; exact Bool.noConfusion h₁
        | some a => rw [hl] at h₁; exact ⟨a, rfl, h₁⟩
      · exact h₂ kv hm
    · intro h
      refine ⟨?_, fun kv hm => h kv (List.mem_cons_of_mem _ hm)⟩
      obtain ⟨a, hl, hc⟩ := h (k, v) (List.mem_cons_self _ _)
      simp only [] at hl
      rw [hl]; exact hc

theorem fieldsDistinct_iff : ∀ fs : List (Str × Value),
    fieldsDistinct fs = true ↔ ∀ kv ∈ fs, distinctKeys kv.2 = true := by
  intro fs
  induction fs with
  | nil => simp [fieldsDistinct]
  | cons e fs ih =>
    obtain ⟨k, v⟩ := e
    rw [fieldsDistinct, Bool.and_eq_true, ih]
    constructor
    · rintro ⟨h₁, h₂⟩ kv hkv
      rcases List.mem_cons.1 hkv with e | hm
      · subst e; exact h₁
      · exact h₂ kv hm
    · intro h
      exact ⟨h (k, v) (List.mem_cons_self _ _), fun kv hm => h kv (List.mem_cons_of_mem _ hm)⟩

theorem lookup_mem {k : Str} {v : Value} : ∀ {A : List (Str × Value)},
    lookup k A = some v → (k, v) ∈ A := by
  intro A
  induction A with
  | nil => intro h; cases h
  | cons e A ih =>
    obtain ⟨k', w⟩ := e
    intro h
    rw [lookup] at h
    by_cases hk : k' = k
    · rw [if_pos hk] at h
      cases h
      subst hk
      exact List.mem_cons_self _ _
    · rw [if_neg hk] at h
      exact List.mem_cons_of_mem _ (ih h)

theorem lookup_of_mem {k : Str} {v : Value} : ∀ {A : List (Str × Value)},
    (A.map Prod.fst).Nodup → (k, v) ∈ A → lookup k A = some v := by
  intro A
  induction A with
  | nil => intro _ h; cases h
  | cons e A ih =>
    obtain ⟨k', w⟩ := e
    intro hnd h
    rw [List.map_cons, List.nodup_cons] at hnd
    rw [lookup]
    rcases List.mem_cons.1 h with e | hm
    · cases e; rw [if_pos rfl]
    · have hne : ¬ k' = k := by
        intro e
        subst e
        exact hnd.1 (List.mem_map.2 ⟨(k', v), hm, rfl⟩)
      rw [if_neg hne]
      exact ih hnd.2 hm

theorem Float64.eq_symm (a b : Float64) : a.eq b = b.eq a := by
  unfold Float64.eq
  rw [Bool.and_comm (!a.isNaN) (!b.isNaN)]
  congr 1
  rw [Bool.and_comm (decide (a.bits % 2 ^ 63 = 0))]
  congr 1
  exact decide_eq_decide.2 ⟨Eq.symm, Eq.symm⟩

theorem ifaceEq_comm (x y : Value) : ifaceEq x y = ifaceEq y x := by
  cases x <;> cases y <;> simp only [ifaceEq] <;>
    first
      | rfl
      | exact congrArg some (decide_eq_decide.2 ⟨Eq.symm, Eq.symm⟩)
      | exact congrArg some (Float64.eq_symm _ _)

/-- On a scalar expected value the two tests are the comparison by `==`. -/
theorem covers_scalar {v : Value} (ho : v.isObj = false) (ha : v.isArr = false) (a : Value) :
    covers v a = decide (ifaceEq v a = some true) ∧
    deepEqual v a = decide (ifaceEq v a = some true) := by
  cases v with
  | obj _ => exact Bool.noConfusion ho
  | arr _ => exact Bool.noConfusion ha
  | _ => exact ⟨rfl, rfl⟩

/-- A value equal to a scalar is a scalar. -/
theorem scalar_of_ifaceEq {v a : Value} (ho : v.isObj = false) (ha : v.isArr = false)
    (h : ifaceEq v a = some true) : a.isObj = false ∧ a.isArr = false := by
  cases v <;> cases a <;>
    first
      | exact ⟨rfl, rfl⟩
      | exact Bool.noConfusion ho
      | exact Bool.noConfusion ha
      | exact Bool.noConfusion (Option.some.inj h)

/-- Against a value that is no object, no test of an object passes. -/
theorem covers_obj_other (E : List (Str × Value)) {a : Value} (h : a.isObj = false) :
    covers (.obj E) a = false ∧ deepEqual (.obj E) a = false := by
  cases a <;> first | exact ⟨rfl, rfl⟩ | exact Bool.noConfusion h

/-- Against a value that is no array, no test of an array passes. -/
theorem covers_arr_other (es : List Value) {a : Value} (h : a.isArr = false) :
    covers (.arr es) a = false ∧ deepEqual (.arr es) a = false := by
  cases a <;> first | exact ⟨rfl, rfl⟩ | exact Bool.noConfusion h

theorem deepEqual_scalar_iff {v : Value} (ho : v.isObj = false) (ha : v.isArr = false)
    (a : Value) : deepEqual v a = true ↔ covers v a = true ∧ covers a v = true := by
  obtain ⟨hc, hd⟩ := covers_scalar ho ha a
  rw [hd, hc]
  constructor
  · intro h
    refine ⟨h, ?_⟩
    have hi := of_decide_eq_true h
    obtain ⟨ao, aa⟩ := scalar_of_ifaceEq ho ha hi
    rw [(covers_scalar ao aa _).1, ifaceEq_comm]
    exact h
  · exact fun h => h.1

theorem sizeOf_field_lt {kv : Str × Value} {E : List (Str × Value)} (h : kv ∈ E) :
    sizeOf kv.2 < sizeOf (Value.obj E) := by
  have := List.sizeOf_lt_of_mem h
  obtain ⟨k, v⟩ := kv
  simp only [Value.obj.sizeOf_spec, Prod.mk.sizeOf_spec] at *
  omega

theorem elems_iff (es : List Value) : ∀ as : List Value,
    (∀ v ∈ es, ∀ a ∈ as, (deepEqual v a = true ↔ covers v a = true ∧ covers a v = true)) →
    (elemsEqual es as = true ↔ elemsCover es as = true ∧ elemsCover as es = true) := by
  induction es with
  | nil =>
    intro as _
    cases as with
    | nil => simp [elemsEqual, elemsCover]
    | cons a s => simp [elemsEqual, elemsCover]
  | cons v r ih =>
    intro as h
    cases as with
    | nil => simp [elemsEqual, elemsCover]
    | cons a s =>
      rw [elemsEqual, elemsCover, elemsCover]
      simp only [Bool.and_eq_true]
      rw [h v (List.mem_cons_self _ _) a (List.mem_cons_self _ _),
        ih s (fun v hv a ha => h v (List.mem_cons_of_mem _ hv) a (List.mem_cons_of_mem _ ha))]
      tauto

theorem elemsDistinct_iff : ∀ es : List Value,
    elemsDistinct es = true ↔ ∀ v ∈ es, distinctKeys v = true := by
  intro es
  induction es with
  | nil => simp [elemsDistinct]
  | cons v es ih =>
    rw [elemsDistinct, Bool.and_eq_true, ih]
    constructor
    · rintro ⟨h₁, h₂⟩ w hw
      rcases List.mem_cons.1 hw with e | hm
      · subst e; exact h₁
      · exact h₂ w hm
    · intro h
      exact ⟨h v (List.mem_cons_self _ _), fun w hm => h w (List.mem_cons_of_mem _ hm)⟩

/-- On documents with distinct keys, deep equality is what the plain
comparison tests in its two directions together. -/
theorem deepEqual_iff_covers : ∀ (n : Nat) (v a : Value), sizeOf v ≤ n →
    distinctKeys v = true → distinctKeys a = true →
    (deepEqual v a = true ↔ covers v a = true ∧ covers a v = true) := by
  intro n
  induction n with
  | zero =>
    intro v a h
    cases v <;> simp at h
  | succ n ih =>
    intro v a hn wv wa
    cases v with
    | obj E =>
      cases a with
      | obj A =>
        rw [deepEqual, covers, covers]
        simp only [Bool.and_eq_true, fieldsEqual_iff, fieldsCover_iff, List.all_eq_true]
        rw [distinctKeys, Bool.and_eq_true, decide_eq_true_eq, fieldsDistinct_iff] at wv wa
        have hsz : ∀ kv ∈ E, sizeOf kv.2 ≤ n := by
          intro kv hkv
          have := sizeOf_field_lt hkv
          omega
        constructor
        · rintro ⟨h₁, h₂⟩
          refine ⟨?_, ?_⟩
          · intro kv hkv
            obtain ⟨a, hl, hd⟩ := h₁ kv hkv
            exact ⟨a, hl, ((ih kv.2 a (hsz kv hkv) (wv.2 kv hkv)
              (wa.2 _ (lookup_mem hl))).1 hd).1⟩
          · intro kv hkv
            have hs := h₂ kv hkv
            cases hl : lookup kv.1 E with
            | none => rw [hl] at hs; exact Bool.noConfusion hs
            | some v =>
              have hv := lookup_mem hl
              obtain ⟨a, hl', hd⟩ := h₁ _ hv
              have e : lookup kv.1 A = some kv.2 := lookup_of_mem wa.1 hkv
              simp only [] at hl'
              rw [e] at hl'
              cases hl'
              exact ⟨v, rfl, ((ih v kv.2 (hsz _ hv) (wv.2 _ hv) (wa.2 _ hkv)).1 hd).2⟩
        · rintro ⟨h₁, h₂⟩
          refine ⟨?_, ?_⟩
          · intro kv hkv
            obtain ⟨a, hl, hc⟩ := h₁ kv hkv
            have ha := lookup_mem hl
            obtain ⟨v', hl', hc'⟩ := h₂ _ ha
            have e : lookup kv.1 E = some kv.2 := lookup_of_mem wv.1 hkv
            simp only [] at hl'
            rw [e] at hl'
            cases hl'
            exact ⟨a, hl, (ih kv.2 a (hsz kv hkv) (wv.2 kv hkv) (wa.2 _ ha)).2 ⟨hc, hc'⟩⟩
          · intro kv hkv
            obtain ⟨v, hl, _⟩ := h₂ kv hkv
            rw [hl]; rfl
      | _ =>
        refine ⟨fun h => ?_, fun h => ?_⟩
        · rw [(covers_obj_other E (by rfl)).2] at h; exact Bool.noConfusion h
        · rw [(covers_obj_other E (by rfl)).1] at h; exact Bool.noConfusion h.1
    | arr es =>
      cases a with
      | arr as =>
        rw [deepEqual, covers, covers]
        rw [distinctKeys, elemsDistinct_iff] at wv wa
        refine elems_iff es as (fun v hv a ha => ih v a ?_ (wv v hv) (wa a ha))
        have := List.sizeOf_lt_of_mem hv
        simp only [Value.arr.sizeOf_spec] at hn
        omega
      | _ =>
        refine ⟨fun h => ?_, fun h => ?_⟩
        · rw [(covers_arr_other es (by rfl)).2] at h; exact Bool.noConfusion h
        · rw [(covers_arr_other es (by rfl)).1] at h; exact Bool.noConfusion h.1
    | _ => exact deepEqual_scalar_iff (by rfl) (by rfl) a

/-! ## The plain comparison, one direction -/

theorem setCurrPath_eq (c : Comparator) (p k : Str) :
    setCurrPath c p k = { c with currPath := p ++ "//".toList ++ k } := by
  unfold setCurrPath
  split
  · rfl
  · next h => simp at h; subst h; rfl

theorem records_le_of_grows {P : Str → Prop} {c c' : Comparator} (h : Grows P c c') :
    (records c).length ≤ (records c').length := by
  obtain ⟨added, e, -⟩ := h
  unfold records
  rw [e, List.filter_append, List.length_append]
  omega

theorem Follows.path {α : Type} {b : Bool} {c : Comparator} {q : Str} {r : Res α} {a : α}
    (h : Follows b { c with currPath := q } r a) : Follows b c r a :=
  ⟨fun hb => h.1 hb, fun hb => h.2 hb⟩

theorem Follows.quiet {α : Type} {c : Comparator} {q : Str} {a : α} :
    Follows true c (.done { c with currPath := q } a) a :=
  ⟨fun _ => ⟨q, rfl⟩, fun h => Bool.noConfusion h⟩

theorem Follows.loud {α : Type} {c d : Comparator} {r : Res α} {a : α}
    (h₁ : (records c).length < (records d).length)
    (h₂ : (records d).length ≤ (records r.comp).length) : Follows false c r a :=
  ⟨fun h => Bool.noConfusion h, fun _ => Or.inr (Nat.lt_of_lt_of_le h₁ h₂)⟩

theorem Follows.ofPanic {α : Type} {c d : Comparator} {a : α} :
    Follows false c (.panic d : Res α) a :=
  ⟨fun h => Bool.noConfusion h, fun _ => Or.inl rfl⟩

/-- A first call that follows `b₁`, and then the rest of a loop that follows
`b₂` when started from an unchanged state and never loses a record. -/
theorem Follows.step {α β : Type} {c : Comparator} {b d : Bool} {r : Res α} {a : α}
    {f : Comparator → α → Res β} {z : β}
    (h₁ : Follows b c r a)
    (h₂ : ∀ q, Follows d { c with currPath := q } (f { c with currPath := q } a) z)
    (hm : ∀ c' x, (records c').length ≤ (records (f c' x).comp).length) :
    Follows (b && d) c (r.bind f) z := by
  cases b with
  | true =>
    obtain ⟨q, hq⟩ := h₁.1 rfl
    rw [hq, Bool.true_and]
    exact (h₂ q).path
  | false =>
    rw [Bool.false_and]
    refine ⟨fun h => Bool.noConfusion h, fun _ => ?_⟩
    cases r with
    | panic c' => exact Or.inl rfl
    | done c' x =>
      rcases h₁.2 rfl with h | h
      · exact Bool.noConfusion h
      · exact Or.inr (Nat.lt_of_lt_of_le h (hm c' x))

theorem setField_self {k : Str} {a : Value} : ∀ {A : List (Str × Value)},
    lookup k A = some a → setField k a A = A := by
  intro A
  induction A with
  | nil => intro _; rfl
  | cons e A ih =>
    obtain ⟨k', w⟩ := e
    intro h
    rw [lookup] at h
    rw [setField]
    by_cases hk : k' = k
    · rw [if_pos hk] at h
      cases h
      rw [if_pos hk]
    · rw [if_neg hk] at h
      rw [if_neg hk, ih h]

theorem records_newMissProp (c : Comparator) :
    (records (newMissProp c)).length = (records c).length + 1 := by
  simp [records, newMissProp, List.filter_append]

theorem records_newUnequalVal (lib : GoLib) (c : Comparator) (exp act : Value) :
    (records (newUnequalVal lib c exp act)).length = (records c).length + 1 := by
  unfold newUnequalVal newIncorrType
  split <;> simp [records, List.filter_append]

theorem records_newIncorrType (lib : GoLib) (c : Comparator) (exp act : Value) :
    (records (newIncorrType lib c exp act)).length = (records c).length + 1 := by
  simp [records, newIncorrType, List.filter_append]

theorem records_compareArrLen (c : Comparator) (p : Str) {m n : Nat} (h : m ≠ n) :
    (records (compareArrLen c p m n)).length = (records c).length + 1 := by
  unfold compareArrLen
  split
  · simp [records, newLackItems, List.filter_append]
  · split
    · simp [records, newExceedItems, List.filter_append]
    · omega

theorem matchingKeys_nil (c : Comparator) (h : c.keys = []) : matchingKeys c = [] := by
  unfold matchingKeys
  rw [h]
  rfl

/-- The scalar branch of the two loops in a plain comparison. -/
theorem compareValues_plain (lib : GoLib) (c : Comparator) (hc : Plain c) (v a : Value)
    (h : ifaceEq v a = some false) :
    compareValues lib c v a = .done (newUnequalVal lib c v a) () := by
  unfold compareValues
  rw [h]
  simp only [hc.2.2, Bool.not_false, if_true]

theorem elemsCover_length : ∀ (es as : List Value), elemsCover es as = true →
    es.length = as.length := by
  intro es
  induction es with
  | nil =>
    intro as h
    cases as with
    | nil => rfl
    | cons a s => rw [elemsCover] at h; exact Bool.noConfusion h
  | cons v r ih =>
    intro as h
    cases as with
    | nil => rw [elemsCover] at h; exact Bool.noConfusion h
    | cons a s =>
      rw [elemsCover, Bool.and_eq_true] at h
      rw [List.length_cons, List.length_cons, ih s h.2]

theorem set_same {α : Type} : ∀ (l : List α) (i : Nat) (a : α), l[i]? = some a → l.set i a = l := by
  intro l
  induction l with
  | nil => intro i a _; rfl
  | cons b l ih =>
    intro i a h
    cases i with
    | zero =>
      simp only [List.getElem?_cons_zero, Option.some.injEq] at h
      subst h; rfl
    | succ i =>
      simp only [List.getElem?_cons_succ] at h
      rw [List.set_cons_succ, ih i a h]

mutual
theorem compareObj_plain (lib : GoLib) (p : Str) (c : Comparator) (E : List (Str × Value))
    (act : Value) (hc : Plain c) :
    Follows (covers (.obj E) act) c (compareObj lib p c (.obj E) act) act := by
  cases hact : act.isObj with
  | false =>
    rw [(covers_obj_other E hact).1]
    have : compareObj lib p c (.obj E) act = .panic c := by
      cases act <;> first | rfl | exact Bool.noConfusion hact
    rw [this]
    exact Follows.ofPanic
  | true =>
    cases act with
    | obj A =>
      have h := objLoop_plain lib p c E A hc
      rw [compareObj, covers]
      have := Follows.step (d := true) (z := Value.obj A)
        (f := fun c' afs => Res.done c' (Value.obj afs)) h
        (fun q => Follows.quiet) (fun c' x => Nat.le_refl _)
      rw [Bool.and_true] at this
      exact this
    | _ => exact Bool.noConfusion hact
termination_by 1 + sizeOf E
decreasing_by all_goals simp_wf
theorem objLoop_plain (lib : GoLib) (p : Str) (c : Comparator) (E A : List (Str × Value))
    (hc : Plain c) :
    Follows (fieldsCover E A) c (objLoop lib p c E A) A := by
  cases E with
  | nil =>
    rw [objLoop, fieldsCover]
    exact Follows.quiet
  | cons e rest =>
    obtain ⟨k, v⟩ := e
    have hmono : ∀ (c' : Comparator) (A' : List (Str × Value)),
        (records c').length ≤ (records (objLoop lib p c' rest A').comp).length :=
      fun c' A' => records_le_of_grows (objLoop_grows lib p c' rest A')
    have hrest : ∀ q, Follows (fieldsCover rest A) { c with currPath := q }
        (objLoop lib p { c with currPath := q } rest A) A :=
      fun q => objLoop_plain lib p _ rest A hc
    rw [fieldsCover]
    unfold objLoop
    simp only [setCurrPath_eq]
    cases hl : lookup k A with
    | none =>
      simp only [Bool.false_and]
      exact Follows.loud (d := newMissProp { c with currPath := p ++ "//".toList ++ k })
        (by rw [records_newMissProp]; exact Nat.lt_succ_self _) (hmono _ _)
    | some a =>
      simp only []
      cases v with
      | obj E' =>
        simp only []
        refine Follows.step (a := a)
          (compareObj_plain lib _ { c with currPath := p ++ "//".toList ++ k } E' a hc).path
          (fun q => ?_) (fun c' x => hmono c' _)
        simp only [setField_self hl]
        exact hrest q
      | arr es =>
        simp only []
        refine Follows.step (a := a)
          (compareArr_plain lib _ { c with currPath := p ++ "//".toList ++ k } es a hc).path
          (fun q => ?_) (fun c' x => hmono c' _)
        simp only [setField_self hl]
        exact hrest q
      | _ =>
        simp only []
        rw [(covers_scalar (by rfl) (by rfl) a).1]
        cases hi : ifaceEq _ a with
        | none =>
          simp only [decide_False, Bool.false_and, reduceCtorEq]
          exact Follows.ofPanic
        | some b =>
          cases b with
          | true =>
            simp only [decide_True, Bool.true_and]
            exact (hrest _).path
          | false =>
            have hcv := compareValues_plain lib { c with currPath := p ++ "//".toList ++ k }
              hc _ a hi
            have hign : ignoreCurrKey { c with currPath := p ++ "//".toList ++ k } = false :=
              ignoreCurrKey_nil _ hc.2.1
            simp only [hign, hcv, Res.bind]
            simp only [Option.some.injEq, Bool.false_eq_true, decide_False, Bool.false_and,
              if_false]
            exact Follows.loud (d := newUnequalVal lib
                { c with currPath := p ++ "//".toList ++ k } _ a)
              (by rw [records_newUnequalVal]; exact Nat.lt_succ_self _) (hmono _ _)
termination_by sizeOf E
decreasing_by all_goals (simp_wf; try omega)
theorem compareArr_plain (lib : GoLib) (p : Str) (c : Comparator) (es : List Value)
    (act : Value) (hc : Plain c) :
    Follows (covers (.arr es) act) c (compareArr lib p c (.arr es) act) act := by
  cases hact : act.isArr with
  | false =>
    rw [(covers_arr_other es hact).1]
    have : compareArr lib p c (.arr es) act = .panic (setCurrPath c p "<array>".toList) := by
      cases act <;> first | rfl | exact Bool.noConfusion hact
    rw [this]
    exact Follows.ofPanic
  | true =>
    cases act with
    | arr as =>
      rw [compareArr, covers]
      simp only [setCurrPath_eq]
      rw [matchingKeys_nil { c with currPath := p ++ "//".toList ++ "<array>".toList } hc.1]
      simp only [List.length_nil, gt_iff_lt, Nat.lt_irrefl, if_false]
      by_cases hlen : es.length = as.length
      · have hlen' : compareArrLen { c with currPath := p ++ "//".toList ++ "<array>".toList }
            (p ++ "//".toList ++ "<array>".toList) es.length as.length
            = { c with currPath := p ++ "//".toList ++ "<array>".toList } := by
          unfold compareArrLen
          rw [if_neg (by omega), if_neg (by omega)]
        rw [hlen']
        have h := orderLoop_plain lib (p ++ "//".toList ++ "<array>".toList)
          { c with currPath := p ++ "//".toList ++ "<array>".toList } 0 es as hc
          (by omega)
        rw [List.drop_zero] at h
        have := Follows.step (d := true) (z := Value.arr as)
          (f := fun c' back => Res.done c' (Value.arr back)) h.path
          (fun q => Follows.quiet) (fun c' x => Nat.le_refl _)
        rw [Bool.and_true] at this
        exact this
      · have hcov : elemsCover es as = false := by
          cases h : elemsCover es as with
          | false => rfl
          | true => exact absurd (elemsCover_length es as h) hlen
        rw [hcov]
        refine Follows.loud (d := compareArrLen
          { c with currPath := p ++ "//".toList ++ "<array>".toList }
          (p ++ "//".toList ++ "<array>".toList) es.length as.length)
          (by rw [records_compareArrLen _ _ hlen]; exact Nat.lt_succ_self _) ?_
        exact records_le_of_grows (Grows.seq (orderLoop_grows lib _ _ _ 0 es as)
          (fun c' a => Grows.of_eq rfl))
    | _ => exact Bool.noConfusion hact
termination_by 1 + sizeOf es
decreasing_by all_goals simp_wf
theorem orderLoop_plain (lib : GoLib) (p : Str) (c : Comparator) (i : Nat)
    (es back : List Value) (hc : Plain c) (hlen : i + es.length = back.length) :
    Follows (elemsCover es (back.drop i)) c (orderLoop lib p back.length c i es back) back := by
  cases es with
  | nil =>
    rw [orderLoop, elemsCover, List.drop_of_length_le (by simp at hlen; omega)]
    exact Follows.quiet
  | cons v rest =>
    have hi : i < back.length := by simp at hlen; omega
    have hmono : ∀ (c' : Comparator) (back' : List Value),
        (records c').length ≤
          (records (orderLoop lib p back.length c' (i + 1) rest back').comp).length :=
      fun c' back' => records_le_of_grows (orderLoop_grows lib p _ c' (i + 1) rest back')
    have hrest : ∀ q, Follows (elemsCover rest (back.drop (i + 1))) { c with currPath := q }
        (orderLoop lib p back.length { c with currPath := q } (i + 1) rest back) back :=
      fun q => orderLoop_plain lib p _ (i + 1) rest back hc (by simp at hlen; omega)
    rw [List.drop_eq_getElem_cons hi, elemsCover]
    unfold orderLoop
    simp only [setCurrPath_eq, ge_iff_le, Nat.not_le.2 hi, if_false, List.getElem?_eq_getElem hi]
    cases v with
    | obj E' =>
      simp only []
      refine Follows.step (a := back[i])
        (compareObj_plain lib _ { c with currPath := p ++ "//".toList ++ fmtNat i } E' _ hc).path
        (fun q => ?_) (fun c' x => hmono c' _)
      simp only [set_same back i _ (List.getElem?_eq_getElem hi)]
      exact hrest q
    | arr es' =>
      simp only []
      refine Follows.step (a := back[i])
        (compareArr_plain lib _ { c with currPath := p ++ "//".toList ++ fmtNat i } es' _ hc).path
        (fun q => ?_) (fun c' x => hmono c' _)
      simp only [set_same back i _ (List.getElem?_eq_getElem hi)]
      exact hrest q
    | _ =>
      simp only []
      rw [(covers_scalar (by rfl) (by rfl) _).1]
      cases hi' : ifaceEq _ back[i] with
      | none =>
        simp only [decide_False, Bool.false_and, reduceCtorEq]
        exact Follows.ofPanic
      | some b =>
        cases b with
        | true =>
          simp only [decide_True, Bool.true_and]
          exact (hrest _).path
        | false =>
          have hcv := compareValues_plain lib { c with currPath := p ++ "//".toList ++ fmtNat i }
            hc _ _ hi'
          simp only [hcv, Res.bind]
          simp only [Option.some.injEq, Bool.false_eq_true, decide_False, Bool.false_and]
          exact Follows.loud (d := newUnequalVal lib
              { c with currPath := p ++ "//".toList ++ fmtNat i } _ back[i])
            (by rw [records_newUnequalVal]; exact Nat.lt_succ_self _) (hmono _ _)
termination_by sizeOf es
decreasing_by all_goals (simp_wf; subst_vars; simp; try omega)
end

/-- One pass of the plain comparison over the two documents, either way round. -/
theorem compare_plain (lib : GoLib) (c : Comparator) (hc : Plain c)
    (hL : c.lData.isObj = true ∨ c.lData.isArr = true)
    (hR : c.rData.isObj = true ∨ c.rData.isArr = true) :
    Follows (covers c.lData c.rData) c (compare lib c false) () ∧
    Follows (covers c.rData c.lData) c (compare lib c true) () := by
  obtain ⟨⟨Log, currPath, n₁, n₂, n₃, n₄, n₅, n₆⟩, lName, rName, lData, rData, keys, ign, ty, pb⟩ := c
  have hloud : ∀ (w : Bool) (e a : Value) (c : Comparator),
      Follows false c (Res.done (newIncorrType lib c e a) ()) () :=
    fun w e a c => Follows.loud (d := newIncorrType lib c e a)
      (by rw [records_newIncorrType]; exact Nat.lt_succ_self _) (Nat.le_refl _)
  cases lData with
  | obj E =>
    cases rData with
    | obj A =>
      constructor
      · have := Follows.step (d := true) (z := ())
          (f := fun (c' : Comparator) a => Res.done { c' with rData := a } ())
          (compareObj_plain lib lName _ E (.obj A) hc)
          (fun q => Follows.quiet) (fun c' x => Nat.le_refl _)
        rw [Bool.and_true] at this
        exact this
      · have := Follows.step (d := true) (z := ())
          (f := fun (c' : Comparator) a => Res.done { c' with lData := a } ())
          (compareObj_plain lib rName _ A (.obj E) hc)
          (fun q => Follows.quiet) (fun c' x => Nat.le_refl _)
        rw [Bool.and_true] at this
        exact this
    | arr as =>
      rw [(covers_obj_other E (by rfl)).1, (covers_arr_other as (by rfl)).1]
      exact ⟨hloud false _ _ _, hloud true _ _ _⟩
    | _ => rcases hR with h | h <;> exact Bool.noConfusion h
  | arr es =>
    cases rData with
    | arr as =>
      constructor
      · have := Follows.step (d := true) (z := ())
          (f := fun (c' : Comparator) a => Res.done { c' with rData := a } ())
          (compareArr_plain lib lName _ es (.arr as) hc)
          (fun q => Follows.quiet) (fun c' x => Nat.le_refl _)
        rw [Bool.and_true] at this
        exact this
      · have := Follows.step (d := true) (z := ())
          (f := fun (c' : Comparator) a => Res.done { c' with lData := a } ())
          (compareArr_plain lib rName _ as (.arr es) hc)
          (fun q => Follows.quiet) (fun c' x => Nat.le_refl _)
        rw [Bool.and_true] at this
        exact this
    | obj A =>
      rw [(covers_obj_other A (by rfl)).1, (covers_arr_other es (by rfl)).1]
      exact ⟨hloud false _ _ _, hloud true _ _ _⟩
    | _ => rcases hR with h | h <;> exact Bool.noConfusion h
  | _ => rcases hL with h | h <;> exact Bool.noConfusion h

/-- No pass over the two documents takes a record away. -/
theorem compare_keeps (lib : GoLib) (c : Comparator) (w : Bool) :
    (records c).length ≤ (records (compare lib c w).comp).length := by
  unfold compare
  simp only []
  split
  · exact records_le_of_grows (Grows.seq (compareArr_grows lib _ c _ _)
      (fun c' a => by cases w <;> exact Grows.of_eq rfl))
  · split
    · exact records_le_of_grows (Grows.seq (compareObj_grows lib _ c _ _)
        (fun c' a => by cases w <;> exact Grows.of_eq rfl))
    · rw [Res.comp, records_newIncorrType]
      exact Nat.le_succ _

theorem records_setupSummary (c : Comparator) : records (setupSummary c) = records c := by
  simp [records, setupSummary, List.filter_append]

theorem Plain.afterKeyRoot {c : Comparator} (hc : Plain c) (old new : Str) :
    Plain (setKeyRoot c old new) := by
  refine ⟨?_, hc.2.1, hc.2.2⟩
  unfold setKeyRoot
  simp only [hc.1, List.map_nil]

/-- The closing step of `CompareFull` after a pass that panicked or left a
record: the run does not complete without a record. -/
theorem summary_after_loud {r : Res Unit} (a b : Comparator → Str)
    (h : r.isDone = false ∨ 0 < (records r.comp).length) :
    ¬ ((r.bind fun c5 _ => Res.done (setupSummary (setKeyRoot c5 (a c5) (b c5))) ()).isDone = true ∧
      records (r.bind fun c5 _ =>
        Res.done (setupSummary (setKeyRoot c5 (a c5) (b c5))) ()).comp = []) := by
  rintro ⟨hd, hr⟩
  cases r with
  | panic c' => exact Bool.noConfusion hd
  | done c5 u =>
    rcases h with h | h
    · exact Bool.noConfusion h
    · have e : records (setupSummary (setKeyRoot c5 (a c5) (b c5))) = records c5 :=
        records_setupSummary _
      have hr' : records (setupSummary (setKeyRoot c5 (a c5) (b c5))) = [] := hr
      rw [e] at hr'
      rw [Res.comp, hr'] at h
      exact Nat.lt_irrefl _ h

/-- The method `CompareFull` on a plain Comparator: it completes without a
record exactly when both passes find nothing. -/
theorem CompareFull_plain (lib : GoLib) (c : Comparator) (hc : Plain c)
    (hL : c.lData.isObj = true ∨ c.lData.isArr = true)
    (hR : c.rData.isObj = true ∨ c.rData.isArr = true) :
    ((CompareFull lib c).isDone = true ∧ records (CompareFull lib c).comp = []) ↔
      (covers c.lData c.rData = true ∧ covers c.rData c.lData = true) := by
  have hc1 : Plain (clearTemp c) := hc
  have hp2 : Plain (setKeyRoot (clearTemp c) "DATA".toList (clearTemp c).lName) :=
    hc1.afterKeyRoot _ _
  have h₁ := (compare_plain lib _ hp2 hL hR).1
  have hunf : CompareFull lib c
      = (compare lib (setKeyRoot (clearTemp c) "DATA".toList (clearTemp c).lName) false).bind
        fun c3 _ => (compare lib (setKeyRoot c3 c3.rName c3.rName) true).bind
          fun c5 _ => Res.done (setupSummary (setKeyRoot c5 c5.lName "DATA".toList)) () := rfl
  rw [hunf]
  have hL2 : (setKeyRoot (clearTemp c) "DATA".toList (clearTemp c).lName).lData = c.lData := rfl
  have hR2 : (setKeyRoot (clearTemp c) "DATA".toList (clearTemp c).lName).rData = c.rData := rfl
  rw [hL2, hR2] at h₁
  cases hb₁ : covers c.lData c.rData with
  | false =>
    rw [hb₁] at h₁
    refine ⟨fun h => ?_, fun h => Bool.noConfusion h.1⟩
    exfalso
    cases hr₁ : compare lib (setKeyRoot (clearTemp c) "DATA".toList (clearTemp c).lName) false with
    | panic c' => rw [hr₁] at h; exact Bool.noConfusion h.1
    | done c3 u =>
      rw [hr₁] at h h₁
      have hpos : 0 < (records c3).length := by
        rcases h₁.2 rfl with h' | h'
        · exact Bool.noConfusion h'
        · exact Nat.lt_of_le_of_lt (Nat.zero_le _) h'
      refine summary_after_loud (r := compare lib (setKeyRoot c3 c3.rName c3.rName) true)
        (fun c5 => c5.lName) (fun _ => "DATA".toList) (Or.inr ?_) h
      exact Nat.lt_of_lt_of_le hpos (compare_keeps lib (setKeyRoot c3 c3.rName c3.rName) true)
  | true =>
    rw [hb₁] at h₁
    obtain ⟨q, hq⟩ := h₁.1 rfl
    rw [hq]
    have hp3 : Plain (setKeyRoot
        { setKeyRoot (clearTemp c) "DATA".toList (clearTemp c).lName with currPath := q }
        c.rName c.rName) := Plain.afterKeyRoot hp2 _ _
    have h₂ := (compare_plain lib _ hp3 hL hR).2
    have hL3 : (setKeyRoot
        { setKeyRoot (clearTemp c) "DATA".toList (clearTemp c).lName with currPath := q }
        c.rName c.rName).lData = c.lData := rfl
    have hR3 : (setKeyRoot
        { setKeyRoot (clearTemp c) "DATA".toList (clearTemp c).lName with currPath := q }
        c.rName c.rName).rData = c.rData := rfl
    rw [hL3, hR3] at h₂
    show ((compare lib (setKeyRoot
        { setKeyRoot (clearTemp c) "DATA".toList (clearTemp c).lName with currPath := q }
        c.rName c.rName) true).bind
          fun c5 _ => Res.done (setupSummary (setKeyRoot c5 c5.lName "DATA".toList)) ()).isDone
          = true ∧ records ((compare lib (setKeyRoot
        { setKeyRoot (clearTemp c) "DATA".toList (clearTemp c).lName with currPath := q }
        c.rName c.rName) true).bind
          fun c5 _ => Res.done (setupSummary (setKeyRoot c5 c5.lName "DATA".toList)) ()).comp
          = [] ↔ _
    cases hb₂ : covers c.rData c.lData with
    | false =>
      rw [hb₂] at h₂
      refine ⟨fun h => ?_, fun h => Bool.noConfusion h.2⟩
      exfalso
      refine summary_after_loud (fun c5 => c5.lName) (fun _ => "DATA".toList) ?_ h
      rcases h₂.2 rfl with h' | h'
      · exact Or.inl h'
      · exact Or.inr (Nat.lt_of_le_of_lt (Nat.zero_le _) h')
    | true =>
      rw [hb₂] at h₂
      obtain ⟨q', hq'⟩ := h₂.1 rfl
      rw [hq']
      refine ⟨fun _ => ⟨rfl, rfl⟩, fun _ => ⟨rfl, ?_⟩⟩
      rw [Res.bind, Res.comp, records_setupSummary]
      rfl

/-! ## The claims -/

/-- C1 (defect in the code). The two documents are both `[{"id":"a"},{"id":"b"}]`
and the one key declaration is `DATA.<array>.id`. `CompareFull` returns
normally, yet its Log holds an unequal-value record and the summary counts one
difference: the first pass shifted the elements of the right array in place, so
the second pass compares `[{"id":"b"},{"id":"b"}]` with the left document. -/
theorem C1_compareFull_on_identical_documents :
    (CompareFull exampleLib (NewComparatorWithKeys "l.json".toList "r.json".toList idDoc idDoc
      ["DATA.<array>.id".toList] [] false)).isDone = true ∧
    (CompareFull exampleLib (NewComparatorWithKeys "l.json".toList "r.json".toList idDoc idDoc
      ["DATA.<array>.id".toList] [] false)).comp.Log.map Entry.text =
      ["r.json//<array>//0//id\nunequal values: expected b, got a instead".toList,
       ("-------------------\nTOTAL: 1 differences\n- Missing Properties: 0\n" ++
        "- Incorrect Type: 0\n- Lack of Items: 0\n- Exceeding Items: 0\n" ++
        "- Unequal Vales: 1\n- Missing Items: 0\n").toList] := by
  decide!

/-- C2 (defect in the code). With the key declaration `DATA.cats.<array>.id`,
written as the comment of `NewComparatorWithKeys` prescribes, `CompWithRight`
on `{"cats":[nyan, marx]}` against `{"cats":[marx, nyan]}` records four
unequal-value records: the declaration holds no `//`, so `matchingKeys` returns
it whole as a field name that no element has, and every expected element is
paired with the first actual element still in the pool. -/
theorem C2_documented_key_declaration :
    (CompWithRight exampleLib (NewComparatorWithKeys "l.json".toList "r.json".toList
      (catsDoc [nyan, marx]) (catsDoc [marx, nyan])
      ["DATA.cats.<array>.id".toList] [] false)).isDone = true ∧
    (CompWithRight exampleLib (NewComparatorWithKeys "l.json".toList "r.json".toList
      (catsDoc [nyan, marx]) (catsDoc [marx, nyan])
      ["DATA.cats.<array>.id".toList] [] false)).comp.Log.map (fun e => (e.kind, e.path)) =
      [(.unequalVal, "l.json//cats//<array>//0//id".toList),
       (.unequalVal, "l.json//cats//<array>//0//name".toList),
       (.unequalVal, "l.json//cats//<array>//1//id".toList),
       (.unequalVal, "l.json//cats//<array>//1//name".toList),
       (.summary, [])] := by
  decide!

/-- C3, the claim as stated fails. Expected `{"a":"x","a//b":"y"}` against
the empty object at path `DATA`: the key `a` is missing and has its record, but
the record of the missing key `a//b` has the path `DATA//a//b`, which lies
below `DATA//a`. -/
theorem C3_counterexample_nested_field_names :
    (compareObj exampleLib "DATA".toList blank
      (.obj [("a".toList, .str "x".toList), ("a//b".toList, .str "y".toList)])
      (.obj [])).isDone = true ∧
    (compareObj exampleLib "DATA".toList blank
      (.obj [("a".toList, .str "x".toList), ("a//b".toList, .str "y".toList)])
      (.obj [])).comp.Log.filter (fun e => atOrBelow "DATA//a".toList e.path) =
      [missRec "DATA".toList "a".toList, missRec "DATA".toList "a//b".toList] := by
  decide!

/-- C3, as amended. Let `E` be a map (no key twice), `k` a key of `E` absent
from `A`, and let `compareObj(p, E, A)` return normally. If no other key `k'`
of `E` nests with `k` as a path (neither of `k//`, `k'//` starts with the
other), then among the records the call adds, exactly one has a path equal to
or below `p//k`: the 'property is missing' record at `p//k`. The value under
`k` is arbitrary. -/
theorem C3_missing_property_recorded_once (lib : GoLib) (p : Str) (c : Comparator)
    (E A : List (Str × Value)) (k : Str)
    (hE : (E.map Prod.fst).Nodup) (hk : k ∈ E.map Prod.fst) (hA : lookup k A = none)
    (hdone : (compareObj lib p c (.obj E) (.obj A)).isDone = true)
    (hyg : ∀ k' ∈ E.map Prod.fst, k' ≠ k →
      startsWith (k' ++ "//".toList) (k ++ "//".toList) = false ∧
      startsWith (k ++ "//".toList) (k' ++ "//".toList) = false) :
    ∃ added, (compareObj lib p c (.obj E) (.obj A)).comp.Log = c.Log ++ added ∧
      added.filter (fun e => atOrBelow (p ++ "//".toList ++ k) e.path) = [missRec p k] := by
  rw [compareObj] at hdone ⊢
  have hd : (objLoop lib p c E A).isDone = true := by
    cases hr : objLoop lib p c E A with
    | panic c' => rw [hr] at hdone; cases hdone
    | done c' a => rfl
  obtain ⟨added, hlog, hf⟩ := objLoop_missing lib p k E c A hE hk hA hd hyg
  refine ⟨added, ?_, hf⟩
  cases hr : objLoop lib p c E A with
  | panic c' => rw [hr] at hd; cases hd
  | done c' a => rw [hr] at hlog; exact hlog

/-- C3, an instance: expected `{"a":{"b":"x"},"c":"y"}`, actual `{"c":"y"}`,
key `a`, which holds an object. -/
theorem C3_missing_property_recorded_once_witness :
    ∃ added, (compareObj exampleLib "DATA".toList blank
        (.obj [("a".toList, .obj [("b".toList, .str "x".toList)]), ("c".toList, .str "y".toList)])
        (.obj [("c".toList, .str "y".toList)])).comp.Log = blank.Log ++ added ∧
      added.filter (fun e => atOrBelow ("DATA".toList ++ "//".toList ++ "a".toList) e.path)
        = [missRec "DATA".toList "a".toList] :=
  C3_missing_property_recorded_once exampleLib "DATA".toList blank
    [("a".toList, .obj [("b".toList, .str "x".toList)]), ("c".toList, .str "y".toList)]
    [("c".toList, .str "y".toList)] "a".toList
    (by decide) (by decide) rfl (by decide) (by decide)

/-- C4. Let two arrays of lengths `m` and `n` be compared by `compareArr` at
path `p` while no key declaration applies. Then the Log grows by the length
record at `p//<array>` ('lack of items' with `(m, n)` when `m > n`, 'too much
items' with `(m, n)` when `m < n`, nothing when `m = n`), followed by records
whose paths all lie strictly below `p//<array>`; so the length record comes
first and is the only record at `p//<array>`. Expected elements from index `n`
on are never looked at: changing them changes nothing of the outcome. This
holds whether the call returns or panics inside an element. -/
theorem C4_positional_length_record (lib : GoLib) (p : Str) (c : Comparator)
    (es as : List Value)
    (hk : matchingKeys (setCurrPath c p "<array>".toList) = []) :
    (∃ rest, (compareArr lib p c (.arr es) (.arr as)).comp.Log
        = c.Log ++ lenRecs (p ++ "//<array>".toList) es.length as.length ++ rest ∧
      ∀ e ∈ rest, Below (p ++ "//<array>".toList) e.path ∧ e.path ≠ p ++ "//<array>".toList) ∧
    (∀ es' : List Value, es'.length = es.length → es'.take as.length = es.take as.length →
      compareArr lib p c (.arr es') (.arr as) = compareArr lib p c (.arr es) (.arr as)) := by
  have hP : (setCurrPath c p "<array>".toList).currPath = p ++ "//<array>".toList := by
    rw [setCurrPath_currPath]; simp
  constructor
  · rw [compareArr]
    simp only [hk, List.length_nil, gt_iff_lt, Nat.lt_irrefl, if_false]
    obtain ⟨rest, hlog, hpaths⟩ := orderLoop_grows lib (setCurrPath c p "<array>".toList).currPath
      as.length (compareArrLen (setCurrPath c p "<array>".toList)
        (setCurrPath c p "<array>".toList).currPath es.length as.length) 0 es as
    refine ⟨rest, ?_, ?_⟩
    · cases hr : orderLoop lib (setCurrPath c p "<array>".toList).currPath
        as.length (compareArrLen (setCurrPath c p "<array>".toList)
        (setCurrPath c p "<array>".toList).currPath es.length as.length) 0 es as with
      | panic c' =>
        rw [hr] at hlog
        simp only [Res.bind, Res.comp] at hlog ⊢
        rw [hlog, compareArrLen_Log, setCurrPath_Log, hP]
      | done c' a =>
        rw [hr] at hlog
        simp only [Res.bind, Res.comp] at hlog ⊢
        rw [hlog, compareArrLen_Log, setCurrPath_Log, hP]
    · intro e he
      have := hpaths e he
      rw [hP] at this
      exact ⟨this, below_ne this⟩
  · intro es' hl ht
    rw [compareArr, compareArr]
    simp only [hk, List.length_nil, gt_iff_lt, Nat.lt_irrefl, if_false, hl]
    rw [orderLoop_take lib _ as.length es es' _ 0 as hl (by simpa using ht)]

/-- C4, two instances: lengths `(3, 2)` with `["a","b","c"]` against
`["a","b"]`, and lengths `(2, 3)` the other way round. -/
theorem C4_positional_length_record_witness :
    ((∃ rest, (compareArr exampleLib "l.json".toList blank
          (.arr [.str "a".toList, .str "b".toList, .str "c".toList])
          (.arr [.str "a".toList, .str "b".toList])).comp.Log
        = blank.Log ++ lenRecs ("l.json".toList ++ "//<array>".toList) 3 2 ++ rest ∧
      ∀ e ∈ rest, Below ("l.json".toList ++ "//<array>".toList) e.path ∧
        e.path ≠ "l.json".toList ++ "//<array>".toList) ∧
    (∀ es' : List Value, es'.length = 3 →
      es'.take 2 = [Value.str "a".toList, Value.str "b".toList] →
      compareArr exampleLib "l.json".toList blank (.arr es')
          (.arr [.str "a".toList, .str "b".toList])
        = compareArr exampleLib "l.json".toList blank
          (.arr [.str "a".toList, .str "b".toList, .str "c".toList])
          (.arr [.str "a".toList, .str "b".toList]))) ∧
    ((∃ rest, (compareArr exampleLib "l.json".toList blank
          (.arr [.str "a".toList, .str "b".toList])
          (.arr [.str "a".toList, .str "b".toList, .str "c".toList])).comp.Log
        = blank.Log ++ lenRecs ("l.json".toList ++ "//<array>".toList) 2 3 ++ rest ∧
      ∀ e ∈ rest, Below ("l.json".toList ++ "//<array>".toList) e.path ∧
        e.path ≠ "l.json".toList ++ "//<array>".toList) ∧
    (∀ es' : List Value, es'.length = 2 →
      es'.take 3 = [Value.str "a".toList, Value.str "b".toList] →
      compareArr exampleLib "l.json".toList blank (.arr es')
          (.arr [.str "a".toList, .str "b".toList, .str "c".toList])
        = compareArr exampleLib "l.json".toList blank
          (.arr [.str "a".toList, .str "b".toList])
          (.arr [.str "a".toList, .str "b".toList, .str "c".toList]))) :=
  ⟨C4_positional_length_record exampleLib "l.json".toList blank
      [.str "a".toList, .str "b".toList, .str "c".toList]
      [.str "a".toList, .str "b".toList] (by decide),
    C4_positional_length_record exampleLib "l.json".toList blank
      [.str "a".toList, .str "b".toList]
      [.str "a".toList, .str "b".toList, .str "c".toList] (by decide)⟩

/-- C5. For an `int` `n` (64 bits) as expected value and the string of its
decimal rendering as actual value, `compareValues` returns with the Comparator
unchanged when `IgnoreTypes` is true; when it is false it appends exactly one
record, an 'incorrect type' record at the current path (and counts up both
`uneqVal` and `incorrType`). -/
theorem C5_int_against_its_decimal_string (lib : GoLib) (c : Comparator) (n : Int)
    (hn : -2 ^ 63 ≤ n ∧ n < 2 ^ 63) :
    compareValues lib { c with IgnoreTypes := true } (.int n) (.str (fmtInt n))
      = .done { c with IgnoreTypes := true } () ∧
    compareValues lib { c with IgnoreTypes := false } (.int n) (.str (fmtInt n))
      = .done { c with
          IgnoreTypes := false
          uneqVal := c.uneqVal + 1
          incorrType := c.incorrType + 1
          Log := c.Log ++ [⟨.incorrType, c.currPath,
            "\nincorrect type: expected ".toList ++ fmtInt n ++ " <int>, got ".toList
              ++ fmtInt n ++ " <str> instead\n".toList⟩] } () := by
  constructor
  · simp [compareValues, ifaceEq, sameTypedEqual, coercedEqual, sprint, atoi_fmtInt n hn]
  · simp [compareValues, ifaceEq, newUnequalVal, newIncorrType, Value.typeName, sprint,
      toJSONType]

/-- C5, the instance of the claim: expected `5`, actual `"5"`. -/
theorem C5_int_against_its_decimal_string_witness :
    compareValues exampleLib { blank with IgnoreTypes := true } (.int 5) (.str (fmtInt 5))
      = .done { blank with IgnoreTypes := true } () ∧
    compareValues exampleLib { blank with IgnoreTypes := false } (.int 5) (.str (fmtInt 5))
      = .done { blank with
          IgnoreTypes := false
          uneqVal := blank.uneqVal + 1
          incorrType := blank.incorrType + 1
          Log := blank.Log ++ [⟨.incorrType, blank.currPath,
            "\nincorrect type: expected ".toList ++ fmtInt 5 ++ " <int>, got ".toList
              ++ fmtInt 5 ++ " <str> instead\n".toList⟩] } () :=
  C5_int_against_its_decimal_string exampleLib blank 5 (by decide)

/-- C6 (defect in the code). Left `{"k":"x"}` in `a.json`, right `{"k":"y"}` in
`b.json`, ignore list `["DATA//k"]`: `CompWithRight` records the unequal-value
record for `k`, and so does the first pass of `CompareFull`. They walk with the
left name as root, and `ignoreCurrKey` replaces the right name twice and the
left name never, so the path stays `a.json//k` and is not found in the ignore
list. `CompWithLeft`, which walks with the right name as root, records nothing. -/
theorem C6_ignore_path_missed_by_CompWithRight :
    (CompWithRight exampleLib (NewComparatorWithKeys "a.json".toList "b.json".toList
      (.obj [("k".toList, .str "x".toList)]) (.obj [("k".toList, .str "y".toList)])
      [] ["DATA//k".toList] false)).comp.Log.map Entry.text =
      ["a.json//k\nunequal values: expected x, got y instead".toList,
       ("-------------------\nTOTAL: 1 differences\n- Missing Properties: 0\n" ++
        "- Incorrect Type: 0\n- Lack of Items: 0\n- Exceeding Items: 0\n" ++
        "- Unequal Vales: 1\n- Missing Items: 0\n").toList] ∧
    (CompareFull exampleLib (NewComparatorWithKeys "a.json".toList "b.json".toList
      (.obj [("k".toList, .str "x".toList)]) (.obj [("k".toList, .str "y".toList)])
      [] ["DATA//k".toList] false)).comp.Log.map Entry.text =
      ["a.json//k\nunequal values: expected x, got y instead".toList,
       ("-------------------\nTOTAL: 1 differences\n- Missing Properties: 0\n" ++
        "- Incorrect Type: 0\n- Lack of Items: 0\n- Exceeding Items: 0\n" ++
        "- Unequal Vales: 1\n- Missing Items: 0\n").toList] ∧
    (CompWithLeft exampleLib (NewComparatorWithKeys "a.json".toList "b.json".toList
      (.obj [("k".toList, .str "x".toList)]) (.obj [("k".toList, .str "y".toList)])
      [] ["DATA//k".toList] false)).comp.Log.map Entry.text =
      [("-------------------\nTOTAL: 0 differences\n- Missing Properties: 0\n" ++
        "- Incorrect Type: 0\n- Lack of Items: 0\n- Exceeding Items: 0\n" ++
        "- Unequal Vales: 0\n- Missing Items: 0\n").toList] := by
  decide!

/-- C7, the claim as stated fails. `CompWithLeft` with left `{"k":"x"}` and
right `{"k":5}`, coercion off, so that expected is `{"k":5}` and actual
`{"k":"x"}`: without ignore list the incorrect-type record at `k` is recorded,
with the ignore list `["DATA//k"]` it is not. -/
theorem C7_counterexample_scalar_type_mismatch_ignored :
    (CompWithLeft exampleLib (NewComparatorWithKeys "l.json".toList "r.json".toList
      (.obj [("k".toList, .str "x".toList)]) (.obj [("k".toList, five)])
      [] [] false)).comp.Log.map (fun e => (e.kind, e.path)) =
      [(.incorrType, "r.json//k".toList), (.summary, [])] ∧
    (CompWithLeft exampleLib (NewComparatorWithKeys "l.json".toList "r.json".toList
      (.obj [("k".toList, .str "x".toList)]) (.obj [("k".toList, five)])
      [] ["DATA//k".toList] false)).comp.Log.map (fun e => (e.kind, e.path)) =
      [(.summary, [])] := by
  decide!

/-- C7, as amended. For every Comparator `c` (documents, names, keys, coercion
flag, ignore list) and each of `CompWithRight`, `CompWithLeft`, `CompareFull`,
take the run with the ignore list and the run with an empty ignore list, the
latter with a mark on each entry of its Log that tells whether the entry was
written by the call of `compareValues` in `compareObj`, the scalar comparison
of an object field. The marks do not change the run. The two runs end the same
way (both return or both panic). The records of the run with the ignore list
are the records of the other run, in the same order, less exactly those that
are marked and whose path passes the test of `ignoreCurrKey`; the marked ones
are unequal-value and incorrect-type records. So every record that is not
written by the scalar comparison of an object field is recorded with the
ignore list as without it: the 'property is missing', 'lack of items', 'too
much items' and 'missing array item' records, the incorrect-type record of the
roots, and the unequal-value and incorrect-type records of array elements. -/
theorem C7_ignore_list_removes_field_scalars_only (lib : GoLib) (c : Comparator) :
    ((CompWithRightT lib { c with ignoreKeys := [] }).1
        = CompWithRight lib { c with ignoreKeys := [] } ∧
      ThinRun c (CompWithRight lib c) (CompWithRightT lib { c with ignoreKeys := [] })) ∧
    ((CompWithLeftT lib { c with ignoreKeys := [] }).1
        = CompWithLeft lib { c with ignoreKeys := [] } ∧
      ThinRun c (CompWithLeft lib c) (CompWithLeftT lib { c with ignoreKeys := [] })) ∧
    ((CompareFullT lib { c with ignoreKeys := [] }).1
        = CompareFull lib { c with ignoreKeys := [] } ∧
      ThinRun c (CompareFull lib c) (CompareFullT lib { c with ignoreKeys := [] })) := by
  have h0 := thin_start c
  refine ⟨⟨CompWithRightT_fst lib _, ?_⟩, ⟨CompWithLeftT_fst lib _, ?_⟩,
    ⟨CompareFullT_fst lib _, ?_⟩⟩
  · exact ThinRun.lift (compare_thin lib c _ _ _ false (h0.keyRoot _ _))
      (fun d₁ d₂ ms _ hs => by rw [hs.rName]; exact (hs.keyRoot _ _).summary)
  · exact ThinRun.lift (compare_thin lib c _ _ _ true (h0.keyRoot _ _))
      (fun d₁ d₂ ms _ hs => by rw [hs.lName]; exact (hs.keyRoot _ _).summary)
  · refine ThinRun.lift (compare_thin lib c _ _ _ false (h0.keyRoot _ _)) ?_
    intro d₁ d₂ ms _ hs
    rw [hs.rName]
    exact ThinRun.lift (compare_thin lib c _ _ _ true (hs.keyRoot _ _))
      (fun e₁ e₂ ms' _ hs' => by rw [hs'.lName]; exact (hs'.keyRoot _ _).summary)

/-- C7, an instance: `CompWithLeft` on `ignoreBoth`, so that expected is
`{"k":5,"xs":["b"]}` and actual `{"k":"x","xs":["a"]}`. Without the ignore list
the run writes an incorrect-type record at `r.json//k`, which is marked, and an
unequal-value record at `r.json//xs//<array>//0`, which is not. Both paths pass
the test of the ignore list; the run with the list records the second and not
the first. -/
theorem C7_ignore_list_removes_field_scalars_only_witness :
    ThinRun ignoreBoth (CompWithLeft exampleLib ignoreBoth)
      (CompWithLeftT exampleLib { ignoreBoth with ignoreKeys := [] }) ∧
    ((CompWithLeftT exampleLib { ignoreBoth with ignoreKeys := [] }).1.comp.Log.zip
        (CompWithLeftT exampleLib { ignoreBoth with ignoreKeys := [] }).2).map
        (fun eb => (eb.1.kind, eb.1.path, eb.2))
      = [(Kind.incorrType, "r.json//k".toList, true),
         (Kind.unequalVal, "r.json//xs//<array>//0".toList, false),
         (Kind.summary, [], false)] ∧
    ignoredAt ignoreBoth "r.json//k".toList = true ∧
    ignoredAt ignoreBoth "r.json//xs//<array>//0".toList = true ∧
    (CompWithLeft exampleLib ignoreBoth).comp.Log.map (fun e => (e.kind, e.path))
      = [(Kind.unequalVal, "r.json//xs//<array>//0".toList), (Kind.summary, [])] :=
  ⟨(C7_ignore_list_removes_field_scalars_only exampleLib ignoreBoth).2.1.2,
    by decide!, by decide!, by decide!, by decide!⟩

/-- C8 (defect in the code). Expected `{"a":{"b":1}}`, actual `{"a":5}`:
`CompWithRight` panics, and so does `CompareFull`, whose first pass is the same
walk. `compareObj` is entered for the field `a` and asserts
`act.(map[string]interface{})` on the number. No record is written. With the
roles swapped (`CompWithLeft`: expected the number, actual the object) the same
mismatch is reported as an incorrect-type record at `a`. -/
theorem C8_object_against_scalar_panics :
    (CompWithRight exampleLib (NewComparatorWithKeys "l.json".toList "r.json".toList
      (.obj [("a".toList, .obj [("b".toList, one)])]) (.obj [("a".toList, five)])
      [] [] false)).isDone = false ∧
    (CompWithRight exampleLib (NewComparatorWithKeys "l.json".toList "r.json".toList
      (.obj [("a".toList, .obj [("b".toList, one)])]) (.obj [("a".toList, five)])
      [] [] false)).comp.Log = [] ∧
    (CompareFull exampleLib (NewComparatorWithKeys "l.json".toList "r.json".toList
      (.obj [("a".toList, .obj [("b".toList, one)])]) (.obj [("a".toList, five)])
      [] [] false)).isDone = false ∧
    (CompWithLeft exampleLib (NewComparatorWithKeys "l.json".toList "r.json".toList
      (.obj [("a".toList, .obj [("b".toList, one)])]) (.obj [("a".toList, five)])
      [] [] false)).comp.Log.map (fun e => (e.kind, e.path)) =
      [(.incorrType, "r.json//a".toList), (.summary, [])] := by
  decide!

/-- C9 (defect in the code). One root an array, the other an object, any
names and configuration: `CompWithRight` and `CompWithLeft` return normally
with one incorrect-type record and the summary, but the path of the record is
the empty string. `compare` computes the root label and does not use it on
this branch, and `clearTemp` has emptied `currPath`. -/
theorem C9_root_mismatch_record_has_empty_path (lib : GoLib) (l r : Str) (es : List Value)
    (fs : List (Str × Value)) (keys ign : List Str) (t : Bool) :
    (CompWithRight lib (NewComparatorWithKeys l r (.arr es) (.obj fs) keys ign t)).isDone = true ∧
    (CompWithRight lib (NewComparatorWithKeys l r (.arr es) (.obj fs) keys ign t)).comp.Log.map
      (fun e => (e.kind, e.path)) = [(.incorrType, []), (.summary, [])] ∧
    (CompWithLeft lib (NewComparatorWithKeys l r (.arr es) (.obj fs) keys ign t)).isDone = true ∧
    (CompWithLeft lib (NewComparatorWithKeys l r (.arr es) (.obj fs) keys ign t)).comp.Log.map
      (fun e => (e.kind, e.path)) = [(.incorrType, []), (.summary, [])] ∧
    (CompWithRight lib (NewComparatorWithKeys l r (.obj fs) (.arr es) keys ign t)).comp.Log.map
      (fun e => (e.kind, e.path)) = [(.incorrType, []), (.summary, [])] ∧
    (CompWithLeft lib (NewComparatorWithKeys l r (.obj fs) (.arr es) keys ign t)).comp.Log.map
      (fun e => (e.kind, e.path)) = [(.incorrType, []), (.summary, [])] :=
  ⟨rfl, rfl, rfl, rfl, rfl, rfl⟩

/-- C10 (defect in the code). Left `{"a":"x"}`, right `{"a":"y"}`, no keys:
after a first `CompWithRight` the summary reads `Unequal Vales: 1`, after a
second call on the same Comparator it reads `Unequal Vales: 2` under
`TOTAL: 1`. `clearTemp` empties the Log and the path but leaves the six
counters as they were. -/
theorem C10_second_call_keeps_counters :
    (CompWithRight exampleLib (NewComparatorWithKeys "l.json".toList "r.json".toList
      (.obj [("a".toList, .str "x".toList)]) (.obj [("a".toList, .str "y".toList)])
      [] [] false)).comp.Log.map Entry.text =
      ["l.json//a\nunequal values: expected x, got y instead".toList,
       ("-------------------\nTOTAL: 1 differences\n- Missing Properties: 0\n" ++
        "- Incorrect Type: 0\n- Lack of Items: 0\n- Exceeding Items: 0\n" ++
        "- Unequal Vales: 1\n- Missing Items: 0\n").toList] ∧
    ((CompWithRight exampleLib (NewComparatorWithKeys "l.json".toList "r.json".toList
      (.obj [("a".toList, .str "x".toList)]) (.obj [("a".toList, .str "y".toList)])
      [] [] false)).bind (fun c _ => CompWithRight exampleLib c)).comp.Log.map Entry.text =
      ["l.json//a\nunequal values: expected x, got y instead".toList,
       ("-------------------\nTOTAL: 1 differences\n- Missing Properties: 0\n" ++
        "- Incorrect Type: 0\n- Lack of Items: 0\n- Exceeding Items: 0\n" ++
        "- Unequal Vales: 2\n- Missing Items: 0\n").toList] := by
  decide!

/-- C11 (defect in the code). Left `abbDoc` in `l.json`, right `xabDoc` in
`r.json`, key declaration `DATA//<array>//id`: `CompareFull` records three
differences, `CompWithRight` and `CompWithLeft` record four each.
`CompWithRight` and `CompWithLeft` write the name of the other file into the
keys than the one they walk with, so no key ever applies and they compare by
position; the first pass of `CompareFull` does match by key, and its shift of
the right array makes the second pass find less. -/
theorem C11_compareFull_records_fewer :
    (CompareFull exampleLib (NewComparatorWithKeys "l.json".toList "r.json".toList abbDoc xabDoc
      ["DATA//<array>//id".toList] [] false)).comp.Log.map Entry.text =
      ["l.json//<array>//2\nmissing array item: expected <object> with id: b".toList,
       "r.json//<array>//0//id\nunequal values: expected x, got a instead".toList,
       "r.json//<array>//0//name\nunequal values: expected X, got A instead".toList,
       ("-------------------\nTOTAL: 3 differences\n- Missing Properties: 0\n" ++
        "- Incorrect Type: 0\n- Lack of Items: 0\n- Exceeding Items: 0\n" ++
        "- Unequal Vales: 2\n- Missing Items: 1\n").toList] ∧
    (CompWithRight exampleLib (NewComparatorWithKeys "l.json".toList "r.json".toList abbDoc xabDoc
      ["DATA//<array>//id".toList] [] false)).comp.Log.map Entry.text =
      ["l.json//<array>//0//id\nunequal values: expected a, got x instead".toList,
       "l.json//<array>//0//name\nunequal values: expected A, got X instead".toList,
       "l.json//<array>//1//id\nunequal values: expected b, got a instead".toList,
       "l.json//<array>//1//name\nunequal values: expected B, got A instead".toList,
       ("-------------------\nTOTAL: 4 differences\n- Missing Properties: 0\n" ++
        "- Incorrect Type: 0\n- Lack of Items: 0\n- Exceeding Items: 0\n" ++
        "- Unequal Vales: 4\n- Missing Items: 0\n").toList] ∧
    (CompWithLeft exampleLib (NewComparatorWithKeys "l.json".toList "r.json".toList abbDoc xabDoc
      ["DATA//<array>//id".toList] [] false)).comp.Log.map Entry.text =
      ["r.json//<array>//0//id\nunequal values: expected x, got a instead".toList,
       "r.json//<array>//0//name\nunequal values: expected X, got A instead".toList,
       "r.json//<array>//1//id\nunequal values: expected a, got b instead".toList,
       "r.json//<array>//1//name\nunequal values: expected A, got B instead".toList,
       ("-------------------\nTOTAL: 4 differences\n- Missing Properties: 0\n" ++
        "- Incorrect Type: 0\n- Lack of Items: 0\n- Exceeding Items: 0\n" ++
        "- Unequal Vales: 4\n- Missing Items: 0\n").toList] := by
  decide!

/-- C12 (defect in the code). `A = {"k":"x"}` in `a.json`, `B = {"k":"y"}` in
`b.json`, ignore list `["DATA//k"]`. `CompWithLeft` with left `A` and right `B`
records nothing; `CompWithRight` with left `B` and right `A`, which walks the
same pair of trees under the same root label, records the unequal-value record.
The two runs differ in `rName` only, and `ignoreCurrKey` replaces `rName` and
never `lName`. -/
theorem C12_mirror_broken_by_ignore_path :
    (CompWithLeft exampleLib (NewComparatorWithKeys "a.json".toList "b.json".toList
      (.obj [("k".toList, .str "x".toList)]) (.obj [("k".toList, .str "y".toList)])
      [] ["DATA//k".toList] false)).comp.Log.map Entry.text =
      [("-------------------\nTOTAL: 0 differences\n- Missing Properties: 0\n" ++
        "- Incorrect Type: 0\n- Lack of Items: 0\n- Exceeding Items: 0\n" ++
        "- Unequal Vales: 0\n- Missing Items: 0\n").toList] ∧
    (CompWithRight exampleLib (NewComparatorWithKeys "b.json".toList "a.json".toList
      (.obj [("k".toList, .str "y".toList)]) (.obj [("k".toList, .str "x".toList)])
      [] ["DATA//k".toList] false)).comp.Log.map Entry.text =
      ["b.json//k\nunequal values: expected y, got x instead".toList,
       ("-------------------\nTOTAL: 1 differences\n- Missing Properties: 0\n" ++
        "- Incorrect Type: 0\n- Lack of Items: 0\n- Exceeding Items: 0\n" ++
        "- Unequal Vales: 1\n- Missing Items: 0\n").toList] := by
  decide!

/-- C13 (defect in the code). Left `{"k":true}`, right `{"k":"x"}`, coercion
off, a Comparator fresh from the constructor: `CompWithRight` writes one
record, an incorrect-type record, and the summary counts it twice, under
Incorrect Type and under Unequal Values, while TOTAL is 1. `newUnequalVal`
counts `uneqVal` up before it finds the types different and hands over to
`newIncorrType`. -/
theorem C13_type_mismatch_counted_twice :
    (CompWithRight exampleLib (NewComparatorWithKeys "l.json".toList "r.json".toList
      (.obj [("k".toList, .bool true)]) (.obj [("k".toList, .str "x".toList)])
      [] [] false)).comp.Log.map Entry.text =
      ["l.json//k\nincorrect type: expected true <bool>, got x <str> instead\n".toList,
       ("-------------------\nTOTAL: 1 differences\n- Missing Properties: 0\n" ++
        "- Incorrect Type: 1\n- Lack of Items: 0\n- Exceeding Items: 0\n" ++
        "- Unequal Vales: 1\n- Missing Items: 0\n").toList] ∧
    (CompWithRight exampleLib (NewComparatorWithKeys "l.json".toList "r.json".toList
      (.obj [("k".toList, .bool true)]) (.obj [("k".toList, .str "x".toList)])
      [] [] false)).comp.Log.map Entry.kind = [.incorrType, .summary] ∧
    (CompWithRight exampleLib (NewComparatorWithKeys "l.json".toList "r.json".toList
      (.obj [("k".toList, .bool true)]) (.obj [("k".toList, .str "x".toList)])
      [] [] false)).comp.uneqVal = 1 := by
  decide!

/-- C14 (defect in the code). Array path `l.json//<array>`, key field `id`.
On the instance of the claim, expected `[{"id":1},{"id":3}]` against actual
`[{"id":1}]`, `compareArr` completes with the length record and the one
missing-item record, at index 1. With expected `[{"id":3}]` against actual
`[5]` no actual element equals the expected one on `id` either, yet no
missing-item record is written: the call panics with an empty Log, and so does
`CompareFull` on the two documents with the key declaration
`DATA//<array>//id`. `relevantKeyValIdx` asserts a map on every element of the
pool without a check. -/
theorem C14_scalar_in_pool_panics :
    ((compareArr exampleLib "l.json".toList
        { blank with keys := ["l.json//<array>//id".toList] }
        (.arr [.obj [("id".toList, one)], .obj [("id".toList, three)]])
        (.arr [.obj [("id".toList, one)]])).isDone = true ∧
      (compareArr exampleLib "l.json".toList
        { blank with keys := ["l.json//<array>//id".toList] }
        (.arr [.obj [("id".toList, one)], .obj [("id".toList, three)]])
        (.arr [.obj [("id".toList, one)]])).comp.Log.map (fun e => (e.kind, e.path))
        = [(Kind.lackItems, "l.json//<array>".toList),
           (Kind.missItem, "l.json//<array>//1".toList)]) ∧
    ((compareArr exampleLib "l.json".toList
        { blank with keys := ["l.json//<array>//id".toList] }
        (.arr [.obj [("id".toList, three)]]) (.arr [five])).isDone = false ∧
      (compareArr exampleLib "l.json".toList
        { blank with keys := ["l.json//<array>//id".toList] }
        (.arr [.obj [("id".toList, three)]]) (.arr [five])).comp.Log = []) ∧
    (CompareFull exampleLib (NewComparatorWithKeys "l.json".toList "r.json".toList
      (.arr [.obj [("id".toList, three)]]) (.arr [five])
      ["DATA//<array>//id".toList] [] false)).isDone = false := by
  refine ⟨⟨?_, ?_⟩, ⟨?_, ?_⟩, ?_⟩ <;> decide!

/-- C15. In `compareArrByKey` with key fields `keys`, let every expected
element be an object and let the actual elements be objects that are pairwise
distinct on the key fields. Then for every reordering of the actual array the
call ends the same way and leaves the same Log, counters and current path: the
recorded differences do not depend on the order of the actual elements. -/
theorem C15_key_matching_order_independent (lib : GoLib) (p : Str) (c : Comparator)
    (keys : List Str) (es as as' : List Value)
    (hes : ∀ v ∈ es, v.isObj = true) (has : ∀ a ∈ as, a.isObj = true)
    (hd : DistinctOn keys as) (hp : as'.Perm as) :
    (compareArrByKey lib p c (.arr es) (.arr as') keys).isDone
      = (compareArrByKey lib p c (.arr es) (.arr as) keys).isDone ∧
    (compareArrByKey lib p c (.arr es) (.arr as') keys).comp.Log
      = (compareArrByKey lib p c (.arr es) (.arr as) keys).comp.Log ∧
    (compareArrByKey lib p c (.arr es) (.arr as') keys).comp
      = (compareArrByKey lib p c (.arr es) (.arr as) keys).comp := by
  have h₁ := compareArrByKey_pool lib p c es as' keys
  have h₂ := compareArrByKey_pool lib p c es as keys
  have h := poolLoop_perm lib p keys es hes (compareArrLen c p es.length as.length) 0 as as'
    has hd hp
  rw [hp.length_eq] at h₁
  have h' := (h₁.chain h).chain h₂.flip
  exact ⟨h'.1, congrArg (fun d => d.Log) h'.2, h'.2⟩

/-- C15, the instance of the claim: key field `id`, expected
`[{"id":1,"name":"A"},{"id":2,"name":"B"}]`, actual
`[{"id":2,"name":"B!"},{"id":1,"name":"A"}]` and the same in the other order.
Either way the call completes with the one record, an unequal value at `name`
of the expected element with `id` 2. -/
theorem C15_key_matching_order_independent_witness :
    ((compareArrByKey exampleLib "l.json//<array>".toList blank
          (.arr [item one "A", item two "B"]) (.arr [item one "A", item two "B!"])
          ["id".toList]).isDone
        = (compareArrByKey exampleLib "l.json//<array>".toList blank
          (.arr [item one "A", item two "B"]) (.arr [item two "B!", item one "A"])
          ["id".toList]).isDone ∧
      (compareArrByKey exampleLib "l.json//<array>".toList blank
          (.arr [item one "A", item two "B"]) (.arr [item one "A", item two "B!"])
          ["id".toList]).comp.Log
        = (compareArrByKey exampleLib "l.json//<array>".toList blank
          (.arr [item one "A", item two "B"]) (.arr [item two "B!", item one "A"])
          ["id".toList]).comp.Log ∧
      (compareArrByKey exampleLib "l.json//<array>".toList blank
          (.arr [item one "A", item two "B"]) (.arr [item one "A", item two "B!"])
          ["id".toList]).comp
        = (compareArrByKey exampleLib "l.json//<array>".toList blank
          (.arr [item one "A", item two "B"]) (.arr [item two "B!", item one "A"])
          ["id".toList]).comp) ∧
    (compareArrByKey exampleLib "l.json//<array>".toList blank
        (.arr [item one "A", item two "B"]) (.arr [item two "B!", item one "A"])
        ["id".toList]).isDone = true ∧
    (compareArrByKey exampleLib "l.json//<array>".toList blank
        (.arr [item one "A", item two "B"]) (.arr [item two "B!", item one "A"])
        ["id".toList]).comp.Log.map (fun e => (e.kind, e.text))
      = [(Kind.unequalVal,
          "l.json//<array>//1//name\nunequal values: expected B, got B! instead".toList)] :=
  ⟨C15_key_matching_order_independent exampleLib "l.json//<array>".toList blank ["id".toList]
      [item one "A", item two "B"] [item two "B!", item one "A"]
      [item one "A", item two "B!"]
      (by intro v hv; simp at hv; rcases hv with h | h <;> subst h <;> rfl)
      (by intro v hv; simp at hv; rcases hv with h | h <;> subst h <;> rfl)
      (by unfold DistinctOn; simp only [List.pairwise_cons, List.mem_singleton, forall_eq,
            List.not_mem_nil, false_implies, implies_true, List.Pairwise.nil, and_true]; decide)
      (List.Perm.swap _ _ _),
    by decide!, by decide!⟩

/-- C16. Let the actual objects `A` and `A'` hold the same under every key of
the expected object `E` (nothing where the other has nothing), as is the case
when `A'` is `A` extended with keys that do not occur in `E`. Then
`compareObj(p, E, A')` and `compareObj(p, E, A)` end the same way and leave the
same Log, current path and counters: the keys that only the actual side has are
never looked at. -/
theorem C16_extra_actual_keys_unseen (lib : GoLib) (p : Str) (c : Comparator)
    (E A A' : List (Str × Value))
    (hA : ∀ k ∈ E.map Prod.fst, lookup k A' = lookup k A) :
    (compareObj lib p c (.obj E) (.obj A')).isDone
      = (compareObj lib p c (.obj E) (.obj A)).isDone ∧
    (compareObj lib p c (.obj E) (.obj A')).comp.Log
      = (compareObj lib p c (.obj E) (.obj A)).comp.Log ∧
    (compareObj lib p c (.obj E) (.obj A')).comp
      = (compareObj lib p c (.obj E) (.obj A)).comp := by
  have h := objLoop_lookups lib p E c A A' hA
  rw [compareObj, compareObj]
  have h' : SameRun ((objLoop lib p c E A').bind fun c' afs => Res.done c' (Value.obj afs))
      ((objLoop lib p c E A).bind fun c' afs => Res.done c' (Value.obj afs)) := by
    cases h₁ : objLoop lib p c E A' with
    | panic c₁ =>
      cases h₂ : objLoop lib p c E A with
      | panic c₂ => rw [h₁, h₂] at h; exact h
      | done c₂ a₂ => rw [h₁, h₂] at h; exact h
    | done c₁ a₁ =>
      cases h₂ : objLoop lib p c E A with
      | panic c₂ => rw [h₁, h₂] at h; exact h
      | done c₂ a₂ => rw [h₁, h₂] at h; exact h
  exact ⟨h'.1, congrArg (fun d => d.Log) h'.2, h'.2⟩

/-- C16, an instance: expected `{"a":"x","b":"y"}` at `DATA`, actual
`{"a":"z"}` and the same extended with `c` and `d`. -/
theorem C16_extra_actual_keys_unseen_witness :
    (compareObj exampleLib "DATA".toList blank
        (.obj [("a".toList, .str "x".toList), ("b".toList, .str "y".toList)])
        (.obj [("c".toList, .null), ("a".toList, .str "z".toList), ("d".toList, .arr [])])).isDone
      = (compareObj exampleLib "DATA".toList blank
        (.obj [("a".toList, .str "x".toList), ("b".toList, .str "y".toList)])
        (.obj [("a".toList, .str "z".toList)])).isDone ∧
    (compareObj exampleLib "DATA".toList blank
        (.obj [("a".toList, .str "x".toList), ("b".toList, .str "y".toList)])
        (.obj [("c".toList, .null), ("a".toList, .str "z".toList), ("d".toList, .arr [])])).comp.Log
      = (compareObj exampleLib "DATA".toList blank
        (.obj [("a".toList, .str "x".toList), ("b".toList, .str "y".toList)])
        (.obj [("a".toList, .str "z".toList)])).comp.Log ∧
    (compareObj exampleLib "DATA".toList blank
        (.obj [("a".toList, .str "x".toList), ("b".toList, .str "y".toList)])
        (.obj [("c".toList, .null), ("a".toList, .str "z".toList), ("d".toList, .arr [])])).comp
      = (compareObj exampleLib "DATA".toList blank
        (.obj [("a".toList, .str "x".toList), ("b".toList, .str "y".toList)])
        (.obj [("a".toList, .str "z".toList)])).comp :=
  C16_extra_actual_keys_unseen exampleLib "DATA".toList blank
    [("a".toList, .str "x".toList), ("b".toList, .str "y".toList)]
    [("a".toList, .str "z".toList)]
    [("c".toList, .null), ("a".toList, .str "z".toList), ("d".toList, .arr [])]
    (by intro k hk; simp at hk; rcases hk with h | h <;> subst h <;> rfl)

/-- C17 (defect in the code). The summary entry after a run with one
unequal-value record: the line of the unequal values reads `- Unequal Vales: 1`,
so the entry is not the text of the claim, which has `- Unequal Values: 1`.
All else (19 dashes, TOTAL, the other five lines, their order, one per line) is
as the claim has it. -/
theorem C17_summary_text_misspelt :
    ((CompWithRight exampleLib (NewComparatorWithKeys "l.json".toList "r.json".toList
      (.obj [("a".toList, .str "x".toList)]) (.obj [("a".toList, .str "y".toList)])
      [] [] false)).comp.Log.map Entry.text).getLast? =
      some ("-------------------\nTOTAL: 1 differences\n- Missing Properties: 0\n" ++
        "- Incorrect Type: 0\n- Lack of Items: 0\n- Exceeding Items: 0\n" ++
        "- Unequal Vales: 1\n- Missing Items: 0\n").toList ∧
    ((CompWithRight exampleLib (NewComparatorWithKeys "l.json".toList "r.json".toList
      (.obj [("a".toList, .str "x".toList)]) (.obj [("a".toList, .str "y".toList)])
      [] [] false)).comp.Log.map Entry.text).getLast? ≠
      some ("-------------------\nTOTAL: 1 differences\n- Missing Properties: 0\n" ++
        "- Incorrect Type: 0\n- Lack of Items: 0\n- Exceeding Items: 0\n" ++
        "- Unequal Values: 1\n- Missing Items: 0\n").toList := by
  decide!

/-- C18 (defect in the code). At the current path `l.json//<array>`, with the
declarations `id`, `l.json.cats.<array>.id`, `l.json//<array>//name`,
`l.json//<array>//a//b` and `xl.json//<array>//y`, `matchingKeys` returns
`id`, `l.json.cats.<array>.id`, `name` and `xy`. A declaration without any `//`
is returned whole, and one that holds `P//` further in is returned with that
part cut out: the source removes the first occurrence of `P//` wherever it is
and only asks whether a `//` is left. So an array is compared by key as soon as
one declaration has no `//`. -/
theorem C18_matchingKeys_takes_unrelated_declarations :
    matchingKeys { blank with
      keys := ["id".toList, "l.json.cats.<array>.id".toList, "l.json//<array>//name".toList,
        "l.json//<array>//a//b".toList, "xl.json//<array>//y".toList]
      currPath := "l.json//<array>".toList } =
      ["id".toList, "l.json.cats.<array>.id".toList, "name".toList, "xy".toList] := by
  decide!

/-- C19 (defect in the code). Key field `id`, expected `[{"id":1}, 5]`, actual
`[{"id":1}, 5]`: `compareArrByKey` panics, and so does `CompWithRight` on the
two documents. The match of the first element shortens `parsedAct` to length 1,
and the scalar at index 1 is then read from the shortened slice. -/
theorem C19_scalar_after_key_match_panics :
    (compareArrByKey exampleLib "l.json//<array>".toList blank
      (.arr [.obj [("id".toList, one)], five]) (.arr [.obj [("id".toList, one)], five])
      ["id".toList]).isDone = false ∧
    (CompWithRight exampleLib (NewComparatorWithKeys "l.json".toList "r.json".toList
      (.arr [.obj [("id".toList, one)], five]) (.arr [.obj [("id".toList, one)], five])
      ["id".toList] [] false)).isDone = false := by
  decide!

/-- C20. With no key declarations, no ignore paths and coercion off, let `L`
and `R` be two documents whose roots are objects or arrays (as decoded JSON,
no object in them has a key twice). Then `CompareFull` completes with no
difference record in the Log exactly when `L` and `R` are deep-equal. -/
theorem C20_plain_comparison_sound_and_complete (lib : GoLib) (l r : Str) (L R : Value)
    (hL : L.isObj = true ∨ L.isArr = true) (hR : R.isObj = true ∨ R.isArr = true)
    (wL : distinctKeys L = true) (wR : distinctKeys R = true) :
    ((CompareFull lib (NewComparatorWithKeys l r L R [] [] false)).isDone = true ∧
      records (CompareFull lib (NewComparatorWithKeys l r L R [] [] false)).comp = []) ↔
      deepEqual L R = true := by
  rw [CompareFull_plain lib (NewComparatorWithKeys l r L R [] [] false) ⟨rfl, rfl, rfl⟩ hL hR]
  exact (deepEqual_iff_covers (sizeOf L) L R (Nat.le_refl _) wL wR).symm

/-- C20, two instances. `{"a":1,"b":[true,null]}` and `{"b":[true,null],"a":1}`
are deep-equal, and `CompareFull` completes without a record;
`{"a":1,"b":[true,null]}` and `{"b":[true],"a":1}` are not, and it does not. -/
theorem C20_plain_comparison_sound_and_complete_witness :
    ((CompareFull exampleLib (NewComparatorWithKeys "l.json".toList "r.json".toList
        (.obj [("a".toList, one), ("b".toList, .arr [.bool true, .null])])
        (.obj [("b".toList, .arr [.bool true, .null]), ("a".toList, one)])
        [] [] false)).isDone = true ∧
      records (CompareFull exampleLib (NewComparatorWithKeys "l.json".toList "r.json".toList
        (.obj [("a".toList, one), ("b".toList, .arr [.bool true, .null])])
        (.obj [("b".toList, .arr [.bool true, .null]), ("a".toList, one)])
        [] [] false)).comp = []) ∧
    ¬ ((CompareFull exampleLib (NewComparatorWithKeys "l.json".toList "r.json".toList
        (.obj [("a".toList, one), ("b".toList, .arr [.bool true, .null])])
        (.obj [("b".toList, .arr [.bool true]), ("a".toList, one)])
        [] [] false)).isDone = true ∧
      records (CompareFull exampleLib (NewComparatorWithKeys "l.json".toList "r.json".toList
        (.obj [("a".toList, one), ("b".toList, .arr [.bool true, .null])])
        (.obj [("b".toList, .arr [.bool true]), ("a".toList, one)])
        [] [] false)).comp = []) :=
  ⟨(C20_plain_comparison_sound_and_complete exampleLib "l.json".toList "r.json".toList
      (.obj [("a".toList, one), ("b".toList, .arr [.bool true, .null])])
      (.obj [("b".toList, .arr [.bool true, .null]), ("a".toList, one)])
      (Or.inl rfl) (Or.inl rfl) (by decide) (by decide)).2 (by decide),
    fun h => Bool.noConfusion
      ((C20_plain_comparison_sound_and_complete exampleLib "l.json".toList "r.json".toList
        (.obj [("a".toList, one), ("b".toList, .arr [.bool true, .null])])
        (.obj [("b".toList, .arr [.bool true]), ("a".toList, one)])
        (Or.inl rfl) (Or.inl rfl) (by decide) (by decide)).1 h)⟩

end JsonComp
